import Mathlib

/-!
A verification development for the DC3-MWCP `Reporter` class
(`mwcp/reporter.py`): the metadata store with its taxonomy-checked
`add_metadata` operation and subfield cascade engine, the
`output_file` artifact registry, the `runParser` plugin-execution
controller, and the plain-text report renderer.

Python values that can flow into `add_metadata` are modelled by
`PyVal` (a string, a list/tuple of strings, or a string-keyed dict of
strings).  The store `metadata` is an insertion-ordered association
list, as a Python dict is.  A Python metadata list may hold both
strings and string-lists, so its elements are modelled by `Entry`.
Exceptions raised and caught inside the Python code are modelled by
taking the branch the `except` handler takes (a `debug` message); the
formatted traceback text that the message embeds is abstracted as the
placeholder `tracebackText` since no property depends on it.

`add_metadata` recurses through the cascade rules.  The static rule
table is acyclic and its longest chain is
c2_url -> url -> socketaddress -> port -> debug (five frames), so the
recursion depth is bounded; we embed the recursion with a fuel
parameter and run it with `FUEL = 8`, which strictly exceeds every
chain the rule table can produce, making the out-of-fuel base case
unreachable from `add_metadata`.
-/

/-- A value a parser can pass to `add_metadata`: a text string, a
list/tuple of text strings, or a string-keyed dict of text strings. -/
inductive PyVal where
  | str (s : String)
  | tup (items : List String)
  | dict (pairs : List (String × String))
  deriving DecidableEq, Repr

/-- One element of a Python metadata list: `listofstrings` fields hold
`.s` entries, `listofstringtuples` fields hold `.t` entries.  (A Python
list is untyped, so both shapes share one element type; equality between
an `.s` and a `.t` is `False`, just as a Python string never equals a
list.) -/
inductive Entry where
  | s (v : String)
  | t (vs : List String)
  deriving DecidableEq, Repr

/-- A value stored under a sub-key of the catch-all "other" dict:
a single string, or a list of strings after a collision promoted it. -/
inductive DVal where
  | one (v : String)
  | many (vs : List String)
  deriving DecidableEq, Repr

/-- A container stored under one key of `self.metadata`: a Python list
(for the two list shapes) or a Python dict (for "other"). -/
inductive MVal where
  | list (entries : List Entry)
  | dict (pairs : List (String × DVal))
  deriving DecidableEq, Repr

/-- `self.metadata`: a Python dict from field name to container,
modelled as an insertion-ordered association list. -/
abbrev Store := List (String × MVal)

/-- Dict read: value stored under `k`, if present. -/
def getM : Store → String → Option MVal
  | [], _ => none
  | (k', v') :: rest, k => if k' = k then some v' else getM rest k

/-- Dict write: overwrite in place, or append a new key at the end
(Python dicts preserve insertion order). -/
def setM : Store → String → MVal → Store
  | [], k, v => [(k, v)]
  | (k', v') :: rest, k, v =>
      if k' = k then (k, v) :: rest else (k', v') :: setM rest k v

/-- `key in self.metadata`. -/
def hasKey (st : Store) (k : String) : Bool := (getM st k).isSome

/-- The list stored under `k` (empty if the key is absent or holds a
dict). -/
def listAt (st : Store) (k : String) : List Entry :=
  match getM st k with
  | some (.list l) => l
  | _ => []

/-- Association-list lookup for the "other" dict. -/
def getD : List (String × DVal) → String → Option DVal
  | [], _ => none
  | (k', v') :: rest, k => if k' = k then some v' else getD rest k

/-- Association-list write for the "other" dict (overwrite in place or
append). -/
def setD : List (String × DVal) → String → DVal → List (String × DVal)
  | [], k, v => [(k, v)]
  | (k', v') :: rest, k, v =>
      if k' = k then (k, v) :: rest else (k', v') :: setD rest k v

/-- The configuration toggles of `Reporter.__init__` that the modelled
operations consult. -/
structure Config where
  disabledebug : Bool := false
  disableautosubfieldparsing : Bool := false
  disablevaluededup : Bool := false
  disableoutputfiles : Bool := false
  base64outputfiles : Bool := false
  outputdir : String := ""
  outputfile_prefix : String := ""

/-- The default configuration (every toggle off, as in
`Reporter()` with no arguments). -/
def cfgDefault : Config := {}

/-- The declared shape of a taxonomy field (`type` in fields.json). -/
inductive FType where
  | listofstrings
  | listofstringtuples
  | dictofstrings
  deriving DecidableEq, Repr

/-- Modelled from the spec: the field taxonomy.  `fields.json` (the
resource `Reporter.__init__` loads into `self.fields`) is not part of
the shown source; the field names and shapes are taken from the spec
(sections 3, 4.3, 8) together with the field lists and cascade targets
appearing in `reporter.py` (`INFO_FIELD_ORDER`, `STANDARD_FIELD_ORDER`,
the cascade rules, `outputfile`, `debug`, `other`). -/
def fields : String → Option FType
  | "debug" => some .listofstrings
  | "inputfilename" => some .listofstrings
  | "md5" => some .listofstrings
  | "sha1" => some .listofstrings
  | "sha256" => some .listofstrings
  | "compiletime" => some .listofstrings
  | "c2_url" => some .listofstrings
  | "url" => some .listofstrings
  | "urlpath" => some .listofstrings
  | "c2_address" => some .listofstrings
  | "address" => some .listofstrings
  | "username" => some .listofstrings
  | "password" => some .listofstrings
  | "missionid" => some .listofstrings
  | "useragent" => some .listofstrings
  | "interval" => some .listofstrings
  | "version" => some .listofstrings
  | "mutex" => some .listofstrings
  | "servicename" => some .listofstrings
  | "servicedisplayname" => some .listofstrings
  | "servicedescription" => some .listofstrings
  | "serviceimage" => some .listofstrings
  | "servicedll" => some .listofstrings
  | "injectionprocess" => some .listofstrings
  | "filepath" => some .listofstrings
  | "directory" => some .listofstrings
  | "filename" => some .listofstrings
  | "registrykey" => some .listofstrings
  | "registryvalue" => some .listofstrings
  | "registrypath" => some .listofstrings
  | "registrydata" => some .listofstrings
  | "key" => some .listofstrings
  | "c2_socketaddress" => some .listofstringtuples
  | "socketaddress" => some .listofstringtuples
  | "port" => some .listofstringtuples
  | "listenport" => some .listofstringtuples
  | "credential" => some .listofstringtuples
  | "service" => some .listofstringtuples
  | "registrypathdata" => some .listofstringtuples
  | "registrykeyvalue" => some .listofstringtuples
  | "outputfile" => some .listofstringtuples
  | "other" => some .dictofstrings
  | _ => none

/-- Placeholder for `traceback.format_exc()` output embedded in caught
exception debug messages; no verified property depends on its text. -/
def tracebackText : String := "<traceback>"

/-- `convert_to_unicode`: a str is returned as is; any other object
makes `str(x, encoding=...)` raise (modelled as `none`). -/
def convertU : PyVal → Option String
  | .str s => some s
  | _ => none

/-- Python truthiness test `if not value` for the values we model. -/
def pyFalsy : PyVal → Bool
  | .str s => s.isEmpty
  | .tup l => l.isEmpty
  | .dict d => d.isEmpty

/-- `for thisvalue in value` in the listofstringtuples handler:
iterating a list yields its items, iterating a str yields its
characters (each a 1-character str), iterating a dict yields its keys. -/
def tupItems : PyVal → List String
  | .str s => s.data.map (fun c => String.mk [c])
  | .tup l => l
  | .dict d => d.map Prod.fst

/-! ### String helpers (ntpath splitting, substring search, the url
regular expression, Python int()) -/

/-- A Windows path separator as `ntpath` treats them. -/
def isNtSep (c : Char) : Bool := c = '\\' || c = '/'

/-- `ntpath.splitdrive` for drive-letter paths: a second character `:`
splits off a two-character drive. -/
def ntSplitDrive (l : List Char) : List Char × List Char :=
  match l with
  | a :: b :: rest => if b = ':' then ([a, b], rest) else ([], l)
  | _ => ([], l)

/-- `ntpath.split` on the post-drive part: cut after the last
separator; strip trailing separators from the head unless the head is
all separators. -/
def ntSplitPath (p : List Char) : List Char × List Char :=
  let tail := (p.reverse.takeWhile (fun c => !isNtSep c)).reverse
  let head := p.take (p.length - tail.length)
  let head2 := (head.reverse.dropWhile isNtSep).reverse
  (if head2.isEmpty then head else head2, tail)

/-- `ntpath.basename`. -/
def ntBasename (s : String) : String :=
  let (_, rest) := ntSplitDrive s.data
  String.mk (ntSplitPath rest).2

/-- `ntpath.dirname`. -/
def ntDirname (s : String) : String :=
  let (drive, rest) := ntSplitDrive s.data
  String.mk (drive ++ (ntSplitPath rest).1)

/-- Is `pat` a prefix of `l`? -/
def listStarts : List Char → List Char → Bool
  | [], _ => true
  | _ :: _, [] => false
  | p :: ps, c :: cs => p = c && listStarts ps cs

/-- First index at which `pat` occurs in `l` (Python `str.find`). -/
def findSub (pat : List Char) : List Char → Nat → Option Nat
  | [], i => if listStarts pat [] then some i else none
  | c :: cs, i =>
      if listStarts pat (c :: cs) then some i else findSub pat cs (i + 1)

/-- A character the scheme class `[a-z\.-]` accepts. -/
def schemeChar (c : Char) : Bool :=
  ('a' ≤ c && c ≤ 'z') || c = '.' || c = '-'

/-- One attempt of the url pattern
`[a-z\.-]{1,40}://(\[?[^/]+\]?)(/[^?]+)?` anchored at the head of `l`.
The scheme run is uniquely determined (`:` is not a scheme character),
`\[?[^/]+\]?` reduces to the maximal nonempty run of non-`/` characters
(the optional brackets are absorbed by the greedy `[^/]+`), and the
optional path group needs a `/` followed by at least one non-`?`
character.  Returns (group 1, group 2). -/
def urlTryAt (l : List Char) : Option (List Char × Option (List Char)) :=
  let r := l.takeWhile schemeChar
  if 1 ≤ r.length && r.length ≤ 40 && listStarts "://".data (l.drop r.length) then
    let rest := l.drop (r.length + 3)
    let host := rest.takeWhile (fun c => c ≠ '/')
    if host.isEmpty then none
    else
      let after := rest.drop host.length
      let path :=
        match after with
        | '/' :: t =>
            let p := t.takeWhile (fun c => c ≠ '?')
            if p.isEmpty then none else some ('/' :: p)
        | _ => none
      some (host, path)
  else none

/-- `re.search` with the url pattern: leftmost match wins. -/
def urlFind : List Char → Option (List Char × Option (List Char))
  | [] => none
  | c :: rest =>
      match urlTryAt (c :: rest) with
      | some r => some r
      | none => urlFind rest

/-- The url pattern match on a string, with groups as strings. -/
def urlMatch (s : String) : Option (String × Option String) :=
  match urlFind s.data with
  | some (host, path) => some (String.mk host, path.map String.mk)
  | none => none

/-- Python `str.split(sep)` for a one-character separator. -/
def splitOnChar (sep : Char) (l : List Char) : List (List Char) :=
  match l with
  | [] => [[]]
  | c :: rest =>
      let r := splitOnChar sep rest
      if c = sep then [] :: r
      else
        match r with
        | h :: t => (c :: h) :: t
        | [] => [[c]]

/-- `address.split(sep)` as strings. -/
def pySplit (sep : Char) (s : String) : List String :=
  (splitOnChar sep s.data).map String.mk

/-- `re.search(r"[0-9]{1,5}", s)` succeeds iff `s` contains a digit. -/
def hasDigit (s : String) : Bool := s.data.any Char.isDigit

/-- Python `int(s)`: an optional sign followed by at least one digit
(surrounding whitespace and digit-group underscores, which no modelled
input uses, are not accepted here); anything else raises, modelled as
`none`. -/
def pyInt (s : String) : Option Int :=
  let core : List Char → Option Nat := fun ds =>
    if ds.isEmpty || !ds.all Char.isDigit then none
    else some (ds.foldl (fun n c => n * 10 + (c.toNat - '0'.toNat)) 0)
  match s.data with
  | '-' :: ds => (core ds).map (fun n => -(n : Int))
  | '+' :: ds => (core ds).map (fun n => (n : Int))
  | ds => (core ds).map (fun n => (n : Int))

/-! ### add_metadata

The handlers are written against an abstract recursive call `rec`
(standing for `self.add_metadata`), and tied together by the fuelled
fixpoint `addMetaF`. -/

/-- `self.debug(message)`: drop if debug is disabled, else
`add_metadata("debug", message)`. -/
def debugR (cfg : Config) (rec : Store → String → PyVal → Store)
    (st : Store) (msg : String) : Store :=
  if cfg.disabledebug then st else rec st "debug" (.str msg)

/-- The `keyu == "url" or keyu == "c2_url"` cascade block of
`__add_metatadata_listofstrings`: parse the value with the url pattern
and derive (c2_)socketaddress / (c2_)address / urlpath, or log a debug
message when the pattern does not match. -/
def urlCascadeF (cfg : Config) (rec : Store → String → PyVal → Store)
    (st : Store) (keyu valueu : String) : Store :=
  match urlMatch valueu with
  | some (address, path) =>
      let st1 :=
        if address.isEmpty then st
        else if address.data.headD ' ' = '[' then
          -- ipv6--something like [fe80::20c:1234:5678:9abc]:80
          let parts := pySplit ']' address
          if parts.length > 1 then
            if !(parts.getD 1 "").isEmpty then
              rec st (if keyu = "c2_url" then "c2_socketaddress" else "socketaddress")
                (.tup [(parts.getD 0 "").drop 1, (parts.getD 1 "").drop 1, "tcp"])
            else st
          else
            rec st (if keyu = "c2_url" then "c2_address" else "address")
              (.str ((parts.getD 0 "").drop 1))
        else
          -- regular domain or ipv4--bad.com:80 or 127.0.0.1
          let parts := pySplit ':' address
          if parts.length > 1 then
            if !(parts.getD 1 "").isEmpty then
              rec st (if keyu = "c2_url" then "c2_socketaddress" else "socketaddress")
                (.tup [parts.getD 0 "", parts.getD 1 "", "tcp"])
            else st
          else
            rec st (if keyu = "c2_url" then "c2_address" else "address")
              (.str (parts.getD 0 ""))
      match path with
      | some p => rec st1 "urlpath" (.str p)
      | none => st1
  | none => debugR cfg rec st ("Error parsing as url: " ++ valueu)

/-- The `keyu == "filepath"` rule: derive filename and directory with
ntpath splitting. -/
def stepFilepath (rec : Store → String → PyVal → Store)
    (st : Store) (keyu valueu : String) : Store :=
  if keyu = "filepath" then
    rec (rec st "filename" (.str (ntBasename valueu))) "directory" (.str (ntDirname valueu))
  else st

/-- The `keyu == "c2_url"` rule: also record as url. -/
def stepC2url (rec : Store → String → PyVal → Store)
    (st : Store) (keyu valueu : String) : Store :=
  if keyu = "c2_url" then rec st "url" (.str valueu) else st

/-- The `keyu == "c2_address"` rule: also record as address. -/
def stepC2address (rec : Store → String → PyVal → Store)
    (st : Store) (keyu valueu : String) : Store :=
  if keyu = "c2_address" then rec st "address" (.str valueu) else st

/-- The `keyu == "serviceimage"` rule: on a `.exe` substring, record
the prefix through it as filepath. -/
def stepServiceimage (rec : Store → String → PyVal → Store)
    (st : Store) (keyu valueu : String) : Store :=
  if keyu = "serviceimage" then
    match findSub ".exe".data valueu.data 0 with
    | some i => rec st "filepath" (.str (String.mk (valueu.data.take (i + 4))))
    | none => st
  else st

/-- The `keyu == "servicedll"` rule: also record as filepath. -/
def stepServicedll (rec : Store → String → PyVal → Store)
    (st : Store) (keyu valueu : String) : Store :=
  if keyu = "servicedll" then rec st "filepath" (.str valueu) else st

/-- The subfield-parsing block of `__add_metatadata_listofstrings`:
the six sequential `if` statements on `keyu`, in source order. -/
def cascadeStrsF (cfg : Config) (rec : Store → String → PyVal → Store)
    (st : Store) (keyu valueu : String) : Store :=
  if cfg.disableautosubfieldparsing then st
  else
    let st5 :=
      stepServicedll rec
        (stepServiceimage rec
          (stepC2address rec
            (stepC2url rec
              (stepFilepath rec st keyu valueu) keyu valueu) keyu valueu) keyu valueu) keyu valueu
    if keyu = "url" || keyu = "c2_url" then urlCascadeF cfg rec st5 keyu valueu else st5

/-- `Reporter.__add_metatadata_listofstrings`.  A failed unicode
conversion, or a container that is a dict so that `.append` raises, is
caught by the handler `except` and logged via `debug`.  (With a dict
container and a key already present, dedup enabled, and a non-debug
key, no statement raises and control falls through to the cascade,
mirroring the source; this situation is unreachable because a field
shaped `listofstrings` only ever holds a list.) -/
def addStrsF (cfg : Config) (rec : Store → String → PyVal → Store)
    (st : Store) (keyu : String) (value : PyVal) : Store :=
  match convertU value with
  | none =>
      debugR cfg rec st ("Error adding metadata for key: " ++ keyu ++ "\n" ++ tracebackText)
  | some valueu =>
      let st1 := if hasKey st keyu then st else setM st keyu (.list [])
      match getM st1 keyu with
      | some (.list l) =>
          let st2 :=
            if !(Entry.s valueu ∈ l) || cfg.disablevaluededup || keyu = "debug" then
              setM st1 keyu (.list (l ++ [.s valueu]))
            else st1
          cascadeStrsF cfg rec st2 keyu valueu
      | some (.dict d) =>
          if (valueu ∈ d.map Prod.fst) && !cfg.disablevaluededup && keyu ≠ "debug" then
            cascadeStrsF cfg rec st1 keyu valueu
          else
            debugR cfg rec st1 ("Error adding metadata for key: " ++ keyu ++ "\n" ++ tracebackText)
      | none => st1

/-- The `keyu == "c2_socketaddress"` rule: record as socketaddress and
record the first element as c2_address. -/
def ruleC2Socketaddress (rec : Store → String → PyVal → Store)
    (st : Store) (values : List String) : Store :=
  let st1 := rec st "socketaddress" (.tup values)
  rec st1 "c2_address" (.str (values.headD ""))

/-- The `keyu == "socketaddress"` rule: record the first element as
address, elements 1 and 2 as port when present, and warn on arity
other than three. -/
def ruleSocketaddress (cfg : Config) (rec : Store → String → PyVal → Store)
    (st : Store) (values : List String) : Store :=
  let st1 := rec st "address" (.str (values.headD ""))
  let st2 :=
    if values.length ≥ 3 then
      rec st1 "port" (.tup [values.getD 1 "", values.getD 2 ""])
    else st1
  if values.length ≠ 3 then
    debugR cfg rec st2
      ("Expected three values in type socketaddress, received " ++ toString values.length)
  else st2

/-- The `keyu == "credential"` rule. -/
def ruleCredential (cfg : Config) (rec : Store → String → PyVal → Store)
    (st : Store) (values : List String) : Store :=
  let st1 := rec st "username" (.str (values.headD ""))
  let st2 := if values.length ≥ 2 then rec st1 "password" (.str (values.getD 1 "")) else st1
  if values.length ≠ 2 then
    debugR cfg rec st2
      ("Expected two values in type credential, received " ++ toString values.length)
  else st2

/-- The `keyu == "port" or keyu == "listenport"` rule: validations
only.  When `int(values[0])` raises (a digit is present but the whole
string is not an integer literal), the handler except logs and the
protocol check is skipped. -/
def rulePort (cfg : Config) (rec : Store → String → PyVal → Store)
    (st : Store) (keyu : String) (values : List String) : Store :=
  let st1 :=
    if values.length ≠ 2 then
      debugR cfg rec st
        ("Expected two values in type " ++ keyu ++ ", received " ++ toString values.length)
    else st
  if hasDigit (values.headD "") then
    match pyInt (values.headD "") with
    | some portnum =>
        let st2 :=
          if portnum < 0 || portnum > 65535 then
            debugR cfg rec st1 "Expected port to be number between 0 and 65535"
          else st1
        if values.length ≥ 2 then
          if !(values.getD 1 "" ∈ ["tcp", "udp", "icmp"]) then
            debugR cfg rec st2 "Expected port type to be tcp or udp (or icmp)"
          else st2
        else st2
    | none =>
        debugR cfg rec st1 ("Error adding metadata for key: " ++ keyu ++ "\n" ++ tracebackText)
  else
    let st2 := debugR cfg rec st1 "Expected port to be number between 0 and 65535"
    if values.length ≥ 2 then
      if !(values.getD 1 "" ∈ ["tcp", "udp", "icmp"]) then
        debugR cfg rec st2 "Expected port type to be tcp or udp (or icmp)"
      else st2
    else st2

/-- The `keyu == "registrypathdata"` rule. -/
def ruleRegistrypathdata (cfg : Config) (rec : Store → String → PyVal → Store)
    (st : Store) (values : List String) : Store :=
  let st1 := rec st "registrypath" (.str (values.headD ""))
  let st2 := if values.length ≥ 2 then rec st1 "registrydata" (.str (values.getD 1 "")) else st1
  if values.length ≠ 2 then
    debugR cfg rec st2
      ("Expected two values in type registrypathdata, received " ++ toString values.length)
  else st2

/-- The `keyu == "service"` rule: record each present non-empty
element under its service field. -/
def ruleService (cfg : Config) (rec : Store → String → PyVal → Store)
    (st : Store) (values : List String) : Store :=
  let st1 := if !(values.headD "").isEmpty then rec st "servicename" (.str (values.headD "")) else st
  let st2 :=
    if values.length ≥ 2 then
      if !(values.getD 1 "").isEmpty then rec st1 "servicedisplayname" (.str (values.getD 1 "")) else st1
    else st1
  let st3 :=
    if values.length ≥ 3 then
      if !(values.getD 2 "").isEmpty then rec st2 "servicedescription" (.str (values.getD 2 "")) else st2
    else st2
  let st4 :=
    if values.length ≥ 4 then
      if !(values.getD 3 "").isEmpty then rec st3 "serviceimage" (.str (values.getD 3 "")) else st3
    else st3
  let st5 :=
    if values.length ≥ 5 then
      if !(values.getD 4 "").isEmpty then rec st4 "servicedll" (.str (values.getD 4 "")) else st4
    else st4
  if values.length ≠ 5 then
    debugR cfg rec st5
      ("Expected 5 values in type service, received " ++ toString values.length)
  else st5

/-- The `elif` chain of `__add_metadata_listofstringtuples` on `keyu`
after the tuple has been recorded. -/
def cascadeTupsF (cfg : Config) (rec : Store → String → PyVal → Store)
    (st : Store) (keyu : String) (values : List String) : Store :=
  if cfg.disableautosubfieldparsing then st
  else if keyu = "c2_socketaddress" then ruleC2Socketaddress rec st values
  else if keyu = "socketaddress" then ruleSocketaddress cfg rec st values
  else if keyu = "credential" then ruleCredential cfg rec st values
  else if keyu = "port" || keyu = "listenport" then rulePort cfg rec st keyu values
  else if keyu = "registrypathdata" then ruleRegistrypathdata cfg rec st values
  else if keyu = "service" then ruleService cfg rec st values
  else st

/-- `Reporter.__add_metadata_listofstringtuples`.  An empty value is
logged and skipped; the items of a non-empty value are converted
(`tupItems`); the tuple is appended subject to dedup; then the `elif`
chain runs.  With a dict container, both the `.append` and the
`.index` call raise and the handler `except` logs via `debug`. -/
def addTupsF (cfg : Config) (rec : Store → String → PyVal → Store)
    (st : Store) (keyu : String) (value : PyVal) : Store :=
  if pyFalsy value then
    debugR cfg rec st ("no values provided for " ++ keyu ++ ", skipping")
  else
    let values := tupItems value
    let st1 := if hasKey st keyu then st else setM st keyu (.list [])
    match getM st1 keyu with
    | some (.list l) =>
        let st2 :=
          if cfg.disablevaluededup then setM st1 keyu (.list (l ++ [.t values]))
          else if Entry.t values ∈ l then st1
          else setM st1 keyu (.list (l ++ [.t values]))
        cascadeTupsF cfg rec st2 keyu values
    | some (.dict _) =>
        debugR cfg rec st1 ("Error adding metadata for key: " ++ keyu ++ "\n" ++ tracebackText)
    | none => st1

/-- The per-item body of `__add_metadata_dictofstrings`: insert the
sub-key/value pair into the "other" dict with collision-merge
semantics.  A list container under "other" makes the subscripting
raise, aborting the remaining items (unreachable: "other" only ever
holds a dict).  In the modelled `PyVal` every dict value is a string,
so the non-string per-entry debug branch of the source has no model
counterpart. -/
def dictItemsF (cfg : Config) (rec : Store → String → PyVal → Store)
    (keyu : String) : Store → List (String × String) → Store
  | st, [] => st
  | st, (thiskeyu, thisvalueu) :: rest =>
      let st1 := if hasKey st "other" then st else setM st "other" (.dict [])
      match getM st1 "other" with
      | some (.dict od) =>
          let st2 :=
            match getD od thiskeyu with
            | some (.many existing) =>
                if thisvalueu ∈ existing then st1
                else setM st1 "other" (.dict (setD od thiskeyu (.many (existing ++ [thisvalueu]))))
            | some (.one existing) =>
                if thisvalueu = existing then st1
                else setM st1 "other" (.dict (setD od thiskeyu (.many [existing, thisvalueu])))
            | none => setM st1 "other" (.dict (setD od thiskeyu (.one thisvalueu)))
          dictItemsF cfg rec keyu st2 rest
      | _ =>
          debugR cfg rec st1 ("Error adding metadata for key: " ++ keyu ++ "\n" ++ tracebackText)

/-- `Reporter.__add_metadata_dictofstrings`.  Iterating a non-dict:
a nonempty str or list makes the subscripting of the first iterated
item raise (one debug message); an empty one never enters the loop. -/
def addDictF (cfg : Config) (rec : Store → String → PyVal → Store)
    (st : Store) (keyu : String) (value : PyVal) : Store :=
  match value with
  | .dict d => dictItemsF cfg rec keyu st d
  | .str s =>
      if s.isEmpty then st
      else debugR cfg rec st ("Error adding metadata for key: " ++ keyu ++ "\n" ++ tracebackText)
  | .tup l =>
      if l.isEmpty then st
      else debugR cfg rec st ("Error adding metadata for key: " ++ keyu ++ "\n" ++ tracebackText)

/-- `Reporter.add_metadata` with the recursive call abstracted: check
the taxonomy, log and drop an unknown key, else dispatch on the
declared shape. -/
def addMetadataF (cfg : Config) (rec : Store → String → PyVal → Store)
    (st : Store) (key : String) (value : PyVal) : Store :=
  match fields key with
  | none => debugR cfg rec st ("Error adding metadata because " ++ key ++ " is not an allowed key")
  | some .listofstrings => addStrsF cfg rec st key value
  | some .listofstringtuples => addTupsF cfg rec st key value
  | some .dictofstrings => addDictF cfg rec st key value

/-- The fuelled fixpoint of `addMetadataF`. -/
def addMetaF (cfg : Config) : Nat → Store → String → PyVal → Store
  | 0, st, _, _ => st
  | n + 1, st, key, value => addMetadataF cfg (addMetaF cfg n) st key value

/-- Fuel strictly exceeding the longest cascade chain (five frames),
so the fuel never runs out on a call reachable from `add_metadata`. -/
def FUEL : Nat := 8

/-- `Reporter.add_metadata`. -/
def add_metadata (cfg : Config) (st : Store) (key : String) (value : PyVal) : Store :=
  addMetaF cfg FUEL st key value

/-! ### The Reporter object: output files and parser execution -/

/-- One entry of `self.outputfiles`: data, description, md5, and the
disk path when the file was written. -/
structure OutEntry where
  data : List UInt8
  description : String
  md5 : String
  path : Option String := none
  deriving DecidableEq, Repr

/-- The run-scoped state of a `Reporter`. -/
structure Reporter where
  store : Store := []
  errors : List String := []
  outputfiles : List (String × OutEntry) := []
  filename : String := ""
  data : List UInt8 := []
  deriving DecidableEq, Repr

/-- Lookup in `self.outputfiles`. -/
def getOF : List (String × OutEntry) → String → Option OutEntry
  | [], _ => none
  | (k', v') :: rest, k => if k' = k then some v' else getOF rest k

/-- Write to `self.outputfiles` (overwrite in place or append). -/
def setOF : List (String × OutEntry) → String → OutEntry → List (String × OutEntry)
  | [], k, v => [(k, v)]
  | (k', v') :: rest, k, v =>
      if k' = k then (k, v) :: rest else (k', v') :: setOF rest k v

/-- `self.outputfiles[filename]["path"] = fullpath`: update the entry
stored under `k`. -/
def setPathOF : List (String × OutEntry) → String → String → List (String × OutEntry)
  | [], _, _ => []
  | (k', e) :: rest, k, p =>
      if k' = k then (k', { e with path := some p }) :: setPathOF rest k p
      else (k', e) :: setPathOF rest k p

/-- Top-level `self.debug(message)` (outside the handlers). -/
def debugS (cfg : Config) (st : Store) (msg : String) : Store :=
  if cfg.disabledebug then st else add_metadata cfg st "debug" (.str msg)

/-- `os.path.basename` on the host platform, modelled with POSIX
separators: the part after the last `/`. -/
def posixBasename (s : String) : String :=
  String.mk ((s.data.reverse.takeWhile (fun c => c ≠ '/')).reverse)

/-- `os.path.join` for one component, POSIX semantics: an absolute
second component replaces the first, otherwise one `/` separates. -/
def pjoin (a b : String) : String :=
  if b.data.headD ' ' = '/' then b
  else if a = "" then b
  else if a.data.getLast? = some '/' then a ++ b
  else a ++ "/" ++ b

/-- Placeholder for the text of an OSError raised by a failed disk
write; no verified property depends on it. -/
def osErrorText : String := "<oserror>"

/-- `Reporter.output_file`.  The md5 hex digest and base64 encoder are
external collaborators passed as functions; `writeOk` models whether
the disk write succeeds (the filesystem is external). -/
def output_file (cfg : Config) (md5hex b64enc : List UInt8 → String) (writeOk : Bool)
    (r : Reporter) (data : List UInt8) (filename description : String) : Reporter :=
  let basename := posixBasename filename
  let md5 := md5hex data
  let r1 := { r with outputfiles := setOF r.outputfiles filename ⟨data, description, md5, none⟩ }
  let tupval : PyVal :=
    if cfg.base64outputfiles then .tup [basename, description, md5, b64enc data]
    else .tup [basename, description, md5]
  let r2 := { r1 with store := add_metadata cfg r1.store "outputfile" tupval }
  if cfg.disableoutputfiles then r2
  else
    let fullpath :=
      if cfg.outputfile_prefix ≠ "" then
        if cfg.outputfile_prefix = "md5" then
          pjoin cfg.outputdir (md5hex r2.data ++ "_" ++ basename)
        else
          pjoin cfg.outputdir (cfg.outputfile_prefix ++ "_" ++ basename)
      else pjoin cfg.outputdir basename
    if writeOk then
      let r3 := { r2 with store := debugS cfg r2.store ("outputfile: " ++ fullpath) }
      { r3 with outputfiles := setPathOF r3.outputfiles filename fullpath }
    else
      let msg := "Failed to write output file: " ++ fullpath ++ ", " ++ osErrorText
      { r2 with store := debugS cfg r2.store msg }

/-- One call a plugin makes against the engine's public reporting API
(the plugin itself is external, arbitrary code; spec section 6). -/
inductive PAction where
  | addMeta (key : String) (value : PyVal)
  | debugMsg (msg : String)
  | outputFileA (data : List UInt8) (filename : String) (description : String)
  deriving DecidableEq, Repr

/-- A plugin, modelled at the interface boundary: the sequence of
reporting-API calls its construction plus entry operation performs,
and, when it raises, the formatted traceback of the exception raised
after those calls. -/
structure Plugin where
  actions : List PAction
  raises : Option String := none
  deriving DecidableEq, Repr

/-- Apply one plugin API call to the reporter. -/
def applyAction (cfg : Config) (md5hex b64enc : List UInt8 → String) (writeOk : Bool)
    (r : Reporter) : PAction → Reporter
  | .addMeta k v => { r with store := add_metadata cfg r.store k v }
  | .debugMsg m => { r with store := debugS cfg r.store m }
  | .outputFileA d f desc => output_file cfg md5hex b64enc writeOk r d f desc

/-- The per-plugin body of the `runParser` loop: announce the plugin
on the debug channel, run it, and on an exception append one ErrorLog
entry naming the plugin's source and name and the input's identity. -/
def runOnePlugin (cfg : Config) (md5hex b64enc : List UInt8 → String) (writeOk : Bool)
    (identifier : String) (r : Reporter) (p : String × String × Plugin) : Reporter :=
  let parser_name := p.1
  let source := p.2.1
  let plg := p.2.2
  let r1 := { r with store := debugS cfg r.store ("[*] Running parser: " ++ source ++ ":" ++ parser_name) }
  let r2 := plg.actions.foldl (applyAction cfg md5hex b64enc writeOk) r1
  match plg.raises with
  | some tb =>
      let msg := "Error running parser " ++ source ++ ":" ++ parser_name ++ " on " ++ identifier ++ ": " ++ tb
      { r2 with errors := r2.errors ++ [msg] }
  | none => r2

/-- `Reporter.runParser`.  Run-scoped state is reset; when a filename
is given the input bytes are read from it (`fileData` stands for the
file's content, the filesystem being external), otherwise the `data`
argument is used.  Plugin resolution (`mwcp.iter_parsers`) is external,
so the resolved `(parser_name, source, plugin)` triples are a
parameter.  A PE-magic input gets a best-effort pefile parse whose
failure text `pefileErr` is external.  Temp-file cleanup and the
stdout redirection flush touch no modelled state (no modelled plugin
action uses the lazy temp file or prints). -/
def runParser (cfg : Config) (md5hex b64enc : List UInt8 → String) (writeOk : Bool)
    (pefileErr : Option String) (name filename : String)
    (fileData dataParam : List UInt8)
    (parsers : List (String × String × Plugin)) : Reporter :=
  let r0 : Reporter := { filename := filename,
                         data := if filename ≠ "" then fileData else dataParam }
  let r1 :=
    if r0.data.take 2 = [77, 90] then
      match pefileErr with
      | some e => { r0 with store := debugS cfg r0.store ("Error parsing with pefile: " ++ e) }
      | none => r0
    else r0
  let identifier := if filename ≠ "" then filename else md5hex dataParam
  if parsers.isEmpty then
    { r1 with errors := r1.errors ++ ["Could not find parsers with name: " ++ name] }
  else
    parsers.foldl (runOnePlugin cfg md5hex b64enc writeOk identifier) r1

/-! ### The report renderer -/

def INFO_FIELD_ORDER : List String :=
  ["inputfilename", "md5", "sha1", "sha256", "compiletime"]

def STANDARD_FIELD_ORDER : List String :=
  ["c2_url", "c2_socketaddress", "c2_address", "url", "urlpath",
   "socketaddress", "address", "port", "listenport",
   "credential", "username", "password",
   "missionid", "useragent", "interval", "version", "mutex",
   "service", "servicename", "servicedisplayname", "servicedescription",
   "serviceimage", "servicedll", "injectionprocess",
   "filepath", "directory", "filename",
   "registrykeyvalue", "registrykey", "registryvalue", "key"]

/-- `Reporter.format_list`: field-specific separators for known tuple
shapes, space-joined fallback.  (The source's outputfile branch,
`"%s %s" % (values[0], values[1], values[2])`, raises TypeError in
CPython — mismatched format arity — and is unreachable from any
modelled rendering; we render the two values its format string names.) -/
def format_list (values : List String) (key : String) : String :=
  if key = "credential" && values.length = 2 then
    values.getD 0 "" ++ ":" ++ values.getD 1 ""
  else if key = "outputfile" && values.length ≥ 3 then
    values.getD 0 "" ++ " " ++ values.getD 1 ""
  else if key = "port" && values.length = 2 then
    values.getD 0 "" ++ "/" ++ values.getD 1 ""
  else if key = "listenport" && values.length = 2 then
    values.getD 0 "" ++ "/" ++ values.getD 1 ""
  else if key = "registrykeyvalue" && values.length = 2 then
    values.getD 0 "" ++ "=" ++ values.getD 1 ""
  else if key = "socketaddress" && values.length = 3 then
    values.getD 0 "" ++ ":" ++ values.getD 1 "" ++ "/" ++ values.getD 2 ""
  else if key = "c2_socketaddress" && values.length = 3 then
    values.getD 0 "" ++ ":" ++ values.getD 1 "" ++ "/" ++ values.getD 2 ""
  else if key = "service" && values.length = 5 then
    String.intercalate ", " values
  else
    String.intercalate " " values

/-- The `"\x7b:20\x7d"` format: left-justify to width 20. -/
def pad20 (s : String) : String :=
  if s.length < 20 then s ++ String.mk (List.replicate (20 - s.length) ' ') else s

/-- `Reporter.get_printable_key_value`, with the value already adapted
to a list of entries (a bare string value renders the same as a
one-element list).  The key prints on the first line only. -/
def get_printable_key_value (key : String) (items : List Entry) : String :=
  (items.foldl
    (fun (acc : String × String) item =>
      match item with
      | .s v => (acc.1 ++ pad20 acc.2 ++ " " ++ v ++ "\n", "")
      | .t vs => (acc.1 ++ pad20 acc.2 ++ " " ++ format_list vs key ++ "\n", ""))
    ("", key)).1

/-- The entries rendered for a sub-value of the "other" dict. -/
def dvalItems : DVal → List Entry
  | .one v => [.s v]
  | .many l => l.map .s

/-- The pairs of the "other" dict (empty when absent; a list container
under "other", which would make the source raise, is unreachable). -/
def otherPairs (st : Store) : List (String × DVal) :=
  match getM st "other" with
  | some (.dict d) => d
  | _ => []

/-- One line of the Debug section: `"\x7b\x7d\n".format(item)`.
Debug entries are always strings; a tuple entry would print its Python
repr, modelled with `\x27`-quoted items. -/
def debugLine : Entry → String
  | .s v => v ++ "\n"
  | .t vs => "[" ++ String.intercalate ", " (vs.map (fun v => "\x27" ++ v ++ "\x27")) ++ "]\n"

/-- One row of the Output Files section:
`get_printable_key_value(value[0], (value[1], value[2]))`.
(Out-of-range subscripts, which raise IndexError in CPython, are
modelled with empty-string defaults; every modelled registration
records at least three components.) -/
def outputFileRow : Entry → String
  | .t vs => get_printable_key_value (vs.getD 0 "") [.s (vs.getD 1 ""), .s (vs.getD 2 "")]
  | .s v =>
      get_printable_key_value (String.mk (v.data.take 1))
        [.s (String.mk ((v.data.drop 1).take 1)), .s (String.mk ((v.data.drop 2).take 1))]

/-- `Reporter.get_output_text`. -/
def get_output_text (st : Store) (errors : List String) : String :=
  let info :=
    if hasKey st "inputfilename" then
      "\n----File Information----\n\n" ++
        INFO_FIELD_ORDER.foldl
          (fun acc k => if hasKey st k then acc ++ get_printable_key_value k (listAt st k) else acc) ""
    else ""
  let std :=
    "\n----Standard Metadata----\n\n" ++
      STANDARD_FIELD_ORDER.foldl
        (fun acc k => if hasKey st k then acc ++ get_printable_key_value k (listAt st k) else acc) ""
  let fallback :=
    (st.map Prod.fst).foldl
      (fun acc k =>
        if !STANDARD_FIELD_ORDER.contains k && !(["other", "debug", "outputfile"].contains k)
            && (fields k).isSome then
          acc ++ get_printable_key_value k (listAt st k)
        else acc) ""
  let other :=
    if hasKey st "other" then
      "\n----Other Metadata----\n\n" ++
        (((otherPairs st).map Prod.fst).mergeSort (fun a b => decide (a ≤ b))).foldl
          (fun acc k =>
            acc ++ get_printable_key_value k (dvalItems ((getD (otherPairs st) k).getD (.one ""))))
          ""
    else ""
  let debugSec :=
    if hasKey st "debug" then
      "\n----Debug----\n\n" ++ (listAt st "debug").foldl (fun acc e => acc ++ debugLine e) ""
    else ""
  let outSec :=
    if hasKey st "outputfile" then
      "\n----Output Files----\n\n" ++
        (listAt st "outputfile").foldl (fun acc e => acc ++ outputFileRow e) ""
    else ""
  let errSec :=
    if errors.isEmpty then ""
    else "\n----Errors----\n\n" ++ errors.foldl (fun acc e => acc ++ e ++ "\n") ""
  info ++ std ++ fallback ++ other ++ debugSec ++ outSec ++ errSec

/-- The section headers `get_output_text` emits, in emission order. -/
def sectionHeaders (st : Store) (errors : List String) : List String :=
  (if hasKey st "inputfilename" then ["----File Information----"] else []) ++
  ["----Standard Metadata----"] ++
  (if hasKey st "other" then ["----Other Metadata----"] else []) ++
  (if hasKey st "debug" then ["----Debug----"] else []) ++
  (if hasKey st "outputfile" then ["----Output Files----"] else []) ++
  (if errors.isEmpty then [] else ["----Errors----"])

/-- The field keys the File Information section renders, in order. -/
def infoKeysRendered (st : Store) : List String :=
  if hasKey st "inputfilename" then INFO_FIELD_ORDER.filter (hasKey st) else []

/-- The field keys the Standard Metadata section renders, in order. -/
def standardKeysRendered (st : Store) : List String :=
  STANDARD_FIELD_ORDER.filter (hasKey st)

/-- A run that records a sequence of (field, value) pairs through
`add_metadata`. -/
def runRecords (cfg : Config) (st : Store) (calls : List (String × PyVal)) : Store :=
  calls.foldl (fun s c => add_metadata cfg s c.1 c.2) st

/-! ### Predicates and tables used by the verification -/

/-- An over-approximation of the set of store keys a call
`add_metadata(k, _)` can write (directly or through its cascade),
read off the static rule table: the key itself, `debug` (every handler
can log), the cascade closure of the rule table, and `other` for the
dict-shaped catch-all. -/
def touched : String → List String
  | "filepath" => ["filepath", "filename", "directory", "debug"]
  | "c2_url" => ["c2_url", "url", "urlpath", "socketaddress", "address", "port",
                 "c2_socketaddress", "c2_address", "debug"]
  | "url" => ["url", "socketaddress", "address", "port", "urlpath", "debug"]
  | "c2_address" => ["c2_address", "address", "debug"]
  | "serviceimage" => ["serviceimage", "filepath", "filename", "directory", "debug"]
  | "servicedll" => ["servicedll", "filepath", "filename", "directory", "debug"]
  | "c2_socketaddress" => ["c2_socketaddress", "socketaddress", "address", "port",
                           "c2_address", "debug"]
  | "socketaddress" => ["socketaddress", "address", "port", "debug"]
  | "credential" => ["credential", "username", "password", "debug"]
  | "registrypathdata" => ["registrypathdata", "registrypath", "registrydata", "debug"]
  | "service" => ["service", "servicename", "servicedisplayname", "servicedescription",
                  "serviceimage", "servicedll", "filepath", "filename", "directory", "debug"]
  | "other" => ["other", "debug"]
  | k => [k, "debug"]

/-- Shape consistency of a store: every list container sits under a
field of one of the two list shapes, every dict container under a
dict-shaped field.  (Stated over the pairs of the association list so
that it is decidable on concrete stores; it implies the corresponding
statement about `getM`.) -/
def shapeOK (st : Store) : Prop :=
  ∀ p ∈ st,
    match p.2 with
    | MVal.list _ => fields p.1 = some .listofstrings ∨ fields p.1 = some .listofstringtuples
    | MVal.dict _ => fields p.1 = some .dictofstrings

/-- The taxonomy invariant on store keys: every key is a taxonomy
field or the catch-all "other". -/
def invKeys (st : Store) : Prop :=
  ∀ p ∈ st, (fields p.1).isSome ∨ p.1 = "other"

/-- A concrete stand-in for the external md5 hex digest collaborator,
used to instantiate closed statements (any deterministic function
exhibits the dedup behaviour at issue). -/
def md5const : List UInt8 → String := fun _ => "9e107d9d372bb6826bd81d3542a419d6"

/-- A concrete stand-in for the external base64 encoder. -/
def b64const : List UInt8 → String := fun _ => "AA=="

/-! ## Theorems -/

/-! ### Store lemmas -/

theorem getM_setM (st : Store) (k k' : String) (v : MVal) :
    getM (setM st k v) k' = if k = k' then some v else getM st k' := by
  induction st with
  | nil => simp [setM, getM]
  | cons p rest ih =>
      obtain ⟨a, b⟩ := p
      by_cases hak : a = k
      · subst hak
        by_cases hk' : a = k' <;> simp [setM, getM, hk']
      · by_cases hk' : a = k'
        · subst hk'
          have hka : ¬k = a := fun h => hak h.symm
          simp [setM, getM, hak, ih, hka]
        · simp [setM, getM, hak, hk', ih]

theorem hasKey_setM (st : Store) (k k' : String) (v : MVal) :
    hasKey (setM st k v) k' = (k = k' || hasKey st k') := by
  by_cases h : k = k' <;> simp [hasKey, getM_setM, h]

theorem listAt_setM (st : Store) (k k' : String) (v : MVal) :
    listAt (setM st k v) k' =
      if k = k' then (match v with | .list l => l | _ => []) else listAt st k' := by
  by_cases h : k = k' <;> simp [listAt, getM_setM, h] <;> cases v <;> rfl

theorem getM_mem {st : Store} {k : String} {v : MVal} (h : getM st k = some v) :
    (k, v) ∈ st := by
  induction st with
  | nil => simp [getM] at h
  | cons p rest ih =>
      obtain ⟨a, b⟩ := p
      by_cases hak : a = k
      · subst hak
        simp [getM] at h
        simp [h]
      · simp [getM, hak] at h
        exact List.mem_cons_of_mem _ (ih h)

/-! ### C2: the url cascade on "http://bad.com:80/x" -/

/-- C2 (counterexample): the claim asserts that recording
`url = "http://bad.com:80/x"` (cascades and dedup enabled, empty
store) creates no `port` entry.  It does: the url cascade records
`socketaddress = ("bad.com", "80", "tcp")`, and the socketaddress
cascade in turn records `port = ("80", "tcp")`. -/
theorem C2_counterexample :
    hasKey (add_metadata cfgDefault [] "url" (.str "http://bad.com:80/x")) "port" = true := by
  decide

/-- C2 (amended): with cascades and dedup enabled, recording
`url = "http://bad.com:80/x"` on an empty store yields
`address = "bad.com"`, `socketaddress = ("bad.com", "80", "tcp")`,
`urlpath = "/x"`, and also `port = ("80", "tcp")`, derived through the
socketaddress cascade. -/
theorem C2_url_cascade_amended :
    add_metadata cfgDefault [] "url" (.str "http://bad.com:80/x") =
      [("url", .list [.s "http://bad.com:80/x"]),
       ("socketaddress", .list [.t ["bad.com", "80", "tcp"]]),
       ("address", .list [.s "bad.com"]),
       ("port", .list [.t ["80", "tcp"]]),
       ("urlpath", .list [.s "/x"])] := by
  decide

/-! ### C3: the bracketed-IPv6 url with no port -/

/-- C3 (code behaviour at the failing input): recording
`c2_url = "http://[fe80::1]/y"` on an empty store (cascades enabled)
propagates `url` and derives `urlpath = "/y"`, but records neither
`c2_address` nor `address` (nor any socketaddress): group 1 of the url
pattern is `[fe80::1]`, and splitting it on `]` always yields a second
(empty) part, so the branch of the source meant to record the address
of a bracketed host without a port can never run. -/
theorem C3_ipv6_no_port_behaviour :
    add_metadata cfgDefault [] "c2_url" (.str "http://[fe80::1]/y") =
      [("c2_url", .list [.s "http://[fe80::1]/y"]),
       ("url", .list [.s "http://[fe80::1]/y"]),
       ("urlpath", .list [.s "/y"])] ∧
    hasKey (add_metadata cfgDefault [] "c2_url" (.str "http://[fe80::1]/y")) "c2_address" = false ∧
    hasKey (add_metadata cfgDefault [] "c2_url" (.str "http://[fe80::1]/y")) "address" = false ∧
    hasKey (add_metadata cfgDefault [] "c2_url" (.str "http://[fe80::1]/y")) "socketaddress" = false ∧
    hasKey (add_metadata cfgDefault [] "c2_url" (.str "http://[fe80::1]/y")) "c2_socketaddress" = false := by
  decide

/-! ### Keys outside `touched` are not written -/

theorem notT {k j j' : String} (hk : k ∉ touched j)
    (hsub : ∀ x ∈ touched j', x ∈ touched j) : k ∉ touched j' :=
  fun h => hk (hsub _ h)

theorem fields_dict_inv {j : String} (h : fields j = some .dictofstrings) : j = "other" := by
  unfold fields at h
  split at h <;> simp_all

theorem self_mem_touched (j : String) : j ∈ touched j := by
  unfold touched
  split <;> simp_all

theorem debug_mem_touched (j : String) : "debug" ∈ touched j := by
  unfold touched
  split <;> simp_all

theorem debugR_untouched {cfg : Config} {rec : Store → String → PyVal → Store} {k : String}
    (hrec : ∀ j, k ∉ touched j → ∀ st v, getM (rec st j v) k = getM st k)
    (hk : k ≠ "debug") (st : Store) (m : String) :
    getM (debugR cfg rec st m) k = getM st k := by
  unfold debugR
  split
  · rfl
  · exact hrec _ (by simpa [touched] using hk) _ _

theorem urlCascadeF_untouched {cfg : Config} {rec : Store → String → PyVal → Store} {k : String}
    (hrec : ∀ j, k ∉ touched j → ∀ st v, getM (rec st j v) k = getM st k)
    {keyu : String} (hku : keyu = "url" ∨ keyu = "c2_url") (hk : k ∉ touched keyu)
    (st : Store) (valueu : String) :
    getM (urlCascadeF cfg rec st keyu valueu) k = getM st k := by
  have hdbg : k ≠ "debug" := fun h => hk (h ▸ debug_mem_touched keyu)
  rcases hku with h | h
  · subst h
    have h1 : k ∉ touched "socketaddress" := notT hk (by decide)
    have h2 : k ∉ touched "address" := notT hk (by decide)
    have h3 : k ∉ touched "urlpath" := notT hk (by decide)
    unfold urlCascadeF
    split
    · dsimp only
      repeat' split
      all_goals first
        | rfl
        | exact absurd ‹"url" = "c2_url"› (by decide)
        | exact absurd rfl ‹¬("c2_url" = "c2_url")›
        | (simp only [hrec _ h1, hrec _ h2, hrec _ h3])
    · exact debugR_untouched hrec hdbg _ _
  · subst h
    have h1 : k ∉ touched "c2_socketaddress" := notT hk (by decide)
    have h2 : k ∉ touched "c2_address" := notT hk (by decide)
    have h3 : k ∉ touched "urlpath" := notT hk (by decide)
    unfold urlCascadeF
    split
    · dsimp only
      repeat' split
      all_goals first
        | rfl
        | exact absurd ‹"url" = "c2_url"› (by decide)
        | exact absurd rfl ‹¬("c2_url" = "c2_url")›
        | (simp only [hrec _ h1, hrec _ h2, hrec _ h3])
    · exact debugR_untouched hrec hdbg _ _

theorem stepFilepath_untouched {rec : Store → String → PyVal → Store} {k : String}
    (hrec : ∀ j, k ∉ touched j → ∀ st v, getM (rec st j v) k = getM st k)
    {keyu : String} (hk : k ∉ touched keyu) (st : Store) (valueu : String) :
    getM (stepFilepath rec st keyu valueu) k = getM st k := by
  unfold stepFilepath
  split
  · next h =>
      subst h
      have h1 : k ∉ touched "filename" := notT hk (by decide)
      have h2 : k ∉ touched "directory" := notT hk (by decide)
      rw [hrec _ h2, hrec _ h1]
  · rfl

theorem stepC2url_untouched {rec : Store → String → PyVal → Store} {k : String}
    (hrec : ∀ j, k ∉ touched j → ∀ st v, getM (rec st j v) k = getM st k)
    {keyu : String} (hk : k ∉ touched keyu) (st : Store) (valueu : String) :
    getM (stepC2url rec st keyu valueu) k = getM st k := by
  unfold stepC2url
  split
  · next h =>
      subst h
      have h1 : k ∉ touched "url" := notT hk (by decide)
      rw [hrec _ h1]
  · rfl

theorem stepC2address_untouched {rec : Store → String → PyVal → Store} {k : String}
    (hrec : ∀ j, k ∉ touched j → ∀ st v, getM (rec st j v) k = getM st k)
    {keyu : String} (hk : k ∉ touched keyu) (st : Store) (valueu : String) :
    getM (stepC2address rec st keyu valueu) k = getM st k := by
  unfold stepC2address
  split
  · next h =>
      subst h
      have h1 : k ∉ touched "address" := notT hk (by decide)
      rw [hrec _ h1]
  · rfl

theorem stepServiceimage_untouched {rec : Store → String → PyVal → Store} {k : String}
    (hrec : ∀ j, k ∉ touched j → ∀ st v, getM (rec st j v) k = getM st k)
    {keyu : String} (hk : k ∉ touched keyu) (st : Store) (valueu : String) :
    getM (stepServiceimage rec st keyu valueu) k = getM st k := by
  unfold stepServiceimage
  split
  · next h =>
      subst h
      have h1 : k ∉ touched "filepath" := notT hk (by decide)
      split
      · rw [hrec _ h1]
      · rfl
  · rfl

theorem stepServicedll_untouched {rec : Store → String → PyVal → Store} {k : String}
    (hrec : ∀ j, k ∉ touched j → ∀ st v, getM (rec st j v) k = getM st k)
    {keyu : String} (hk : k ∉ touched keyu) (st : Store) (valueu : String) :
    getM (stepServicedll rec st keyu valueu) k = getM st k := by
  unfold stepServicedll
  split
  · next h =>
      subst h
      have h1 : k ∉ touched "filepath" := notT hk (by decide)
      rw [hrec _ h1]
  · rfl

theorem cascadeStrsF_untouched {cfg : Config} {rec : Store → String → PyVal → Store} {k : String}
    (hrec : ∀ j, k ∉ touched j → ∀ st v, getM (rec st j v) k = getM st k)
    {keyu : String} (hk : k ∉ touched keyu) (st : Store) (valueu : String) :
    getM (cascadeStrsF cfg rec st keyu valueu) k = getM st k := by
  unfold cascadeStrsF
  split
  · rfl
  · dsimp only
    have e : getM (stepServicedll rec (stepServiceimage rec (stepC2address rec
        (stepC2url rec (stepFilepath rec st keyu valueu) keyu valueu) keyu valueu)
        keyu valueu) keyu valueu) k = getM st k := by
      rw [stepServicedll_untouched hrec hk, stepServiceimage_untouched hrec hk,
        stepC2address_untouched hrec hk, stepC2url_untouched hrec hk,
        stepFilepath_untouched hrec hk]
    split
    · next hor =>
        have hor' : keyu = "url" ∨ keyu = "c2_url" := by
          rcases Bool.or_eq_true_iff.mp hor with h | h
          · exact Or.inl (of_decide_eq_true h)
          · exact Or.inr (of_decide_eq_true h)
        rw [urlCascadeF_untouched hrec hor' hk, e]
    · exact e

theorem ite_getM {k : String} {st : Store} {c : Prop} [Decidable c] {a b : Store}
    (ha : getM a k = getM st k) (hb : getM b k = getM st k) :
    getM (if c then a else b) k = getM st k := by
  split
  · exact ha
  · exact hb

theorem ruleC2Socketaddress_untouched {rec : Store → String → PyVal → Store} {k : String}
    (hrec : ∀ j, k ∉ touched j → ∀ st v, getM (rec st j v) k = getM st k)
    (h1 : k ∉ touched "socketaddress") (h2 : k ∉ touched "c2_address")
    (st : Store) (values : List String) :
    getM (ruleC2Socketaddress rec st values) k = getM st k := by
  unfold ruleC2Socketaddress
  rw [hrec _ h2, hrec _ h1]

theorem ruleSocketaddress_untouched {cfg : Config} {rec : Store → String → PyVal → Store} {k : String}
    (hrec : ∀ j, k ∉ touched j → ∀ st v, getM (rec st j v) k = getM st k)
    (h1 : k ∉ touched "address") (h2 : k ∉ touched "port") (hdbg : k ≠ "debug")
    (st : Store) (values : List String) :
    getM (ruleSocketaddress cfg rec st values) k = getM st k := by
  unfold ruleSocketaddress
  dsimp only
  repeat' first
    | rfl
    | rw [debugR_untouched hrec hdbg]
    | rw [hrec _ h1]
    | rw [hrec _ h2]
    | apply ite_getM
    | split

theorem ruleCredential_untouched {cfg : Config} {rec : Store → String → PyVal → Store} {k : String}
    (hrec : ∀ j, k ∉ touched j → ∀ st v, getM (rec st j v) k = getM st k)
    (h1 : k ∉ touched "username") (h2 : k ∉ touched "password") (hdbg : k ≠ "debug")
    (st : Store) (values : List String) :
    getM (ruleCredential cfg rec st values) k = getM st k := by
  unfold ruleCredential
  dsimp only
  repeat' first
    | rfl
    | rw [debugR_untouched hrec hdbg]
    | rw [hrec _ h1]
    | rw [hrec _ h2]
    | apply ite_getM
    | split

theorem rulePort_untouched {cfg : Config} {rec : Store → String → PyVal → Store} {k : String}
    (hrec : ∀ j, k ∉ touched j → ∀ st v, getM (rec st j v) k = getM st k)
    (hdbg : k ≠ "debug") (st : Store) (keyu : String) (values : List String) :
    getM (rulePort cfg rec st keyu values) k = getM st k := by
  unfold rulePort
  dsimp only
  repeat' first
    | rfl
    | rw [debugR_untouched hrec hdbg]
    | apply ite_getM
    | split

theorem ruleRegistrypathdata_untouched {cfg : Config} {rec : Store → String → PyVal → Store} {k : String}
    (hrec : ∀ j, k ∉ touched j → ∀ st v, getM (rec st j v) k = getM st k)
    (h1 : k ∉ touched "registrypath") (h2 : k ∉ touched "registrydata") (hdbg : k ≠ "debug")
    (st : Store) (values : List String) :
    getM (ruleRegistrypathdata cfg rec st values) k = getM st k := by
  unfold ruleRegistrypathdata
  dsimp only
  repeat' first
    | rfl
    | rw [debugR_untouched hrec hdbg]
    | rw [hrec _ h1]
    | rw [hrec _ h2]
    | apply ite_getM
    | split

theorem ruleService_untouched {cfg : Config} {rec : Store → String → PyVal → Store} {k : String}
    (hrec : ∀ j, k ∉ touched j → ∀ st v, getM (rec st j v) k = getM st k)
    (h1 : k ∉ touched "servicename") (h2 : k ∉ touched "servicedisplayname")
    (h3 : k ∉ touched "servicedescription") (h4 : k ∉ touched "serviceimage")
    (h5 : k ∉ touched "servicedll") (hdbg : k ≠ "debug")
    (st : Store) (values : List String) :
    getM (ruleService cfg rec st values) k = getM st k := by
  unfold ruleService
  dsimp only
  repeat' first
    | rfl
    | rw [debugR_untouched hrec hdbg]
    | rw [hrec _ h1]
    | rw [hrec _ h2]
    | rw [hrec _ h3]
    | rw [hrec _ h4]
    | rw [hrec _ h5]
    | apply ite_getM
    | split

theorem cascadeTupsF_untouched {cfg : Config} {rec : Store → String → PyVal → Store} {k : String}
    (hrec : ∀ j, k ∉ touched j → ∀ st v, getM (rec st j v) k = getM st k)
    {keyu : String} (hk : k ∉ touched keyu) (st : Store) (values : List String) :
    getM (cascadeTupsF cfg rec st keyu values) k = getM st k := by
  have hdbg : k ≠ "debug" := fun h => hk (h ▸ debug_mem_touched keyu)
  unfold cascadeTupsF
  split_ifs with hsub h1 h2 h3 h4 h5 h6
  · rfl
  · subst h1
    exact ruleC2Socketaddress_untouched hrec (notT hk (by decide)) (notT hk (by decide)) _ _
  · subst h2
    exact ruleSocketaddress_untouched hrec (notT hk (by decide)) (notT hk (by decide)) hdbg _ _
  · subst h3
    exact ruleCredential_untouched hrec (notT hk (by decide)) (notT hk (by decide)) hdbg _ _
  · exact rulePort_untouched hrec hdbg _ _ _
  · subst h5
    exact ruleRegistrypathdata_untouched hrec (notT hk (by decide)) (notT hk (by decide)) hdbg _ _
  · subst h6
    exact ruleService_untouched hrec (notT hk (by decide)) (notT hk (by decide))
      (notT hk (by decide)) (notT hk (by decide)) (notT hk (by decide)) hdbg _ _
  · rfl

theorem addStrsF_untouched {cfg : Config} {rec : Store → String → PyVal → Store} {k : String}
    (hrec : ∀ j, k ∉ touched j → ∀ st v, getM (rec st j v) k = getM st k)
    {keyu : String} (hk : k ∉ touched keyu) (st : Store) (value : PyVal) :
    getM (addStrsF cfg rec st keyu value) k = getM st k := by
  have hdbg : k ≠ "debug" := fun h => hk (h ▸ debug_mem_touched keyu)
  have hself : ¬keyu = k := fun h => hk (h ▸ self_mem_touched keyu)
  unfold addStrsF
  split
  · exact debugR_untouched hrec hdbg _ _
  · dsimp only
    repeat' first
      | rfl
      | rw [cascadeStrsF_untouched hrec hk]
      | rw [debugR_untouched hrec hdbg]
      | (rw [getM_setM]; simp only [if_neg hself])
      | apply ite_getM
      | split

theorem addTupsF_untouched {cfg : Config} {rec : Store → String → PyVal → Store} {k : String}
    (hrec : ∀ j, k ∉ touched j → ∀ st v, getM (rec st j v) k = getM st k)
    {keyu : String} (hk : k ∉ touched keyu) (st : Store) (value : PyVal) :
    getM (addTupsF cfg rec st keyu value) k = getM st k := by
  have hdbg : k ≠ "debug" := fun h => hk (h ▸ debug_mem_touched keyu)
  have hself : ¬keyu = k := fun h => hk (h ▸ self_mem_touched keyu)
  unfold addTupsF
  split
  · exact debugR_untouched hrec hdbg _ _
  · dsimp only
    repeat' first
      | rfl
      | rw [cascadeTupsF_untouched hrec hk]
      | rw [debugR_untouched hrec hdbg]
      | (rw [getM_setM]; simp only [if_neg hself])
      | apply ite_getM
      | split

theorem dictItemsF_untouched {cfg : Config} {rec : Store → String → PyVal → Store} {k : String}
    (hrec : ∀ j, k ∉ touched j → ∀ st v, getM (rec st j v) k = getM st k)
    (hother : k ≠ "other") (hdbg : k ≠ "debug") {keyu : String} :
    ∀ (d : List (String × String)) (st : Store),
      getM (dictItemsF cfg rec keyu st d) k = getM st k := by
  intro d
  induction d with
  | nil => intro st; rfl
  | cons p rest ih =>
      intro st
      obtain ⟨sk, sv⟩ := p
      have hne : ¬("other" = k) := fun h => hother h.symm
      unfold dictItemsF
      dsimp only
      repeat' first
        | rfl
        | rw [ih]
        | rw [debugR_untouched hrec hdbg]
        | (rw [getM_setM]; simp only [if_neg hne])
        | apply ite_getM
        | split

theorem addDictF_untouched {cfg : Config} {rec : Store → String → PyVal → Store} {k : String}
    (hrec : ∀ j, k ∉ touched j → ∀ st v, getM (rec st j v) k = getM st k)
    {keyu : String} (hfield : fields keyu = some .dictofstrings) (hk : k ∉ touched keyu)
    (st : Store) (value : PyVal) :
    getM (addDictF cfg rec st keyu value) k = getM st k := by
  have hkey := fields_dict_inv hfield
  subst hkey
  have hother : k ≠ "other" := fun h => hk (h ▸ self_mem_touched _)
  have hdbg : k ≠ "debug" := fun h => hk (h ▸ debug_mem_touched _)
  unfold addDictF
  split
  · exact dictItemsF_untouched hrec hother hdbg _ _
  · split
    · rfl
    · exact debugR_untouched hrec hdbg _ _
  · split
    · rfl
    · exact debugR_untouched hrec hdbg _ _

theorem addMetadataF_untouched {cfg : Config} {rec : Store → String → PyVal → Store} {k : String}
    (hrec : ∀ j, k ∉ touched j → ∀ st v, getM (rec st j v) k = getM st k)
    {key : String} (hk : k ∉ touched key) (st : Store) (value : PyVal) :
    getM (addMetadataF cfg rec st key value) k = getM st k := by
  have hdbg : k ≠ "debug" := fun h => hk (h ▸ debug_mem_touched key)
  unfold addMetadataF
  split
  · exact debugR_untouched hrec hdbg _ _
  · exact addStrsF_untouched hrec hk _ _
  · exact addTupsF_untouched hrec hk _ _
  · next heq => exact addDictF_untouched hrec heq hk _ _

theorem untouchedF (cfg : Config) :
    ∀ (n : Nat) {k j : String}, k ∉ touched j →
      ∀ (st : Store) (v : PyVal), getM (addMetaF cfg n st j v) k = getM st k := by
  intro n
  induction n with
  | zero => intro k j hk st v; rfl
  | succ m ih =>
      intro k j hk st v
      exact addMetadataF_untouched (fun j' hk' st' v' => ih hk' st' v') hk st v

/-- A key outside the touched set of `j` is untouched by
`add_metadata(j, v)`. -/
theorem add_metadata_untouched {cfg : Config} {k j : String} (hk : k ∉ touched j)
    (st : Store) (v : PyVal) : getM (add_metadata cfg st j v) k = getM st k :=
  untouchedF cfg FUEL hk st v

theorem addMetaF_succ (cfg : Config) (n : Nat) (st : Store) (k : String) (v : PyVal) :
    addMetaF cfg (n + 1) st k v = addMetadataF cfg (addMetaF cfg n) st k v := rfl

theorem setM_setM (st : Store) (k : String) (a b : MVal) :
    setM (setM st k a) k b = setM st k b := by
  induction st with
  | nil => simp [setM]
  | cons p rest ih =>
      obtain ⟨a', b'⟩ := p
      by_cases h : a' = k
      · simp [setM, h]
      · simp [setM, h, ih]

theorem cascadeStrs_debug (cfg : Config) (rec : Store → String → PyVal → Store)
    (st : Store) (valueu : String) :
    cascadeStrsF cfg rec st "debug" valueu = st := by
  unfold cascadeStrsF stepFilepath stepC2url stepC2address stepServiceimage stepServicedll
  simp

/-- A `self.debug(msg)` call on a store whose debug field is absent or
a list: append one entry under "debug" and change nothing else. -/
theorem debug_call (cfg : Config) (st : Store) (msg : String) (n : Nat)
    (hshape : getM st "debug" = none ∨ ∃ l, getM st "debug" = some (.list l)) :
    addMetaF cfg (n + 1) st "debug" (.str msg) =
      setM st "debug" (.list (listAt st "debug" ++ [.s msg])) := by
  have hf : fields "debug" = some FType.listofstrings := rfl
  rcases hshape with h | ⟨l, h⟩
  · have hhk : hasKey st "debug" = false := by simp [hasKey, h]
    simp only [addMetaF, addMetadataF, hf, addStrsF, convertU, hhk]
    simp only [Bool.false_eq_true, if_false, getM_setM, if_pos]
    simp only [cascadeStrs_debug, setM_setM]
    simp [listAt, h]
  · have hhk : hasKey st "debug" = true := by simp [hasKey, h]
    simp only [addMetaF, addMetadataF, hf, addStrsF, convertU, hhk]
    simp only [if_true, h, cascadeStrs_debug]
    simp [listAt, h]

/-! ### C4: recording under an unknown key -/

/-- C4: for every key not in the taxonomy and every value (debug
logging enabled, the debug field absent or list-shaped), `add_metadata`
leaves every field other than the debug log unchanged and appends
exactly one debug entry stating that the key is not allowed. -/
theorem C4_unknown_key_rejected (cfg : Config) (st : Store) (key : String) (v : PyVal)
    (hkey : fields key = none) (hdbg : cfg.disabledebug = false)
    (hshape : getM st "debug" = none ∨ ∃ l, getM st "debug" = some (.list l)) :
    getM (add_metadata cfg st key v) "debug" =
      some (.list (listAt st "debug" ++
        [.s ("Error adding metadata because " ++ key ++ " is not an allowed key")])) ∧
    ∀ k', k' ≠ "debug" → getM (add_metadata cfg st key v) k' = getM st k' := by
  have e : add_metadata cfg st key v =
      setM st "debug" (.list (listAt st "debug" ++
        [.s ("Error adding metadata because " ++ key ++ " is not an allowed key")])) := by
    show addMetaF cfg (7 + 1) st key v = _
    rw [addMetaF_succ]
    simp only [addMetadataF, hkey]
    simp only [debugR, hdbg, Bool.false_eq_true, if_false]
    exact debug_call cfg st _ 6 hshape
  constructor
  · rw [e, getM_setM]
    simp
  · intro k' hk'
    rw [e, getM_setM, if_neg (fun hh : "debug" = k' => hk' hh.symm)]

/-- C4 witness: recording an unknown key on the empty store with the
default configuration. -/
theorem C4_unknown_key_rejected_witness :
    getM (add_metadata cfgDefault [] "not_a_field" (.str "x")) "debug" =
      some (.list [.s "Error adding metadata because not_a_field is not an allowed key"]) ∧
    ∀ k', k' ≠ "debug" → getM (add_metadata cfgDefault [] "not_a_field" (.str "x")) k' = getM [] k' := by
  have h := C4_unknown_key_rejected cfgDefault [] "not_a_field" (.str "x")
    (by decide) (by decide) (Or.inl (by decide))
  simpa [listAt, getM] using h

/-! ### The cascade never writes back to the key that triggered it -/

theorem stepFilepath_self {rec : Store → String → PyVal → Store} {k : String}
    (hrec : ∀ j, k ∉ touched j → ∀ st v, getM (rec st j v) k = getM st k)
    (st : Store) (valueu : String) :
    getM (stepFilepath rec st k valueu) k = getM st k := by
  unfold stepFilepath
  split
  · next h =>
      subst h
      rw [hrec _ (by decide), hrec _ (by decide)]
  · rfl

theorem stepC2url_self {rec : Store → String → PyVal → Store} {k : String}
    (hrec : ∀ j, k ∉ touched j → ∀ st v, getM (rec st j v) k = getM st k)
    (st : Store) (valueu : String) :
    getM (stepC2url rec st k valueu) k = getM st k := by
  unfold stepC2url
  split
  · next h => subst h; rw [hrec _ (by decide)]
  · rfl

theorem stepC2address_self {rec : Store → String → PyVal → Store} {k : String}
    (hrec : ∀ j, k ∉ touched j → ∀ st v, getM (rec st j v) k = getM st k)
    (st : Store) (valueu : String) :
    getM (stepC2address rec st k valueu) k = getM st k := by
  unfold stepC2address
  split
  · next h => subst h; rw [hrec _ (by decide)]
  · rfl

theorem stepServiceimage_self {rec : Store → String → PyVal → Store} {k : String}
    (hrec : ∀ j, k ∉ touched j → ∀ st v, getM (rec st j v) k = getM st k)
    (st : Store) (valueu : String) :
    getM (stepServiceimage rec st k valueu) k = getM st k := by
  unfold stepServiceimage
  split
  · next h =>
      subst h
      split
      · rw [hrec _ (by decide)]
      · rfl
  · rfl

theorem stepServicedll_self {rec : Store → String → PyVal → Store} {k : String}
    (hrec : ∀ j, k ∉ touched j → ∀ st v, getM (rec st j v) k = getM st k)
    (st : Store) (valueu : String) :
    getM (stepServicedll rec st k valueu) k = getM st k := by
  unfold stepServicedll
  split
  · next h => subst h; rw [hrec _ (by decide)]
  · rfl

theorem urlCascadeF_self {cfg : Config} {rec : Store → String → PyVal → Store} {k : String}
    (hrec : ∀ j, k ∉ touched j → ∀ st v, getM (rec st j v) k = getM st k)
    (hor : k = "url" ∨ k = "c2_url") (st : Store) (valueu : String) :
    getM (urlCascadeF cfg rec st k valueu) k = getM st k := by
  rcases hor with h | h
  · subst h
    have h1 : "url" ∉ touched "socketaddress" := by decide
    have h2 : "url" ∉ touched "address" := by decide
    have h3 : "url" ∉ touched "urlpath" := by decide
    have hdbg : "url" ∉ touched "debug" := by decide
    unfold urlCascadeF
    split
    · dsimp only
      repeat' split
      all_goals first
        | rfl
        | exact absurd ‹"url" = "c2_url"› (by decide)
        | (simp only [hrec _ h1, hrec _ h2, hrec _ h3])
    · unfold debugR
      split
      · rfl
      · exact hrec _ hdbg _ _
  · subst h
    have h1 : "c2_url" ∉ touched "c2_socketaddress" := by decide
    have h2 : "c2_url" ∉ touched "c2_address" := by decide
    have h3 : "c2_url" ∉ touched "urlpath" := by decide
    have hdbg : "c2_url" ∉ touched "debug" := by decide
    unfold urlCascadeF
    split
    · dsimp only
      repeat' split
      all_goals first
        | rfl
        | exact absurd rfl ‹¬("c2_url" = "c2_url")›
        | (simp only [hrec _ h1, hrec _ h2, hrec _ h3])
    · unfold debugR
      split
      · rfl
      · exact hrec _ hdbg _ _

theorem cascadeStrsF_self {cfg : Config} {rec : Store → String → PyVal → Store} {k : String}
    (hrec : ∀ j, k ∉ touched j → ∀ st v, getM (rec st j v) k = getM st k)
    (st : Store) (valueu : String) :
    getM (cascadeStrsF cfg rec st k valueu) k = getM st k := by
  unfold cascadeStrsF
  split
  · rfl
  · dsimp only
    have e : getM (stepServicedll rec (stepServiceimage rec (stepC2address rec
        (stepC2url rec (stepFilepath rec st k valueu) k valueu) k valueu)
        k valueu) k valueu) k = getM st k := by
      rw [stepServicedll_self hrec, stepServiceimage_self hrec,
        stepC2address_self hrec, stepC2url_self hrec, stepFilepath_self hrec]
    split
    · next hor =>
        have hor' : k = "url" ∨ k = "c2_url" := by
          rcases Bool.or_eq_true_iff.mp hor with h | h
          · exact Or.inl (of_decide_eq_true h)
          · exact Or.inr (of_decide_eq_true h)
        rw [urlCascadeF_self hrec hor', e]
    · exact e

/-- What one `add_metadata` call does to the list of a
`listofstrings` field: append subject to the source's dedup
condition; the cascade never writes back to the key itself. -/
theorem addStrs_getM (cfg : Config) (st : Store) (k s : String)
    (hf : fields k = some .listofstrings)
    (hshape : getM st k = none ∨ ∃ l, getM st k = some (.list l)) :
    getM (add_metadata cfg st k (.str s)) k =
      some (.list
        (if !(Entry.s s ∈ listAt st k) || cfg.disablevaluededup || k = "debug"
         then listAt st k ++ [.s s] else listAt st k)) := by
  have hrec := fun j (hj : k ∉ touched j) (st' : Store) (v' : PyVal) =>
    untouchedF cfg 7 hj st' v'
  rw [show add_metadata cfg st k (.str s) = addMetaF cfg (7 + 1) st k (.str s) from rfl,
    addMetaF_succ]
  simp only [addMetadataF, hf]
  unfold addStrsF
  simp only [convertU]
  rcases hshape with h | ⟨l, h⟩
  · have hhk : hasKey st k = false := by simp [hasKey, h]
    have hla : listAt st k = [] := by simp [listAt, h]
    have hg : getM (setM st k (MVal.list [])) k = some (MVal.list []) := by
      rw [getM_setM, if_pos rfl]
    simp only [hhk, Bool.false_eq_true, if_false, hg]
    rw [cascadeStrsF_self hrec]
    have hc1 : (!(Entry.s s ∈ (List.nil : List Entry)) || cfg.disablevaluededup
        || k = "debug") = true := by simp
    rw [if_pos hc1, setM_setM, getM_setM, if_pos rfl, hla]
    simp
  · have hhk : hasKey st k = true := by simp [hasKey, h]
    have hla : listAt st k = l := by simp [listAt, h]
    simp only [hhk, if_true, h]
    rw [cascadeStrsF_self hrec, hla]
    by_cases hc : (!(Entry.s s ∈ l) || cfg.disablevaluededup || k = "debug") = true
    · rw [if_pos hc, if_pos hc, getM_setM, if_pos rfl]
    · rw [if_neg hc, if_neg hc, h]

theorem listAt_of_getM {st : Store} {k : String} {l : List Entry}
    (h : getM st k = some (.list l)) : listAt st k = l := by
  simp [listAt, h]

/-! ### C5: StringList dedup, with the debug exception -/

/-- C5: with dedup enabled, for every `listofstrings` field other than
debug (field list-shaped or absent, value not yet present), recording
the same value twice stores it once: the second call leaves the
field's list unchanged, and the value occurs exactly once.  The debug
field instead appends on every call, even with dedup enabled. -/
theorem C5_stringlist_dedup :
    (∀ (cfg : Config) (st : Store) (k s : String),
        cfg.disablevaluededup = false → fields k = some .listofstrings → k ≠ "debug" →
        (getM st k = none ∨ ∃ l, getM st k = some (.list l)) →
        Entry.s s ∉ listAt st k →
        listAt (add_metadata cfg (add_metadata cfg st k (.str s)) k (.str s)) k =
          listAt (add_metadata cfg st k (.str s)) k ∧
        (listAt (add_metadata cfg (add_metadata cfg st k (.str s)) k (.str s)) k).count (.s s) = 1) ∧
    (∀ (cfg : Config) (st : Store) (m : String),
        (getM st "debug" = none ∨ ∃ l, getM st "debug" = some (.list l)) →
        listAt (add_metadata cfg st "debug" (.str m)) "debug" =
          listAt st "debug" ++ [.s m]) := by
  constructor
  · intro cfg st k s hdedup hf hkd hshape hmem
    have h1 := addStrs_getM cfg st k s hf hshape
    have hc1 : (!(Entry.s s ∈ listAt st k) || cfg.disablevaluededup || k = "debug") = true := by
      simp [hmem]
    rw [if_pos hc1] at h1
    have hla1 : listAt (add_metadata cfg st k (.str s)) k = listAt st k ++ [.s s] :=
      listAt_of_getM h1
    have h2 := addStrs_getM cfg (add_metadata cfg st k (.str s)) k s hf (Or.inr ⟨_, h1⟩)
    have hc2 : (!(Entry.s s ∈ listAt (add_metadata cfg st k (.str s)) k)
        || cfg.disablevaluededup || k = "debug") = false := by
      rw [hla1]
      simp [hdedup, hkd]
    have hne : ¬((!(Entry.s s ∈ listAt (add_metadata cfg st k (.str s)) k)
        || cfg.disablevaluededup || k = "debug") = true) := by
      rw [hc2]
      exact Bool.false_ne_true
    rw [if_neg hne] at h2
    constructor
    · rw [listAt_of_getM h2]
    · rw [listAt_of_getM h2, hla1, List.count_append, List.count_eq_zero.mpr hmem]
      simp
  · intro cfg st m hshape
    rw [show add_metadata cfg st "debug" (.str m) = addMetaF cfg (7 + 1) st "debug" (.str m)
      from rfl, debug_call cfg st m 7 hshape, listAt_setM, if_pos rfl]

/-- C5 witness: recording "x" twice under "address" stores it once;
recording "m" twice under "debug" stores it twice. -/
theorem C5_stringlist_dedup_witness :
    (listAt (add_metadata cfgDefault (add_metadata cfgDefault [] "address" (.str "x"))
        "address" (.str "x")) "address" =
      listAt (add_metadata cfgDefault [] "address" (.str "x")) "address" ∧
    (listAt (add_metadata cfgDefault (add_metadata cfgDefault [] "address" (.str "x"))
        "address" (.str "x")) "address").count (.s "x") = 1) ∧
    listAt (add_metadata cfgDefault [] "debug" (.str "m")) "debug" =
      listAt ([] : Store) "debug" ++ [.s "m"] := by
  constructor
  · exact C5_stringlist_dedup.1 cfgDefault [] "address" "x" rfl rfl (by decide)
      (Or.inl rfl) (by decide)
  · exact C5_stringlist_dedup.2 cfgDefault [] "m" (Or.inl rfl)

/-! ### C9: catch-all dict dedup ignores the global toggle -/

/-- C9: recording a sub-key/value pair under the dict-shaped catch-all
field when that string value is already stored for the sub-key (as the
scalar, or inside an already-promoted list) leaves the store exactly
unchanged — for every configuration, so in particular also when global
dedup is disabled. -/
theorem C9_other_dict_dedup (cfg : Config) (st : Store) (k sk v : String)
    (od : List (String × DVal))
    (hf : fields k = some .dictofstrings)
    (hother : getM st "other" = some (.dict od))
    (hstored : getD od sk = some (.one v) ∨ ∃ l, getD od sk = some (.many l) ∧ v ∈ l) :
    add_metadata cfg st k (.dict [(sk, v)]) = st := by
  rw [show add_metadata cfg st k (.dict [(sk, v)])
      = addMetaF cfg (7 + 1) st k (.dict [(sk, v)]) from rfl, addMetaF_succ]
  simp only [addMetadataF, hf]
  have hhk : hasKey st "other" = true := by simp [hasKey, hother]
  unfold addDictF
  simp only [dictItemsF, hhk, if_true, hother]
  rcases hstored with h | ⟨l, h, hv⟩
  · simp [dictItemsF, h]
  · simp [dictItemsF, h, hv]

/-- C9 witness: with dedup globally disabled, re-recording a stored
scalar and a stored list member under "other" changes nothing. -/
theorem C9_other_dict_dedup_witness :
    add_metadata { cfgDefault with disablevaluededup := true }
      [("other", .dict [("a", .one "v"), ("b", .many ["x", "y"])])] "other" (.dict [("a", "v")]) =
      [("other", .dict [("a", .one "v"), ("b", .many ["x", "y"])])] ∧
    add_metadata { cfgDefault with disablevaluededup := true }
      [("other", .dict [("a", .one "v"), ("b", .many ["x", "y"])])] "other" (.dict [("b", "y")]) =
      [("other", .dict [("a", .one "v"), ("b", .many ["x", "y"])])] := by
  constructor
  · exact C9_other_dict_dedup _ _ "other" "a" "v"
      [("a", .one "v"), ("b", .many ["x", "y"])] rfl (by decide) (Or.inl (by decide))
  · exact C9_other_dict_dedup _ _ "other" "b" "y"
      [("a", .one "v"), ("b", .many ["x", "y"])] rfl (by decide)
      (Or.inr ⟨["x", "y"], by decide, by decide⟩)

/-! ### C6: every stored key is a taxonomy field or "other" -/

theorem mem_setM {st : Store} {k : String} {v : MVal} {p : String × MVal}
    (h : p ∈ setM st k v) : p = (k, v) ∨ p ∈ st := by
  induction st with
  | nil => simpa [setM] using h
  | cons q rest ih =>
      obtain ⟨a, b⟩ := q
      by_cases hak : a = k
      · simp [setM, hak] at h
        rcases h with h | h
        · exact Or.inl (by simp [h])
        · exact Or.inr (by simp [h])
      · simp [setM, hak] at h
        rcases h with h | h
        · exact Or.inr (by simp [h])
        · rcases ih h with h' | h'
          · exact Or.inl h'
          · exact Or.inr (by simp [h'])

theorem invKeys_setM {st : Store} {k : String} (h : invKeys st)
    (hk : ((fields k).isSome : Prop) ∨ k = "other") (mv : MVal) :
    invKeys (setM st k mv) := by
  intro p hp
  rcases mem_setM hp with he | hmem
  · subst he
    exact hk
  · exact h p hmem

theorem ite_inv {c : Prop} [Decidable c] {a b : Store}
    (ha : invKeys a) (hb : invKeys b) : invKeys (if c then a else b) := by
  split
  · exact ha
  · exact hb

theorem debugR_inv {cfg : Config} {rec : Store → String → PyVal → Store}
    (hrec : ∀ st j v, invKeys st → invKeys (rec st j v))
    {st : Store} (h : invKeys st) (m : String) : invKeys (debugR cfg rec st m) := by
  unfold debugR
  split
  · exact h
  · exact hrec _ _ _ h

theorem stepFilepath_inv {rec : Store → String → PyVal → Store}
    (hrec : ∀ st j v, invKeys st → invKeys (rec st j v))
    {st : Store} (h : invKeys st) {keyu valueu : String} :
    invKeys (stepFilepath rec st keyu valueu) := by
  unfold stepFilepath
  split
  · exact hrec _ _ _ (hrec _ _ _ h)
  · exact h

theorem stepC2url_inv {rec : Store → String → PyVal → Store}
    (hrec : ∀ st j v, invKeys st → invKeys (rec st j v))
    {st : Store} (h : invKeys st) {keyu valueu : String} :
    invKeys (stepC2url rec st keyu valueu) := by
  unfold stepC2url
  split
  · exact hrec _ _ _ h
  · exact h

theorem stepC2address_inv {rec : Store → String → PyVal → Store}
    (hrec : ∀ st j v, invKeys st → invKeys (rec st j v))
    {st : Store} (h : invKeys st) {keyu valueu : String} :
    invKeys (stepC2address rec st keyu valueu) := by
  unfold stepC2address
  split
  · exact hrec _ _ _ h
  · exact h

theorem stepServiceimage_inv {rec : Store → String → PyVal → Store}
    (hrec : ∀ st j v, invKeys st → invKeys (rec st j v))
    {st : Store} (h : invKeys st) {keyu valueu : String} :
    invKeys (stepServiceimage rec st keyu valueu) := by
  unfold stepServiceimage
  split
  · split
    · exact hrec _ _ _ h
    · exact h
  · exact h

theorem stepServicedll_inv {rec : Store → String → PyVal → Store}
    (hrec : ∀ st j v, invKeys st → invKeys (rec st j v))
    {st : Store} (h : invKeys st) {keyu valueu : String} :
    invKeys (stepServicedll rec st keyu valueu) := by
  unfold stepServicedll
  split
  · exact hrec _ _ _ h
  · exact h

theorem urlCascadeF_inv {cfg : Config} {rec : Store → String → PyVal → Store}
    (hrec : ∀ st j v, invKeys st → invKeys (rec st j v))
    {st : Store} (h : invKeys st) {keyu valueu : String} :
    invKeys (urlCascadeF cfg rec st keyu valueu) := by
  unfold urlCascadeF
  dsimp only
  repeat' first
    | assumption
    | apply hrec
    | apply debugR_inv hrec
    | apply ite_inv
    | split

theorem cascadeStrsF_inv {cfg : Config} {rec : Store → String → PyVal → Store}
    (hrec : ∀ st j v, invKeys st → invKeys (rec st j v))
    {st : Store} (h : invKeys st) (keyu valueu : String) :
    invKeys (cascadeStrsF cfg rec st keyu valueu) := by
  unfold cascadeStrsF
  dsimp only
  have h5 : invKeys (stepServicedll rec (stepServiceimage rec (stepC2address rec
      (stepC2url rec (stepFilepath rec st keyu valueu) keyu valueu) keyu valueu)
      keyu valueu) keyu valueu) :=
    stepServicedll_inv hrec (stepServiceimage_inv hrec (stepC2address_inv hrec
      (stepC2url_inv hrec (stepFilepath_inv hrec h))))
  split
  · exact h
  · split
    · exact urlCascadeF_inv hrec h5
    · exact h5

theorem ruleC2Socketaddress_inv {rec : Store → String → PyVal → Store}
    (hrec : ∀ st j v, invKeys st → invKeys (rec st j v))
    {st : Store} (h : invKeys st) {values : List String} :
    invKeys (ruleC2Socketaddress rec st values) :=
  hrec _ _ _ (hrec _ _ _ h)

theorem ruleSocketaddress_inv {cfg : Config} {rec : Store → String → PyVal → Store}
    (hrec : ∀ st j v, invKeys st → invKeys (rec st j v))
    {st : Store} (h : invKeys st) {values : List String} :
    invKeys (ruleSocketaddress cfg rec st values) := by
  unfold ruleSocketaddress
  dsimp only
  repeat' first
    | assumption
    | apply hrec
    | apply debugR_inv hrec
    | apply ite_inv
    | split

theorem ruleCredential_inv {cfg : Config} {rec : Store → String → PyVal → Store}
    (hrec : ∀ st j v, invKeys st → invKeys (rec st j v))
    {st : Store} (h : invKeys st) {values : List String} :
    invKeys (ruleCredential cfg rec st values) := by
  unfold ruleCredential
  dsimp only
  repeat' first
    | assumption
    | apply hrec
    | apply debugR_inv hrec
    | apply ite_inv
    | split

theorem rulePort_inv {cfg : Config} {rec : Store → String → PyVal → Store}
    (hrec : ∀ st j v, invKeys st → invKeys (rec st j v))
    {st : Store} (h : invKeys st) {keyu : String} {values : List String} :
    invKeys (rulePort cfg rec st keyu values) := by
  unfold rulePort
  dsimp only
  repeat' first
    | assumption
    | apply hrec
    | apply debugR_inv hrec
    | apply ite_inv
    | split

theorem ruleRegistrypathdata_inv {cfg : Config} {rec : Store → String → PyVal → Store}
    (hrec : ∀ st j v, invKeys st → invKeys (rec st j v))
    {st : Store} (h : invKeys st) {values : List String} :
    invKeys (ruleRegistrypathdata cfg rec st values) := by
  unfold ruleRegistrypathdata
  dsimp only
  repeat' first
    | assumption
    | apply hrec
    | apply debugR_inv hrec
    | apply ite_inv
    | split

set_option maxHeartbeats 1000000 in
theorem ruleService_inv {cfg : Config} {rec : Store → String → PyVal → Store}
    (hrec : ∀ st j v, invKeys st → invKeys (rec st j v))
    {st : Store} (h : invKeys st) {values : List String} :
    invKeys (ruleService cfg rec st values) := by
  unfold ruleService
  dsimp only
  repeat' first
    | assumption
    | apply hrec
    | apply debugR_inv hrec
    | apply ite_inv
    | split

theorem cascadeTupsF_inv {cfg : Config} {rec : Store → String → PyVal → Store}
    (hrec : ∀ st j v, invKeys st → invKeys (rec st j v))
    {st : Store} (h : invKeys st) (keyu : String) (values : List String) :
    invKeys (cascadeTupsF cfg rec st keyu values) := by
  unfold cascadeTupsF
  split_ifs
  · exact h
  · exact ruleC2Socketaddress_inv hrec h
  · exact ruleSocketaddress_inv hrec h
  · exact ruleCredential_inv hrec h
  · exact rulePort_inv hrec h
  · exact ruleRegistrypathdata_inv hrec h
  · exact ruleService_inv hrec h
  · exact h

theorem addStrsF_inv {cfg : Config} {rec : Store → String → PyVal → Store}
    (hrec : ∀ st j v, invKeys st → invKeys (rec st j v))
    {keyu : String} (hf : fields keyu = some .listofstrings)
    {st : Store} (h : invKeys st) (value : PyVal) :
    invKeys (addStrsF cfg rec st keyu value) := by
  have hkOr : ((fields keyu).isSome : Prop) ∨ keyu = "other" := Or.inl (by simp [hf])
  unfold addStrsF
  dsimp only
  repeat' first
    | assumption
    | apply hrec
    | apply debugR_inv hrec
    | apply cascadeStrsF_inv hrec
    | apply invKeys_setM
    | exact hkOr
    | split

theorem addTupsF_inv {cfg : Config} {rec : Store → String → PyVal → Store}
    (hrec : ∀ st j v, invKeys st → invKeys (rec st j v))
    {keyu : String} (hf : fields keyu = some .listofstringtuples)
    {st : Store} (h : invKeys st) (value : PyVal) :
    invKeys (addTupsF cfg rec st keyu value) := by
  have hkOr : ((fields keyu).isSome : Prop) ∨ keyu = "other" := Or.inl (by simp [hf])
  unfold addTupsF
  dsimp only
  repeat' first
    | assumption
    | apply hrec
    | apply debugR_inv hrec
    | apply cascadeTupsF_inv hrec
    | apply invKeys_setM
    | exact hkOr
    | split

theorem dictItemsF_inv {cfg : Config} {rec : Store → String → PyVal → Store}
    (hrec : ∀ st j v, invKeys st → invKeys (rec st j v)) {keyu : String} :
    ∀ (d : List (String × String)) (st : Store), invKeys st →
      invKeys (dictItemsF cfg rec keyu st d) := by
  intro d
  induction d with
  | nil => intro st h; exact h
  | cons p rest ih =>
      intro st h
      obtain ⟨sk, sv⟩ := p
      unfold dictItemsF
      dsimp only
      repeat' first
        | assumption
        | apply ih
        | apply hrec
        | apply debugR_inv hrec
        | apply invKeys_setM
        | exact Or.inr rfl
        | split

theorem addDictF_inv {cfg : Config} {rec : Store → String → PyVal → Store}
    (hrec : ∀ st j v, invKeys st → invKeys (rec st j v))
    {st : Store} (h : invKeys st) (keyu : String) (value : PyVal) :
    invKeys (addDictF cfg rec st keyu value) := by
  unfold addDictF
  repeat' first
    | assumption
    | apply dictItemsF_inv hrec
    | apply debugR_inv hrec
    | split

theorem addMetadataF_inv {cfg : Config} {rec : Store → String → PyVal → Store}
    (hrec : ∀ st j v, invKeys st → invKeys (rec st j v))
    {st : Store} (h : invKeys st) (key : String) (value : PyVal) :
    invKeys (addMetadataF cfg rec st key value) := by
  unfold addMetadataF
  split
  · exact debugR_inv hrec h _
  · next heq => exact addStrsF_inv hrec heq h _
  · next heq => exact addTupsF_inv hrec heq h _
  · exact addDictF_inv hrec h _ _

theorem invF (cfg : Config) :
    ∀ (n : Nat) (st : Store), invKeys st → ∀ (k : String) (v : PyVal),
      invKeys (addMetaF cfg n st k v) := by
  intro n
  induction n with
  | zero => intro st h k v; exact h
  | succ m ih =>
      intro st h k v
      exact addMetadataF_inv (fun st' j' v' h' => ih st' h' j' v') h k v

theorem runRecords_inv (cfg : Config) :
    ∀ (calls : List (String × PyVal)) (st : Store), invKeys st →
      invKeys (runRecords cfg st calls) := by
  intro calls
  induction calls with
  | nil => intro st h; exact h
  | cons c rest ih =>
      intro st h
      exact ih _ (invF cfg FUEL st h c.1 c.2)

/-- C6: after any sequence of `add_metadata` calls with arbitrary keys
and values starting from the empty store, every key present in the
store is a taxonomy field name or the catch-all "other"; the invariant
is preserved by every call, including all cascade-derived writes. -/
theorem C6_taxonomy_invariant (cfg : Config) (calls : List (String × PyVal)) (k : String)
    (hk : hasKey (runRecords cfg [] calls) k = true) :
    ((fields k).isSome : Prop) ∨ k = "other" := by
  have hinv : invKeys (runRecords cfg [] calls) :=
    runRecords_inv cfg calls [] (by intro p hp; simp at hp)
  have : (getM (runRecords cfg [] calls) k).isSome := hk
  rcases Option.isSome_iff_exists.mp this with ⟨mv, hmv⟩
  exact hinv (k, mv) (getM_mem hmv)

/-- C6 witness: the cascade-derived "port" key of the C2 run is a
taxonomy field. -/
theorem C6_taxonomy_invariant_witness :
    ((fields "port").isSome : Prop) ∨ "port" = "other" :=
  C6_taxonomy_invariant cfgDefault [("url", .str "http://bad.com:80/x")] "port" (by decide)

/-! ### C7 and C10: the Output Artifact Registry -/

theorem getOF_setOF (ofs : List (String × OutEntry)) (k k' : String) (e : OutEntry) :
    getOF (setOF ofs k e) k' = if k = k' then some e else getOF ofs k' := by
  induction ofs with
  | nil => simp [setOF, getOF]
  | cons p rest ih =>
      obtain ⟨a, b⟩ := p
      by_cases hak : a = k
      · subst hak
        by_cases hk' : a = k' <;> simp [setOF, getOF, hk']
      · by_cases hk' : a = k'
        · subst hk'
          have hka : ¬k = a := fun h => hak h.symm
          simp [setOF, getOF, hak, ih, hka]
        · simp [setOF, getOF, hak, hk', ih]

theorem getOF_setPathOF (ofs : List (String × OutEntry)) (k p k' : String) :
    getOF (setPathOF ofs k p) k' =
      if k = k' then (getOF ofs k').map (fun e => { e with path := some p })
      else getOF ofs k' := by
  induction ofs with
  | nil => by_cases h : k = k' <;> simp [setPathOF, getOF, h]
  | cons q rest ih =>
      obtain ⟨a, b⟩ := q
      by_cases hak : a = k
      · subst hak
        by_cases hk' : a = k'
        · subst hk'
          simp [setPathOF, getOF]
        · simp [setPathOF, getOF, hk', ih]
      · by_cases hk' : a = k'
        · subst hk'
          have : ¬k = a := fun h => hak h.symm
          simp [setPathOF, getOF, hak, this]
        · simp [setPathOF, getOF, hak, hk', ih]

theorem cascadeTups_outputfile (cfg : Config) (rec : Store → String → PyVal → Store)
    (st : Store) (values : List String) :
    cascadeTupsF cfg rec st "outputfile" values = st := by
  unfold cascadeTupsF
  simp

/-- What one `add_metadata("outputfile", vs)` call does to the
outputfile list: append subject to dedup; the elif chain has no rule
for outputfile. -/
theorem addTups_getM_outputfile (cfg : Config) (st : Store) (vs : List String)
    (hvs : vs ≠ [])
    (hshape : getM st "outputfile" = none ∨ ∃ l, getM st "outputfile" = some (.list l)) :
    getM (add_metadata cfg st "outputfile" (.tup vs)) "outputfile" =
      some (.list
        (if cfg.disablevaluededup then listAt st "outputfile" ++ [.t vs]
         else if Entry.t vs ∈ listAt st "outputfile" then listAt st "outputfile"
         else listAt st "outputfile" ++ [.t vs])) := by
  rw [show add_metadata cfg st "outputfile" (.tup vs)
      = addMetaF cfg (7 + 1) st "outputfile" (.tup vs) from rfl, addMetaF_succ]
  simp only [addMetadataF, show fields "outputfile" = some FType.listofstringtuples from rfl]
  unfold addTupsF
  have hfal : pyFalsy (.tup vs) = false := by simp [pyFalsy, hvs]
  simp only [hfal, Bool.false_eq_true, if_false, tupItems]
  rcases hshape with h | ⟨l, h⟩
  · have hhk : hasKey st "outputfile" = false := by simp [hasKey, h]
    have hla : listAt st "outputfile" = [] := by simp [listAt, h]
    have hg : getM (setM st "outputfile" (MVal.list [])) "outputfile" = some (MVal.list []) := by
      rw [getM_setM, if_pos rfl]
    simp only [hhk, Bool.false_eq_true, if_false, hg]
    rw [cascadeTups_outputfile, hla]
    by_cases hd : cfg.disablevaluededup = true
    · simp only [hd, if_true, setM_setM]
      rw [getM_setM, if_pos rfl]
    · simp only [hd, Bool.false_eq_true, if_false]
      rw [if_neg (List.not_mem_nil _), if_neg (List.not_mem_nil _), setM_setM,
        getM_setM, if_pos rfl]
  · have hhk : hasKey st "outputfile" = true := by simp [hasKey, h]
    have hla : listAt st "outputfile" = l := by simp [listAt, h]
    simp only [hhk, if_true, h]
    rw [cascadeTups_outputfile, hla]
    by_cases hd : cfg.disablevaluededup = true
    · simp only [hd, if_true]
      rw [getM_setM, if_pos rfl]
    · simp only [hd, Bool.false_eq_true, if_false]
      by_cases hm : Entry.t vs ∈ l
      · rw [if_pos hm, if_pos hm, h]
      · rw [if_neg hm, if_neg hm, getM_setM, if_pos rfl]

theorem debugS_getM {cfg : Config} {st : Store} {m k : String} (hk : k ≠ "debug") :
    getM (debugS cfg st m) k = getM st k := by
  unfold debugS
  split
  · rfl
  · exact add_metadata_untouched (by simpa [touched] using hk) st _

/-- The registry after `output_file`: last-write-wins entry under the
full supplied name, with the disk path filled in exactly when a write
happened. -/
theorem output_file_reg (cfg : Config) (md5hex b64enc : List UInt8 → String) (writeOk : Bool)
    (r : Reporter) (data : List UInt8) (fname desc : String) :
    (output_file cfg md5hex b64enc writeOk r data fname desc).outputfiles =
      if cfg.disableoutputfiles then
        setOF r.outputfiles fname ⟨data, desc, md5hex data, none⟩
      else if writeOk then
        setPathOF (setOF r.outputfiles fname ⟨data, desc, md5hex data, none⟩) fname
          (if cfg.outputfile_prefix ≠ "" then
            if cfg.outputfile_prefix = "md5" then
              pjoin cfg.outputdir (md5hex r.data ++ "_" ++ posixBasename fname)
            else
              pjoin cfg.outputdir (cfg.outputfile_prefix ++ "_" ++ posixBasename fname)
          else pjoin cfg.outputdir (posixBasename fname))
      else setOF r.outputfiles fname ⟨data, desc, md5hex data, none⟩ := by
  unfold output_file
  repeat' first
    | rfl
    | split

/-- The outputfile list after `output_file` is that of the underlying
`add_metadata("outputfile", (basename, description, md5))` call (the
disk-write debug messages touch only the debug field). -/
theorem output_file_store (cfg : Config) (md5hex b64enc : List UInt8 → String) (writeOk : Bool)
    (r : Reporter) (data : List UInt8) (fname desc : String)
    (hb : cfg.base64outputfiles = false) :
    getM (output_file cfg md5hex b64enc writeOk r data fname desc).store "outputfile" =
      getM (add_metadata cfg r.store "outputfile"
        (.tup [posixBasename fname, desc, md5hex data])) "outputfile" := by
  unfold output_file
  simp only [hb, Bool.false_eq_true, if_false]
  repeat' first
    | rfl
    | exact debugS_getM (by decide)
    | split

/-- C7 (counterexample): the claim says the outputfile list holds one
entry per registration call.  Registering the same name with identical
payload and description twice yields identical (basename, description,
hash) tuples, which the tuple dedup collapses: two calls, one entry. -/
theorem C7_counterexample :
    (listAt (output_file cfgDefault md5const b64const true
      (output_file cfgDefault md5const b64const true {} [] "a/b" "")
      [] "a/b" "").store "outputfile").length = 1 := by
  decide

/-- C7 (amended): re-registering a logical name overwrites the prior
registry entry (the registry maps the name to the second
payload/description/hash); the outputfile list gains one entry per
registration with a distinct (basename, description, hash) tuple,
while a registration identical to the prior one is deduplicated into a
single entry. -/
theorem C7_outputfile_amended (cfg : Config) (md5hex b64enc : List UInt8 → String)
    (w1 w2 : Bool) (r : Reporter) (d1 d2 : List UInt8) (fname desc1 desc2 : String)
    (hd : cfg.disablevaluededup = false) (hb : cfg.base64outputfiles = false)
    (h0 : getM r.store "outputfile" = none) :
    (∃ pth, getOF (output_file cfg md5hex b64enc w2
        (output_file cfg md5hex b64enc w1 r d1 fname desc1) d2 fname desc2).outputfiles fname
      = some ⟨d2, desc2, md5hex d2, pth⟩) ∧
    listAt (output_file cfg md5hex b64enc w2
        (output_file cfg md5hex b64enc w1 r d1 fname desc1) d2 fname desc2).store "outputfile" =
      (if Entry.t [posixBasename fname, desc2, md5hex d2]
          = Entry.t [posixBasename fname, desc1, md5hex d1]
       then [Entry.t [posixBasename fname, desc1, md5hex d1]]
       else [Entry.t [posixBasename fname, desc1, md5hex d1],
             Entry.t [posixBasename fname, desc2, md5hex d2]]) := by
  constructor
  · rw [output_file_reg]
    repeat' first
      | split
      | (rw [getOF_setPathOF, if_pos rfl, getOF_setOF, if_pos rfl]; exact ⟨_, rfl⟩)
      | (rw [getOF_setOF, if_pos rfl]; exact ⟨_, rfl⟩)
  · have h1 : getM (output_file cfg md5hex b64enc w1 r d1 fname desc1).store "outputfile"
        = some (.list [Entry.t [posixBasename fname, desc1, md5hex d1]]) := by
      rw [output_file_store cfg md5hex b64enc w1 r d1 fname desc1 hb,
        addTups_getM_outputfile cfg r.store _ (by simp) (Or.inl h0)]
      have hla : listAt r.store "outputfile" = [] := by simp [listAt, h0]
      rw [hla, hd]
      simp
    rw [show listAt (output_file cfg md5hex b64enc w2
        (output_file cfg md5hex b64enc w1 r d1 fname desc1) d2 fname desc2).store "outputfile"
      = (match getM (output_file cfg md5hex b64enc w2
          (output_file cfg md5hex b64enc w1 r d1 fname desc1) d2 fname desc2).store "outputfile" with
         | some (MVal.list l) => l
         | _ => []) from rfl]
    rw [output_file_store cfg md5hex b64enc w2 _ d2 fname desc2 hb,
      addTups_getM_outputfile cfg _ _ (by simp) (Or.inr ⟨_, h1⟩)]
    have hla1 : listAt (output_file cfg md5hex b64enc w1 r d1 fname desc1).store "outputfile"
        = [Entry.t [posixBasename fname, desc1, md5hex d1]] := listAt_of_getM h1
    rw [hla1, hd]
    by_cases he : Entry.t [posixBasename fname, desc2, md5hex d2]
        = Entry.t [posixBasename fname, desc1, md5hex d1]
    · rw [if_pos he]
      simp [he]
    · rw [if_neg he]
      simp [he]

/-- C7 witness: two registrations of "a/b" with different descriptions
(all hypotheses at a concrete instance). -/
theorem C7_outputfile_amended_witness :
    (∃ pth, getOF (output_file cfgDefault md5const b64const true
        (output_file cfgDefault md5const b64const true {} [] "a/b" "one") [] "a/b" "two").outputfiles
        "a/b" = some ⟨[], "two", md5const [], pth⟩) ∧
    listAt (output_file cfgDefault md5const b64const true
        (output_file cfgDefault md5const b64const true {} [] "a/b" "one")
        [] "a/b" "two").store "outputfile" =
      (if Entry.t [posixBasename "a/b", "two", md5const []]
          = Entry.t [posixBasename "a/b", "one", md5const []]
       then [Entry.t [posixBasename "a/b", "one", md5const []]]
       else [Entry.t [posixBasename "a/b", "one", md5const []],
             Entry.t [posixBasename "a/b", "two", md5const []]]) :=
  C7_outputfile_amended cfgDefault md5const b64const true true {} [] [] "a/b" "one" "two"
    rfl rfl rfl

/-! ### C10: disk path uses the basename, registry uses the full name -/

/-- C10: for every filename passed to `output_file`, the in-memory
registry is keyed by the full supplied name and holds the new payload;
the metadata "outputfile" entry records the basename (directory
components stripped); and with no filename-prefix policy configured,
the disk write path is exactly the configured output directory joined
with the basename of the supplied name. -/
theorem C10_output_paths (cfg : Config) (md5hex b64enc : List UInt8 → String) (writeOk : Bool)
    (r : Reporter) (data : List UInt8) (fname desc : String) :
    (∃ pth, getOF (output_file cfg md5hex b64enc writeOk r data fname desc).outputfiles fname
      = some ⟨data, desc, md5hex data, pth⟩) ∧
    (cfg.base64outputfiles = false →
      (getM r.store "outputfile" = none ∨ ∃ l, getM r.store "outputfile" = some (.list l)) →
      Entry.t [posixBasename fname, desc, md5hex data] ∉ listAt r.store "outputfile" →
      listAt (output_file cfg md5hex b64enc writeOk r data fname desc).store "outputfile"
        = listAt r.store "outputfile" ++ [.t [posixBasename fname, desc, md5hex data]]) ∧
    (cfg.outputfile_prefix = "" → cfg.disableoutputfiles = false → writeOk = true →
      getOF (output_file cfg md5hex b64enc writeOk r data fname desc).outputfiles fname
        = some ⟨data, desc, md5hex data, some (pjoin cfg.outputdir (posixBasename fname))⟩) := by
  refine ⟨?_, ?_, ?_⟩
  · rw [output_file_reg]
    repeat' first
      | split
      | (rw [getOF_setPathOF, if_pos rfl, getOF_setOF, if_pos rfl]; exact ⟨_, rfl⟩)
      | (rw [getOF_setOF, if_pos rfl]; exact ⟨_, rfl⟩)
  · intro hb hshape hnew
    rw [show listAt (output_file cfg md5hex b64enc writeOk r data fname desc).store "outputfile"
      = (match getM (output_file cfg md5hex b64enc writeOk r data fname desc).store "outputfile" with
         | some (MVal.list l) => l
         | _ => []) from rfl]
    rw [output_file_store cfg md5hex b64enc writeOk r data fname desc hb,
      addTups_getM_outputfile cfg r.store _ (by simp) hshape]
    by_cases hd : cfg.disablevaluededup = true
    · rw [if_pos hd]
    · rw [if_neg hd, if_neg hnew]
  · intro hp hdis hw
    rw [output_file_reg, if_neg (by simp [hdis]), if_pos hw, getOF_setPathOF, if_pos rfl,
      getOF_setOF, if_pos rfl]
    simp [hp]

/-- C10 witness: writing "dir/sub/name.bin" with output directory
"out" lands at "out/name.bin" while the registry key keeps the full
name. -/
theorem C10_output_paths_witness :
    (∃ pth, getOF (output_file { cfgDefault with outputdir := "out" } md5const b64const true {}
        [7] "dir/sub/name.bin" "d").outputfiles "dir/sub/name.bin"
      = some ⟨[7], "d", md5const [7], pth⟩) ∧
    listAt (output_file { cfgDefault with outputdir := "out" } md5const b64const true {}
        [7] "dir/sub/name.bin" "d").store "outputfile"
      = listAt ({} : Reporter).store "outputfile"
        ++ [.t [posixBasename "dir/sub/name.bin", "d", md5const [7]]] ∧
    getOF (output_file { cfgDefault with outputdir := "out" } md5const b64const true {}
        [7] "dir/sub/name.bin" "d").outputfiles "dir/sub/name.bin"
      = some ⟨[7], "d", md5const [7],
          some (pjoin "out" (posixBasename "dir/sub/name.bin"))⟩ := by
  have h := C10_output_paths { cfgDefault with outputdir := "out" } md5const b64const true {}
    [7] "dir/sub/name.bin" "d"
  exact ⟨h.1, h.2.1 rfl (Or.inl rfl) (by decide), h.2.2 rfl rfl rfl⟩

/-! ### Monotonicity: a stored entry is never removed -/

theorem ite_mem {k : String} {e : Entry} {c : Prop} [Decidable c] {a b : Store}
    (ha : e ∈ listAt a k) (hb : e ∈ listAt b k) : e ∈ listAt (if c then a else b) k := by
  split
  · exact ha
  · exact hb

theorem mem_listAt_setM {st : Store} {k' : String} {l2 : List Entry}
    (hsub : ∀ x ∈ listAt st k', x ∈ l2) {k : String} {e : Entry}
    (he : e ∈ listAt st k) : e ∈ listAt (setM st k' (.list l2)) k := by
  rw [listAt_setM]
  split
  · next h => exact hsub _ (h ▸ he)
  · exact he

theorem mem_listAt_setM_dict {st : Store} {k' : String} {d : List (String × DVal)}
    (hz : listAt st k' = []) {k : String} {e : Entry}
    (he : e ∈ listAt st k) : e ∈ listAt (setM st k' (.dict d)) k := by
  rw [listAt_setM]
  split
  · next h =>
      subst h
      rw [hz] at he
      exact absurd he (List.not_mem_nil e)
  · exact he

theorem debugR_mono {cfg : Config} {rec : Store → String → PyVal → Store}
    (hrec : ∀ st j v k e, e ∈ listAt st k → e ∈ listAt (rec st j v) k)
    {st : Store} {k : String} {e : Entry} (he : e ∈ listAt st k) (m : String) :
    e ∈ listAt (debugR cfg rec st m) k := by
  unfold debugR
  split
  · exact he
  · exact hrec _ _ _ _ _ he

theorem urlCascadeF_mono {cfg : Config} {rec : Store → String → PyVal → Store}
    (hrec : ∀ st j v k e, e ∈ listAt st k → e ∈ listAt (rec st j v) k)
    {st : Store} {k : String} {e : Entry} (he : e ∈ listAt st k) {keyu valueu : String} :
    e ∈ listAt (urlCascadeF cfg rec st keyu valueu) k := by
  unfold urlCascadeF
  dsimp only
  repeat' first
    | assumption
    | apply hrec
    | apply debugR_mono hrec
    | apply ite_mem
    | split

theorem cascadeStrsF_mono {cfg : Config} {rec : Store → String → PyVal → Store}
    (hrec : ∀ st j v k e, e ∈ listAt st k → e ∈ listAt (rec st j v) k)
    {st : Store} {k : String} {e : Entry} (he : e ∈ listAt st k) {keyu valueu : String} :
    e ∈ listAt (cascadeStrsF cfg rec st keyu valueu) k := by
  unfold cascadeStrsF stepFilepath stepC2url stepC2address stepServiceimage stepServicedll
  dsimp only
  repeat' first
    | assumption
    | apply hrec
    | apply urlCascadeF_mono hrec
    | apply ite_mem
    | split

theorem ruleSocketaddress_mono {cfg : Config} {rec : Store → String → PyVal → Store}
    (hrec : ∀ st j v k e, e ∈ listAt st k → e ∈ listAt (rec st j v) k)
    {st : Store} {k : String} {e : Entry} (he : e ∈ listAt st k) {values : List String} :
    e ∈ listAt (ruleSocketaddress cfg rec st values) k := by
  unfold ruleSocketaddress
  dsimp only
  repeat' first
    | assumption
    | apply hrec
    | apply debugR_mono hrec
    | apply ite_mem
    | split

theorem ruleCredential_mono {cfg : Config} {rec : Store → String → PyVal → Store}
    (hrec : ∀ st j v k e, e ∈ listAt st k → e ∈ listAt (rec st j v) k)
    {st : Store} {k : String} {e : Entry} (he : e ∈ listAt st k) {values : List String} :
    e ∈ listAt (ruleCredential cfg rec st values) k := by
  unfold ruleCredential
  dsimp only
  repeat' first
    | assumption
    | apply hrec
    | apply debugR_mono hrec
    | apply ite_mem
    | split

theorem rulePort_mono {cfg : Config} {rec : Store → String → PyVal → Store}
    (hrec : ∀ st j v k e, e ∈ listAt st k → e ∈ listAt (rec st j v) k)
    {st : Store} {k : String} {e : Entry} (he : e ∈ listAt st k)
    {keyu : String} {values : List String} :
    e ∈ listAt (rulePort cfg rec st keyu values) k := by
  unfold rulePort
  dsimp only
  repeat' first
    | assumption
    | apply hrec
    | apply debugR_mono hrec
    | apply ite_mem
    | split

theorem ruleRegistrypathdata_mono {cfg : Config} {rec : Store → String → PyVal → Store}
    (hrec : ∀ st j v k e, e ∈ listAt st k → e ∈ listAt (rec st j v) k)
    {st : Store} {k : String} {e : Entry} (he : e ∈ listAt st k) {values : List String} :
    e ∈ listAt (ruleRegistrypathdata cfg rec st values) k := by
  unfold ruleRegistrypathdata
  dsimp only
  repeat' first
    | assumption
    | apply hrec
    | apply debugR_mono hrec
    | apply ite_mem
    | split

set_option maxHeartbeats 1000000 in
theorem ruleService_mono {cfg : Config} {rec : Store → String → PyVal → Store}
    (hrec : ∀ st j v k e, e ∈ listAt st k → e ∈ listAt (rec st j v) k)
    {st : Store} {k : String} {e : Entry} (he : e ∈ listAt st k) {values : List String} :
    e ∈ listAt (ruleService cfg rec st values) k := by
  unfold ruleService
  dsimp only
  repeat' first
    | assumption
    | apply hrec
    | apply debugR_mono hrec
    | apply ite_mem
    | split

theorem cascadeTupsF_mono {cfg : Config} {rec : Store → String → PyVal → Store}
    (hrec : ∀ st j v k e, e ∈ listAt st k → e ∈ listAt (rec st j v) k)
    {st : Store} {k : String} {e : Entry} (he : e ∈ listAt st k)
    {keyu : String} {values : List String} :
    e ∈ listAt (cascadeTupsF cfg rec st keyu values) k := by
  unfold cascadeTupsF
  split_ifs
  · exact he
  · exact hrec _ _ _ _ _ (hrec _ _ _ _ _ he)
  · exact ruleSocketaddress_mono hrec he
  · exact ruleCredential_mono hrec he
  · exact rulePort_mono hrec he
  · exact ruleRegistrypathdata_mono hrec he
  · exact ruleService_mono hrec he
  · exact he

theorem addStrsF_mono {cfg : Config} {rec : Store → String → PyVal → Store}
    (hrec : ∀ st j v k e, e ∈ listAt st k → e ∈ listAt (rec st j v) k)
    {st : Store} {k : String} {e : Entry} (he : e ∈ listAt st k)
    {keyu : String} {value : PyVal} :
    e ∈ listAt (addStrsF cfg rec st keyu value) k := by
  unfold addStrsF
  split
  · exact debugR_mono hrec he _
  · dsimp only
    by_cases hhk : hasKey st keyu = true
    · simp only [hhk, if_true]
      split
      · next l heq =>
          apply cascadeStrsF_mono hrec
          apply ite_mem
          · exact mem_listAt_setM (fun x hx => by
              rw [listAt_of_getM heq] at hx
              exact List.mem_append_left _ hx) he
          · exact he
      · split
        · exact cascadeStrsF_mono hrec he
        · exact debugR_mono hrec he _
      · exact he
    · have hnone : getM st keyu = none := by
        simp only [hasKey, Bool.not_eq_true] at hhk
        exact Option.not_isSome_iff_eq_none.mp (by simp [hhk])
      have hz : listAt st keyu = [] := by simp [listAt, hnone]
      have hg : getM (setM st keyu (MVal.list [])) keyu = some (MVal.list []) := by
        rw [getM_setM, if_pos rfl]
      have hmem0 : e ∈ listAt (setM st keyu (MVal.list [])) k :=
        mem_listAt_setM (fun x hx => by rw [hz] at hx; cases hx) he
      simp only [hhk, Bool.false_eq_true, if_false, hg]
      apply cascadeStrsF_mono hrec
      apply ite_mem
      · exact mem_listAt_setM
          (fun x hx => by rw [listAt_of_getM hg] at hx; cases hx) hmem0
      · exact hmem0

theorem addTupsF_mono {cfg : Config} {rec : Store → String → PyVal → Store}
    (hrec : ∀ st j v k e, e ∈ listAt st k → e ∈ listAt (rec st j v) k)
    {st : Store} {k : String} {e : Entry} (he : e ∈ listAt st k)
    {keyu : String} {value : PyVal} :
    e ∈ listAt (addTupsF cfg rec st keyu value) k := by
  unfold addTupsF
  split
  · exact debugR_mono hrec he _
  · dsimp only
    by_cases hhk : hasKey st keyu = true
    · simp only [hhk, if_true]
      split
      · next l heq =>
          apply cascadeTupsF_mono hrec
          have hsub : ∀ x ∈ listAt st keyu, x ∈ l ++ [Entry.t (tupItems value)] := fun x hx => by
            rw [listAt_of_getM heq] at hx
            exact List.mem_append_left _ hx
          repeat' first
            | assumption
            | apply ite_mem
            | exact mem_listAt_setM hsub he
      · exact debugR_mono hrec he _
      · exact he
    · have hnone : getM st keyu = none := by
        simp only [hasKey, Bool.not_eq_true] at hhk
        exact Option.not_isSome_iff_eq_none.mp (by simp [hhk])
      have hz : listAt st keyu = [] := by simp [listAt, hnone]
      have hg : getM (setM st keyu (MVal.list [])) keyu = some (MVal.list []) := by
        rw [getM_setM, if_pos rfl]
      have hmem0 : e ∈ listAt (setM st keyu (MVal.list [])) k :=
        mem_listAt_setM (fun x hx => by rw [hz] at hx; cases hx) he
      simp only [hhk, Bool.false_eq_true, if_false, hg]
      apply cascadeTupsF_mono hrec
      have hsub : ∀ x ∈ listAt (setM st keyu (MVal.list [])) keyu,
          x ∈ ([] : List Entry) ++ [Entry.t (tupItems value)] := fun x hx => by
        rw [listAt_of_getM hg] at hx
        cases hx
      repeat' first
        | assumption
        | apply ite_mem
        | exact mem_listAt_setM hsub hmem0

theorem dictItemsF_mono {cfg : Config} {rec : Store → String → PyVal → Store}
    (hrec : ∀ st j v k e, e ∈ listAt st k → e ∈ listAt (rec st j v) k) {keyu : String} :
    ∀ (d : List (String × String)) (st : Store) {k : String} {e : Entry},
      e ∈ listAt st k → e ∈ listAt (dictItemsF cfg rec keyu st d) k := by
  intro d
  induction d with
  | nil => intro st k e he; exact he
  | cons p rest ih =>
      intro st k e he
      obtain ⟨sk, sv⟩ := p
      unfold dictItemsF
      dsimp only
      by_cases hhk : hasKey st "other" = true
      · simp only [hhk, if_true]
        split
        · next od heq =>
            have hz : listAt st "other" = [] := by simp [listAt, heq]
            apply ih
            repeat' first
              | assumption
              | apply ite_mem
              | exact mem_listAt_setM_dict hz he
              | split
        · exact debugR_mono hrec he _
      · have hnone : getM st "other" = none := by
          simp only [hasKey, Bool.not_eq_true] at hhk
          exact Option.not_isSome_iff_eq_none.mp (by simp [hhk])
        have hz : listAt st "other" = [] := by simp [listAt, hnone]
        have hg : getM (setM st "other" (MVal.dict [])) "other" = some (MVal.dict []) := by
          rw [getM_setM, if_pos rfl]
        have hz2 : listAt (setM st "other" (MVal.dict [])) "other" = [] := by
          simp [listAt, hg]
        have hmem0 : e ∈ listAt (setM st "other" (MVal.dict [])) k :=
          mem_listAt_setM_dict hz he
        simp only [hhk, Bool.false_eq_true, if_false, hg]
        apply ih
        repeat' first
          | assumption
          | apply ite_mem
          | exact mem_listAt_setM_dict hz2 hmem0
          | split

theorem addDictF_mono {cfg : Config} {rec : Store → String → PyVal → Store}
    (hrec : ∀ st j v k e, e ∈ listAt st k → e ∈ listAt (rec st j v) k)
    {st : Store} {k : String} {e : Entry} (he : e ∈ listAt st k)
    {keyu : String} {value : PyVal} :
    e ∈ listAt (addDictF cfg rec st keyu value) k := by
  unfold addDictF
  split
  · exact dictItemsF_mono hrec _ _ he
  · split
    · exact he
    · exact debugR_mono hrec he _
  · split
    · exact he
    · exact debugR_mono hrec he _

theorem addMetadataF_mono {cfg : Config} {rec : Store → String → PyVal → Store}
    (hrec : ∀ st j v k e, e ∈ listAt st k → e ∈ listAt (rec st j v) k)
    {st : Store} {k : String} {e : Entry} (he : e ∈ listAt st k)
    {key : String} {value : PyVal} :
    e ∈ listAt (addMetadataF cfg rec st key value) k := by
  unfold addMetadataF
  split
  · exact debugR_mono hrec he _
  · exact addStrsF_mono hrec he
  · exact addTupsF_mono hrec he
  · exact addDictF_mono hrec he

theorem monoF (cfg : Config) :
    ∀ (n : Nat) (st : Store) (j : String) (v : PyVal) (k : String) (e : Entry),
      e ∈ listAt st k → e ∈ listAt (addMetaF cfg n st j v) k := by
  intro n
  induction n with
  | zero => intro st j v k e he; exact he
  | succ m ih =>
      intro st j v k e he
      exact addMetadataF_mono (fun st' j' v' k' e' he' => ih st' j' v' k' e' he') he

/-- Entries already in a field's list survive every further
`add_metadata` call. -/
theorem add_metadata_mono {cfg : Config} {st : Store} {j : String} {v : PyVal}
    {k : String} {e : Entry} (he : e ∈ listAt st k) :
    e ∈ listAt (add_metadata cfg st j v) k :=
  monoF cfg FUEL st j v k e he

/-! ### Shape consistency is preserved -/

theorem ite_shape {c : Prop} [Decidable c] {a b : Store}
    (ha : shapeOK a) (hb : shapeOK b) : shapeOK (if c then a else b) := by
  split
  · exact ha
  · exact hb

theorem shapeOK_setM {st : Store} {k : String} {mv : MVal} (h : shapeOK st)
    (hcons : match mv with
      | MVal.list _ => fields k = some .listofstrings ∨ fields k = some .listofstringtuples
      | MVal.dict _ => fields k = some .dictofstrings) :
    shapeOK (setM st k mv) := by
  intro p hp
  rcases mem_setM hp with he | hmem
  · subst he
    exact hcons
  · exact h p hmem

theorem debugR_shape {cfg : Config} {rec : Store → String → PyVal → Store}
    (hrec : ∀ st j v, shapeOK st → shapeOK (rec st j v))
    {st : Store} (h : shapeOK st) (m : String) : shapeOK (debugR cfg rec st m) := by
  unfold debugR
  split
  · exact h
  · exact hrec _ _ _ h

theorem urlCascadeF_shape {cfg : Config} {rec : Store → String → PyVal → Store}
    (hrec : ∀ st j v, shapeOK st → shapeOK (rec st j v))
    {st : Store} (h : shapeOK st) {keyu valueu : String} :
    shapeOK (urlCascadeF cfg rec st keyu valueu) := by
  unfold urlCascadeF
  dsimp only
  repeat' first
    | assumption
    | apply hrec
    | apply debugR_shape hrec
    | apply ite_shape
    | split

theorem cascadeStrsF_shape {cfg : Config} {rec : Store → String → PyVal → Store}
    (hrec : ∀ st j v, shapeOK st → shapeOK (rec st j v))
    {st : Store} (h : shapeOK st) {keyu valueu : String} :
    shapeOK (cascadeStrsF cfg rec st keyu valueu) := by
  unfold cascadeStrsF stepFilepath stepC2url stepC2address stepServiceimage stepServicedll
  dsimp only
  repeat' first
    | assumption
    | apply hrec
    | apply urlCascadeF_shape hrec
    | apply ite_shape
    | split

theorem ruleSocketaddress_shape {cfg : Config} {rec : Store → String → PyVal → Store}
    (hrec : ∀ st j v, shapeOK st → shapeOK (rec st j v))
    {st : Store} (h : shapeOK st) {values : List String} :
    shapeOK (ruleSocketaddress cfg rec st values) := by
  unfold ruleSocketaddress
  dsimp only
  repeat' first
    | assumption
    | apply hrec
    | apply debugR_shape hrec
    | apply ite_shape
    | split

theorem ruleCredential_shape {cfg : Config} {rec : Store → String → PyVal → Store}
    (hrec : ∀ st j v, shapeOK st → shapeOK (rec st j v))
    {st : Store} (h : shapeOK st) {values : List String} :
    shapeOK (ruleCredential cfg rec st values) := by
  unfold ruleCredential
  dsimp only
  repeat' first
    | assumption
    | apply hrec
    | apply debugR_shape hrec
    | apply ite_shape
    | split

theorem rulePort_shape {cfg : Config} {rec : Store → String → PyVal → Store}
    (hrec : ∀ st j v, shapeOK st → shapeOK (rec st j v))
    {st : Store} (h : shapeOK st) {keyu : String} {values : List String} :
    shapeOK (rulePort cfg rec st keyu values) := by
  unfold rulePort
  dsimp only
  repeat' first
    | assumption
    | apply hrec
    | apply debugR_shape hrec
    | apply ite_shape
    | split

theorem ruleRegistrypathdata_shape {cfg : Config} {rec : Store → String → PyVal → Store}
    (hrec : ∀ st j v, shapeOK st → shapeOK (rec st j v))
    {st : Store} (h : shapeOK st) {values : List String} :
    shapeOK (ruleRegistrypathdata cfg rec st values) := by
  unfold ruleRegistrypathdata
  dsimp only
  repeat' first
    | assumption
    | apply hrec
    | apply debugR_shape hrec
    | apply ite_shape
    | split

set_option maxHeartbeats 1000000 in
theorem ruleService_shape {cfg : Config} {rec : Store → String → PyVal → Store}
    (hrec : ∀ st j v, shapeOK st → shapeOK (rec st j v))
    {st : Store} (h : shapeOK st) {values : List String} :
    shapeOK (ruleService cfg rec st values) := by
  unfold ruleService
  dsimp only
  repeat' first
    | assumption
    | apply hrec
    | apply debugR_shape hrec
    | apply ite_shape
    | split

theorem cascadeTupsF_shape {cfg : Config} {rec : Store → String → PyVal → Store}
    (hrec : ∀ st j v, shapeOK st → shapeOK (rec st j v))
    {st : Store} (h : shapeOK st) {keyu : String} {values : List String} :
    shapeOK (cascadeTupsF cfg rec st keyu values) := by
  unfold cascadeTupsF
  split_ifs
  · exact h
  · exact hrec _ _ _ (hrec _ _ _ h)
  · exact ruleSocketaddress_shape hrec h
  · exact ruleCredential_shape hrec h
  · exact rulePort_shape hrec h
  · exact ruleRegistrypathdata_shape hrec h
  · exact ruleService_shape hrec h
  · exact h

theorem addStrsF_shape {cfg : Config} {rec : Store → String → PyVal → Store}
    (hrec : ∀ st j v, shapeOK st → shapeOK (rec st j v))
    {keyu : String} (hf : fields keyu = some .listofstrings)
    {st : Store} (h : shapeOK st) {value : PyVal} :
    shapeOK (addStrsF cfg rec st keyu value) := by
  unfold addStrsF
  dsimp only
  repeat' first
    | assumption
    | apply hrec
    | apply debugR_shape hrec
    | apply cascadeStrsF_shape hrec
    | exact Or.inl hf
    | apply shapeOK_setM
    | apply ite_shape
    | split

theorem addTupsF_shape {cfg : Config} {rec : Store → String → PyVal → Store}
    (hrec : ∀ st j v, shapeOK st → shapeOK (rec st j v))
    {keyu : String} (hf : fields keyu = some .listofstringtuples)
    {st : Store} (h : shapeOK st) {value : PyVal} :
    shapeOK (addTupsF cfg rec st keyu value) := by
  unfold addTupsF
  dsimp only
  repeat' first
    | assumption
    | apply hrec
    | apply debugR_shape hrec
    | apply cascadeTupsF_shape hrec
    | exact Or.inr hf
    | apply shapeOK_setM
    | apply ite_shape
    | split

theorem dictItemsF_shape {cfg : Config} {rec : Store → String → PyVal → Store}
    (hrec : ∀ st j v, shapeOK st → shapeOK (rec st j v)) {keyu : String} :
    ∀ (d : List (String × String)) (st : Store), shapeOK st →
      shapeOK (dictItemsF cfg rec keyu st d) := by
  intro d
  induction d with
  | nil => intro st h; exact h
  | cons p rest ih =>
      intro st h
      obtain ⟨sk, sv⟩ := p
      unfold dictItemsF
      dsimp only
      repeat' first
        | assumption
        | apply ih
        | apply hrec
        | apply debugR_shape hrec
        | exact rfl
        | apply shapeOK_setM
        | apply ite_shape
        | split

theorem addDictF_shape {cfg : Config} {rec : Store → String → PyVal → Store}
    (hrec : ∀ st j v, shapeOK st → shapeOK (rec st j v))
    {st : Store} (h : shapeOK st) {keyu : String} {value : PyVal} :
    shapeOK (addDictF cfg rec st keyu value) := by
  unfold addDictF
  repeat' first
    | assumption
    | apply dictItemsF_shape hrec
    | apply debugR_shape hrec
    | apply ite_shape
    | split

theorem addMetadataF_shape {cfg : Config} {rec : Store → String → PyVal → Store}
    (hrec : ∀ st j v, shapeOK st → shapeOK (rec st j v))
    {st : Store} (h : shapeOK st) {key : String} {value : PyVal} :
    shapeOK (addMetadataF cfg rec st key value) := by
  unfold addMetadataF
  split
  · exact debugR_shape hrec h _
  · next heq => exact addStrsF_shape hrec heq h
  · next heq => exact addTupsF_shape hrec heq h
  · exact addDictF_shape hrec h

theorem shapeF (cfg : Config) :
    ∀ (n : Nat) (st : Store), shapeOK st → ∀ (k : String) (v : PyVal),
      shapeOK (addMetaF cfg n st k v) := by
  intro n
  induction n with
  | zero => intro st h k v; exact h
  | succ m ih =>
      intro st h k v
      exact addMetadataF_shape (fun st' j' v' h' => ih st' h' j' v') h

theorem add_metadata_shape {cfg : Config} {st : Store} (h : shapeOK st)
    (k : String) (v : PyVal) : shapeOK (add_metadata cfg st k v) :=
  shapeF cfg FUEL st h k v

theorem cascadeTupsF_self {cfg : Config} {rec : Store → String → PyVal → Store} {k : String}
    (hrec : ∀ j, k ∉ touched j → ∀ st v, getM (rec st j v) k = getM st k)
    (st : Store) (values : List String) :
    getM (cascadeTupsF cfg rec st k values) k = getM st k := by
  unfold cascadeTupsF
  split_ifs with hsub h1 h2 h3 h4 h5 h6
  · rfl
  · subst h1
    exact ruleC2Socketaddress_untouched hrec (by decide) (by decide) _ _
  · subst h2
    exact ruleSocketaddress_untouched hrec (by decide) (by decide) (by decide) _ _
  · subst h3
    exact ruleCredential_untouched hrec (by decide) (by decide) (by decide) _ _
  · have hdbg : k ≠ "debug" := by
      rcases Bool.or_eq_true_iff.mp h4 with h | h
      · rw [of_decide_eq_true h]
        decide
      · rw [of_decide_eq_true h]
        decide
    exact rulePort_untouched hrec hdbg _ _ _
  · subst h5
    exact ruleRegistrypathdata_untouched hrec (by decide) (by decide) (by decide) _ _
  · subst h6
    exact ruleService_untouched hrec (by decide) (by decide) (by decide) (by decide)
      (by decide) (by decide) _ _
  · rfl

/-- What one `add_metadata` call does to the list of a
`listofstringtuples` field: append the converted tuple subject to
dedup; the elif chain never writes back to its trigger key. -/
theorem addTups_getM (cfg : Config) (st : Store) (k : String) (v : PyVal)
    (hf : fields k = some .listofstringtuples) (hnf : pyFalsy v = false)
    (hshape : getM st k = none ∨ ∃ l, getM st k = some (.list l)) :
    getM (add_metadata cfg st k v) k =
      some (.list
        (if cfg.disablevaluededup then listAt st k ++ [.t (tupItems v)]
         else if Entry.t (tupItems v) ∈ listAt st k then listAt st k
         else listAt st k ++ [.t (tupItems v)])) := by
  have hrec := fun j (hj : k ∉ touched j) (st' : Store) (v' : PyVal) =>
    untouchedF cfg 7 hj st' v'
  rw [show add_metadata cfg st k v = addMetaF cfg (7 + 1) st k v from rfl, addMetaF_succ]
  simp only [addMetadataF, hf]
  unfold addTupsF
  simp only [hnf, Bool.false_eq_true, if_false]
  rcases hshape with h | ⟨l, h⟩
  · have hhk : hasKey st k = false := by simp [hasKey, h]
    have hla : listAt st k = [] := by simp [listAt, h]
    have hg : getM (setM st k (MVal.list [])) k = some (MVal.list []) := by
      rw [getM_setM, if_pos rfl]
    simp only [hhk, Bool.false_eq_true, if_false, hg]
    rw [cascadeTupsF_self hrec, hla]
    by_cases hd : cfg.disablevaluededup = true
    · simp only [hd, if_true, setM_setM]
      rw [getM_setM, if_pos rfl]
    · simp only [hd, Bool.false_eq_true, if_false]
      rw [if_neg (List.not_mem_nil _), if_neg (List.not_mem_nil _), setM_setM,
        getM_setM, if_pos rfl]
  · have hhk : hasKey st k = true := by simp [hasKey, h]
    have hla : listAt st k = l := by simp [listAt, h]
    simp only [hhk, if_true, h]
    rw [cascadeTupsF_self hrec, hla]
    by_cases hd : cfg.disablevaluededup = true
    · simp only [hd, if_true]
      rw [getM_setM, if_pos rfl]
    · simp only [hd, Bool.false_eq_true, if_false]
      by_cases hm : Entry.t (tupItems v) ∈ l
      · rw [if_pos hm, if_pos hm, h]
      · rw [if_neg hm, if_neg hm, getM_setM, if_pos rfl]

/-- A string value recorded at a `listofstrings` field of a
shape-consistent store is present afterwards. -/
theorem estStr (cfg : Config) (st : Store) (k s : String)
    (hf : fields k = some .listofstrings) (hsh : shapeOK st) :
    Entry.s s ∈ listAt (add_metadata cfg st k (.str s)) k := by
  have hshape : getM st k = none ∨ ∃ l, getM st k = some (.list l) := by
    cases hmv : getM st k with
    | none => exact Or.inl rfl
    | some mv =>
        cases mv with
        | list l => exact Or.inr ⟨l, rfl⟩
        | dict d =>
            have := hsh (k, .dict d) (getM_mem hmv)
            rw [hf] at this
            simp at this
  rw [listAt_of_getM (addStrs_getM cfg st k s hf hshape)]
  by_cases hm : Entry.s s ∈ listAt st k
  · split
    · exact List.mem_append_left _ hm
    · exact hm
  · rw [if_pos (by simp [hm])]
    exact List.mem_append_right _ (by simp)

/-- A nonempty tuple value recorded at a `listofstringtuples` field of
a shape-consistent store is present afterwards. -/
theorem estTup (cfg : Config) (st : Store) (k : String) (v : PyVal)
    (hf : fields k = some .listofstringtuples) (hnf : pyFalsy v = false)
    (hsh : shapeOK st) :
    Entry.t (tupItems v) ∈ listAt (add_metadata cfg st k v) k := by
  have hshape : getM st k = none ∨ ∃ l, getM st k = some (.list l) := by
    cases hmv : getM st k with
    | none => exact Or.inl rfl
    | some mv =>
        cases mv with
        | list l => exact Or.inr ⟨l, rfl⟩
        | dict d =>
            have := hsh (k, .dict d) (getM_mem hmv)
            rw [hf] at this
            simp at this
  rw [listAt_of_getM (addTups_getM cfg st k v hf hnf hshape)]
  by_cases hd : cfg.disablevaluededup = true
  · rw [if_pos hd]
    exact List.mem_append_right _ (by simp)
  · rw [if_neg hd]
    by_cases hm : Entry.t (tupItems v) ∈ listAt st k
    · rw [if_pos hm]
      exact hm
    · rw [if_neg hm]
      exact List.mem_append_right _ (by simp)

/-! ### C1: plugin failure isolation in runParser -/

theorem debugS_mono {cfg : Config} {st : Store} {m k : String} {e : Entry}
    (he : e ∈ listAt st k) : e ∈ listAt (debugS cfg st m) k := by
  unfold debugS
  split
  · exact he
  · exact add_metadata_mono he

theorem debugS_shape {cfg : Config} {st : Store} (h : shapeOK st) (m : String) :
    shapeOK (debugS cfg st m) := by
  unfold debugS
  split
  · exact h
  · exact add_metadata_shape h _ _

theorem output_file_errors (cfg : Config) (md5hex b64enc : List UInt8 → String)
    (writeOk : Bool) (r : Reporter) (data : List UInt8) (fname desc : String) :
    (output_file cfg md5hex b64enc writeOk r data fname desc).errors = r.errors := by
  unfold output_file
  repeat' first
    | rfl
    | split

/-- The store after `output_file`: the `add_metadata("outputfile", _)`
call, followed by one disk-write debug message unless output files are
disabled. -/
theorem output_file_store_full (cfg : Config) (md5hex b64enc : List UInt8 → String)
    (writeOk : Bool) (r : Reporter) (data : List UInt8) (fname desc : String) :
    (output_file cfg md5hex b64enc writeOk r data fname desc).store =
      (let tupval : PyVal :=
        if cfg.base64outputfiles then
          .tup [posixBasename fname, desc, md5hex data, b64enc data]
        else .tup [posixBasename fname, desc, md5hex data]
      let st2 := add_metadata cfg r.store "outputfile" tupval
      let fullpath :=
        if cfg.outputfile_prefix ≠ "" then
          if cfg.outputfile_prefix = "md5" then
            pjoin cfg.outputdir (md5hex r.data ++ "_" ++ posixBasename fname)
          else
            pjoin cfg.outputdir (cfg.outputfile_prefix ++ "_" ++ posixBasename fname)
        else pjoin cfg.outputdir (posixBasename fname)
      if cfg.disableoutputfiles then st2
      else if writeOk then debugS cfg st2 ("outputfile: " ++ fullpath)
      else debugS cfg st2 ("Failed to write output file: " ++ fullpath ++ ", " ++ osErrorText)) := by
  unfold output_file
  repeat' first
    | rfl
    | split

theorem output_file_mono {cfg : Config} {md5hex b64enc : List UInt8 → String}
    {writeOk : Bool} {r : Reporter} {data : List UInt8} {fname desc : String}
    {k : String} {e : Entry} (he : e ∈ listAt r.store k) :
    e ∈ listAt (output_file cfg md5hex b64enc writeOk r data fname desc).store k := by
  rw [output_file_store_full]
  dsimp only
  repeat' first
    | exact add_metadata_mono he
    | exact debugS_mono (add_metadata_mono he)
    | split

theorem output_file_shape {cfg : Config} {md5hex b64enc : List UInt8 → String}
    {writeOk : Bool} {r : Reporter} {data : List UInt8} {fname desc : String}
    (h : shapeOK r.store) :
    shapeOK (output_file cfg md5hex b64enc writeOk r data fname desc).store := by
  rw [output_file_store_full]
  dsimp only
  repeat' first
    | exact add_metadata_shape h _ _
    | exact debugS_shape (add_metadata_shape h _ _) _
    | split

theorem applyAction_errors (cfg : Config) (md5hex b64enc : List UInt8 → String)
    (writeOk : Bool) (r : Reporter) (a : PAction) :
    (applyAction cfg md5hex b64enc writeOk r a).errors = r.errors := by
  cases a with
  | addMeta k v => rfl
  | debugMsg m => rfl
  | outputFileA d f desc => exact output_file_errors cfg md5hex b64enc writeOk r d f desc

theorem applyAction_mono {cfg : Config} {md5hex b64enc : List UInt8 → String}
    {writeOk : Bool} {r : Reporter} {a : PAction} {k : String} {e : Entry}
    (he : e ∈ listAt r.store k) :
    e ∈ listAt (applyAction cfg md5hex b64enc writeOk r a).store k := by
  cases a with
  | addMeta k' v => exact add_metadata_mono he
  | debugMsg m => exact debugS_mono he
  | outputFileA d f desc => exact output_file_mono he

theorem applyAction_shape {cfg : Config} {md5hex b64enc : List UInt8 → String}
    {writeOk : Bool} {r : Reporter} {a : PAction} (h : shapeOK r.store) :
    shapeOK (applyAction cfg md5hex b64enc writeOk r a).store := by
  cases a with
  | addMeta k' v => exact add_metadata_shape h _ _
  | debugMsg m => exact debugS_shape h _
  | outputFileA d f desc => exact output_file_shape h

theorem foldA_errors (cfg : Config) (md5hex b64enc : List UInt8 → String) (writeOk : Bool) :
    ∀ (acts : List PAction) (r : Reporter),
      (acts.foldl (applyAction cfg md5hex b64enc writeOk) r).errors = r.errors := by
  intro acts
  induction acts with
  | nil => intro r; rfl
  | cons a rest ih =>
      intro r
      rw [List.foldl_cons, ih, applyAction_errors]

theorem foldA_mono {cfg : Config} {md5hex b64enc : List UInt8 → String} {writeOk : Bool} :
    ∀ {acts : List PAction} {r : Reporter} {k : String} {e : Entry},
      e ∈ listAt r.store k →
      e ∈ listAt (acts.foldl (applyAction cfg md5hex b64enc writeOk) r).store k := by
  intro acts
  induction acts with
  | nil => intro r k e he; exact he
  | cons a rest ih =>
      intro r k e he
      rw [List.foldl_cons]
      exact ih (applyAction_mono he)

theorem foldA_shape {cfg : Config} {md5hex b64enc : List UInt8 → String} {writeOk : Bool} :
    ∀ {acts : List PAction} {r : Reporter}, shapeOK r.store →
      shapeOK (acts.foldl (applyAction cfg md5hex b64enc writeOk) r).store := by
  intro acts
  induction acts with
  | nil => intro r h; exact h
  | cons a rest ih =>
      intro r h
      rw [List.foldl_cons]
      exact ih (applyAction_shape h)

/-- C1: with two resolved plugins whose first raises (after performing
its API calls) and whose second runs cleanly, `runParser` does not
propagate the exception (it is a total function of the plugin
actions): the ErrorLog holds exactly one entry naming the failing
plugin's source and name and the input identity (the path, or the
content hash of the data when no path was given), the second plugin is
still invoked, and the final store contains every string and tuple
value the second plugin recorded under a matching taxonomy field. -/
theorem C1_plugin_failure_isolation
    (cfg : Config) (md5hex b64enc : List UInt8 → String) (writeOk : Bool)
    (pefileErr : Option String) (name filename : String) (fileData dataParam : List UInt8)
    (n1 s1 n2 s2 tb : String) (acts1 acts2 : List PAction) :
    (runParser cfg md5hex b64enc writeOk pefileErr name filename fileData dataParam
        [(n1, s1, ⟨acts1, some tb⟩), (n2, s2, ⟨acts2, none⟩)]).errors =
      ["Error running parser " ++ s1 ++ ":" ++ n1 ++ " on "
        ++ (if filename ≠ "" then filename else md5hex dataParam) ++ ": " ++ tb] ∧
    (∀ k s, PAction.addMeta k (.str s) ∈ acts2 → fields k = some .listofstrings →
      Entry.s s ∈ listAt (runParser cfg md5hex b64enc writeOk pefileErr name filename
        fileData dataParam [(n1, s1, ⟨acts1, some tb⟩), (n2, s2, ⟨acts2, none⟩)]).store k) ∧
    (∀ k v, PAction.addMeta k v ∈ acts2 → fields k = some .listofstringtuples →
      pyFalsy v = false →
      Entry.t (tupItems v) ∈ listAt (runParser cfg md5hex b64enc writeOk pefileErr name
        filename fileData dataParam
        [(n1, s1, ⟨acts1, some tb⟩), (n2, s2, ⟨acts2, none⟩)]).store k) := by
  have hr : runParser cfg md5hex b64enc writeOk pefileErr name filename fileData dataParam
      [(n1, s1, ⟨acts1, some tb⟩), (n2, s2, ⟨acts2, none⟩)] =
      (let r0 : Reporter :=
        { filename := filename, data := if filename ≠ "" then fileData else dataParam }
      let r1 :=
        if r0.data.take 2 = [77, 90] then
          match pefileErr with
          | some e => { r0 with store := debugS cfg r0.store ("Error parsing with pefile: " ++ e) }
          | none => r0
        else r0
      let rA := acts1.foldl (applyAction cfg md5hex b64enc writeOk)
        { r1 with store := debugS cfg r1.store ("[*] Running parser: " ++ s1 ++ ":" ++ n1) }
      let rB := { rA with errors := rA.errors ++
        ["Error running parser " ++ s1 ++ ":" ++ n1 ++ " on "
          ++ (if filename ≠ "" then filename else md5hex dataParam) ++ ": " ++ tb] }
      acts2.foldl (applyAction cfg md5hex b64enc writeOk)
        { rB with store := debugS cfg rB.store ("[*] Running parser: " ++ s2 ++ ":" ++ n2) }) := rfl
  refine ⟨?_, ?_, ?_⟩
  · rw [hr]
    dsimp only
    simp only [foldA_errors]
    repeat' split
    all_goals simp
  · intro k s hmem hf
    rw [hr]
    dsimp only
    obtain ⟨pre, post, hsplit⟩ := List.append_of_mem hmem
    subst hsplit
    rw [List.foldl_append, List.foldl_cons]
    apply foldA_mono
    show Entry.s s ∈ listAt (add_metadata cfg _ k (.str s)) k
    apply estStr cfg _ k s hf
    apply foldA_shape
    apply debugS_shape
    apply foldA_shape
    apply debugS_shape
    repeat' first
      | apply debugS_shape
      | split
      | (intro p hp; exact absurd hp (List.not_mem_nil p))
  · intro k v hmem hf hnf
    rw [hr]
    dsimp only
    obtain ⟨pre, post, hsplit⟩ := List.append_of_mem hmem
    subst hsplit
    rw [List.foldl_append, List.foldl_cons]
    apply foldA_mono
    show Entry.t (tupItems v) ∈ listAt (add_metadata cfg _ k v) k
    apply estTup cfg _ k v hf hnf
    apply foldA_shape
    apply debugS_shape
    apply foldA_shape
    apply debugS_shape
    repeat' first
      | apply debugS_shape
      | split
      | (intro p hp; exact absurd hp (List.not_mem_nil p))

/-- C1 witness: a raising first plugin and a clean second plugin on a
buffer input; the error names src1:P1 and the buffer's content hash,
and both of the second plugin's recordings are stored. -/
theorem C1_plugin_failure_isolation_witness :
    (runParser cfgDefault md5const b64const true none "foo" "" [] [1]
        [("P1", "src1", ⟨[.addMeta "mutex" (.str "m1")], some "boom"⟩),
         ("P2", "src2", ⟨[.addMeta "mutex" (.str "m2"),
                          .addMeta "port" (.tup ["80", "tcp"])], none⟩)]).errors =
      ["Error running parser " ++ "src1" ++ ":" ++ "P1" ++ " on "
        ++ (if ("" : String) ≠ "" then "" else md5const [1]) ++ ": " ++ "boom"] ∧
    Entry.s "m2" ∈ listAt (runParser cfgDefault md5const b64const true none "foo" "" [] [1]
        [("P1", "src1", ⟨[.addMeta "mutex" (.str "m1")], some "boom"⟩),
         ("P2", "src2", ⟨[.addMeta "mutex" (.str "m2"),
                          .addMeta "port" (.tup ["80", "tcp"])], none⟩)]).store "mutex" ∧
    Entry.t (tupItems (.tup ["80", "tcp"])) ∈
      listAt (runParser cfgDefault md5const b64const true none "foo" "" [] [1]
        [("P1", "src1", ⟨[.addMeta "mutex" (.str "m1")], some "boom"⟩),
         ("P2", "src2", ⟨[.addMeta "mutex" (.str "m2"),
                          .addMeta "port" (.tup ["80", "tcp"])], none⟩)]).store "port" := by
  have h := C1_plugin_failure_isolation cfgDefault md5const b64const true none "foo" "" [] [1]
    "P1" "src1" "P2" "src2" "boom" [.addMeta "mutex" (.str "m1")]
    [.addMeta "mutex" (.str "m2"), .addMeta "port" (.tup ["80", "tcp"])]
  exact ⟨h.1, h.2.1 "mutex" "m2" (by decide) rfl,
    h.2.2 "port" (.tup ["80", "tcp"]) (by decide) rfl (by decide)⟩

/-! ### C8: the keys a call creates do not depend on the prior store -/

theorem shapeOK_nil : shapeOK ([] : Store) := by
  intro p hp
  exact absurd hp (List.not_mem_nil p)

theorem stepFilepath_shapeP {rec : Store → String → PyVal → Store}
    (hrecS : ∀ st j v, shapeOK st → shapeOK (rec st j v))
    {st : Store} (h : shapeOK st) {keyu valueu : String} :
    shapeOK (stepFilepath rec st keyu valueu) := by
  unfold stepFilepath
  split
  · exact hrecS _ _ _ (hrecS _ _ _ h)
  · exact h

theorem stepC2url_shapeP {rec : Store → String → PyVal → Store}
    (hrecS : ∀ st j v, shapeOK st → shapeOK (rec st j v))
    {st : Store} (h : shapeOK st) {keyu valueu : String} :
    shapeOK (stepC2url rec st keyu valueu) := by
  unfold stepC2url
  split
  · exact hrecS _ _ _ h
  · exact h

theorem stepC2address_shapeP {rec : Store → String → PyVal → Store}
    (hrecS : ∀ st j v, shapeOK st → shapeOK (rec st j v))
    {st : Store} (h : shapeOK st) {keyu valueu : String} :
    shapeOK (stepC2address rec st keyu valueu) := by
  unfold stepC2address
  split
  · exact hrecS _ _ _ h
  · exact h

theorem stepServiceimage_shapeP {rec : Store → String → PyVal → Store}
    (hrecS : ∀ st j v, shapeOK st → shapeOK (rec st j v))
    {st : Store} (h : shapeOK st) {keyu valueu : String} :
    shapeOK (stepServiceimage rec st keyu valueu) := by
  unfold stepServiceimage
  split
  · split
    · exact hrecS _ _ _ h
    · exact h
  · exact h

theorem stepServicedll_shapeP {rec : Store → String → PyVal → Store}
    (hrecS : ∀ st j v, shapeOK st → shapeOK (rec st j v))
    {st : Store} (h : shapeOK st) {keyu valueu : String} :
    shapeOK (stepServicedll rec st keyu valueu) := by
  unfold stepServicedll
  split
  · exact hrecS _ _ _ h
  · exact h

theorem debugR_keys {cfg : Config} {rec : Store → String → PyVal → Store}
    (hrecK : ∀ j v st, shapeOK st → ∀ x, hasKey (rec st j v) x = true ↔
      (hasKey st x = true ∨ hasKey (rec [] j v) x = true))
    {st : Store} (hsh : shapeOK st) (m : String) (x : String) :
    hasKey (debugR cfg rec st m) x = true ↔
      (hasKey st x = true ∨ hasKey (debugR cfg rec [] m) x = true) := by
  unfold debugR
  split
  · simp [hasKey, getM]
  · exact hrecK _ _ _ hsh x

theorem stepFilepath_keys {rec : Store → String → PyVal → Store}
    (hrecK : ∀ j v st, shapeOK st → ∀ x, hasKey (rec st j v) x = true ↔
      (hasKey st x = true ∨ hasKey (rec [] j v) x = true))
    (hrecS : ∀ st j v, shapeOK st → shapeOK (rec st j v))
    {st : Store} (hsh : shapeOK st) {keyu valueu : String} (x : String) :
    hasKey (stepFilepath rec st keyu valueu) x = true ↔
      (hasKey st x = true ∨ hasKey (stepFilepath rec [] keyu valueu) x = true) := by
  unfold stepFilepath
  by_cases hc : keyu = "filepath"
  · simp only [if_pos hc]
    rw [hrecK _ _ _ (hrecS _ _ _ hsh), hrecK _ _ _ hsh,
      hrecK _ _ _ (hrecS _ _ _ shapeOK_nil), hrecK _ _ _ shapeOK_nil]
    simp [hasKey, getM]
    tauto
  · simp only [if_neg hc]
    simp [hasKey, getM]

theorem stepC2url_keys {rec : Store → String → PyVal → Store}
    (hrecK : ∀ j v st, shapeOK st → ∀ x, hasKey (rec st j v) x = true ↔
      (hasKey st x = true ∨ hasKey (rec [] j v) x = true))
    {st : Store} (hsh : shapeOK st) {keyu valueu : String} (x : String) :
    hasKey (stepC2url rec st keyu valueu) x = true ↔
      (hasKey st x = true ∨ hasKey (stepC2url rec [] keyu valueu) x = true) := by
  unfold stepC2url
  by_cases hc : keyu = "c2_url"
  · simp only [if_pos hc]
    exact hrecK _ _ _ hsh x
  · simp only [if_neg hc]
    simp [hasKey, getM]

theorem stepC2address_keys {rec : Store → String → PyVal → Store}
    (hrecK : ∀ j v st, shapeOK st → ∀ x, hasKey (rec st j v) x = true ↔
      (hasKey st x = true ∨ hasKey (rec [] j v) x = true))
    {st : Store} (hsh : shapeOK st) {keyu valueu : String} (x : String) :
    hasKey (stepC2address rec st keyu valueu) x = true ↔
      (hasKey st x = true ∨ hasKey (stepC2address rec [] keyu valueu) x = true) := by
  unfold stepC2address
  by_cases hc : keyu = "c2_address"
  · simp only [if_pos hc]
    exact hrecK _ _ _ hsh x
  · simp only [if_neg hc]
    simp [hasKey, getM]

theorem stepServiceimage_keys {rec : Store → String → PyVal → Store}
    (hrecK : ∀ j v st, shapeOK st → ∀ x, hasKey (rec st j v) x = true ↔
      (hasKey st x = true ∨ hasKey (rec [] j v) x = true))
    {st : Store} (hsh : shapeOK st) {keyu valueu : String} (x : String) :
    hasKey (stepServiceimage rec st keyu valueu) x = true ↔
      (hasKey st x = true ∨ hasKey (stepServiceimage rec [] keyu valueu) x = true) := by
  unfold stepServiceimage
  by_cases hc : keyu = "serviceimage"
  · simp only [if_pos hc]
    cases hm : findSub ".exe".data valueu.data 0 with
    | some i =>
        simp only [hm]
        exact hrecK _ _ _ hsh x
    | none =>
        simp only [hm]
        simp [hasKey, getM]
  · simp only [if_neg hc]
    simp [hasKey, getM]

theorem stepServicedll_keys {rec : Store → String → PyVal → Store}
    (hrecK : ∀ j v st, shapeOK st → ∀ x, hasKey (rec st j v) x = true ↔
      (hasKey st x = true ∨ hasKey (rec [] j v) x = true))
    {st : Store} (hsh : shapeOK st) {keyu valueu : String} (x : String) :
    hasKey (stepServicedll rec st keyu valueu) x = true ↔
      (hasKey st x = true ∨ hasKey (stepServicedll rec [] keyu valueu) x = true) := by
  unfold stepServicedll
  by_cases hc : keyu = "servicedll"
  · simp only [if_pos hc]
    exact hrecK _ _ _ hsh x
  · simp only [if_neg hc]
    simp [hasKey, getM]

theorem urlCascadeF_keys {cfg : Config} {rec : Store → String → PyVal → Store}
    (hrecK : ∀ j v st, shapeOK st → ∀ x, hasKey (rec st j v) x = true ↔
      (hasKey st x = true ∨ hasKey (rec [] j v) x = true))
    (hrecS : ∀ st j v, shapeOK st → shapeOK (rec st j v))
    {st : Store} (hsh : shapeOK st) {keyu valueu : String} (x : String) :
    hasKey (urlCascadeF cfg rec st keyu valueu) x = true ↔
      (hasKey st x = true ∨ hasKey (urlCascadeF cfg rec [] keyu valueu) x = true) := by
  unfold urlCascadeF
  cases hm : urlMatch valueu with
  | none =>
      simp only [hm]
      exact debugR_keys hrecK hsh _ x
  | some pr =>
      obtain ⟨address, path⟩ := pr
      simp only [hm]
      by_cases h1 : address.isEmpty = true
      · simp only [if_pos h1]
        cases path with
        | none => simp [hasKey, getM]
        | some p =>
            rw [hrecK _ _ _ hsh]
            try tauto
      · simp only [if_neg h1]
        by_cases h2 : address.data.headD ' ' = '['
        · simp only [if_pos h2]
          by_cases h3 : (pySplit ']' address).length > 1
          · simp only [if_pos h3]
            by_cases h4 : (!((pySplit ']' address).getD 1 "").isEmpty) = true
            · simp only [if_pos h4]
              cases path with
              | none =>
                  rw [hrecK _ _ _ hsh]
                  try tauto
              | some p =>
                  rw [hrecK _ _ _ (hrecS _ _ _ hsh), hrecK _ _ _ hsh,
                    hrecK _ _ _ (hrecS _ _ _ shapeOK_nil)]
                  try tauto
            · simp only [if_neg h4]
              cases path with
              | none => simp [hasKey, getM]
              | some p =>
                  rw [hrecK _ _ _ hsh]
                  try tauto
          · simp only [if_neg h3]
            cases path with
            | none =>
                rw [hrecK _ _ _ hsh]
                try tauto
            | some p =>
                rw [hrecK _ _ _ (hrecS _ _ _ hsh), hrecK _ _ _ hsh,
                  hrecK _ _ _ (hrecS _ _ _ shapeOK_nil)]
                try tauto
        · simp only [if_neg h2]
          by_cases h3 : (pySplit ':' address).length > 1
          · simp only [if_pos h3]
            by_cases h4 : (!((pySplit ':' address).getD 1 "").isEmpty) = true
            · simp only [if_pos h4]
              cases path with
              | none =>
                  rw [hrecK _ _ _ hsh]
                  try tauto
              | some p =>
                  rw [hrecK _ _ _ (hrecS _ _ _ hsh), hrecK _ _ _ hsh,
                    hrecK _ _ _ (hrecS _ _ _ shapeOK_nil)]
                  try tauto
            · simp only [if_neg h4]
              cases path with
              | none => simp [hasKey, getM]
              | some p =>
                  rw [hrecK _ _ _ hsh]
                  try tauto
          · simp only [if_neg h3]
            cases path with
            | none =>
                rw [hrecK _ _ _ hsh]
                try tauto
            | some p =>
                rw [hrecK _ _ _ (hrecS _ _ _ hsh), hrecK _ _ _ hsh,
                  hrecK _ _ _ (hrecS _ _ _ shapeOK_nil)]
                try tauto

set_option maxHeartbeats 1000000 in
theorem cascadeStrsF_keys {cfg : Config} {rec : Store → String → PyVal → Store}
    (hrecK : ∀ j v st, shapeOK st → ∀ x, hasKey (rec st j v) x = true ↔
      (hasKey st x = true ∨ hasKey (rec [] j v) x = true))
    (hrecS : ∀ st j v, shapeOK st → shapeOK (rec st j v))
    {st : Store} (hsh : shapeOK st) {keyu valueu : String} (x : String) :
    hasKey (cascadeStrsF cfg rec st keyu valueu) x = true ↔
      (hasKey st x = true ∨ hasKey (cascadeStrsF cfg rec [] keyu valueu) x = true) := by
  unfold cascadeStrsF
  by_cases hoff : cfg.disableautosubfieldparsing = true
  · simp only [if_pos hoff]
    simp [hasKey, getM]
  · simp only [if_neg hoff]
    have s1 : shapeOK (stepFilepath rec st keyu valueu) := stepFilepath_shapeP hrecS hsh
    have s2 : shapeOK (stepC2url rec (stepFilepath rec st keyu valueu) keyu valueu) :=
      stepC2url_shapeP hrecS s1
    have s3 : shapeOK (stepC2address rec (stepC2url rec
        (stepFilepath rec st keyu valueu) keyu valueu) keyu valueu) :=
      stepC2address_shapeP hrecS s2
    have s4 : shapeOK (stepServiceimage rec (stepC2address rec (stepC2url rec
        (stepFilepath rec st keyu valueu) keyu valueu) keyu valueu) keyu valueu) :=
      stepServiceimage_shapeP hrecS s3
    have s5 : shapeOK (stepServicedll rec (stepServiceimage rec (stepC2address rec
        (stepC2url rec (stepFilepath rec st keyu valueu) keyu valueu) keyu valueu)
        keyu valueu) keyu valueu) :=
      stepServicedll_shapeP hrecS s4
    have n1 : shapeOK (stepFilepath rec [] keyu valueu) := stepFilepath_shapeP hrecS shapeOK_nil
    have n2 : shapeOK (stepC2url rec (stepFilepath rec [] keyu valueu) keyu valueu) :=
      stepC2url_shapeP hrecS n1
    have n3 : shapeOK (stepC2address rec (stepC2url rec
        (stepFilepath rec [] keyu valueu) keyu valueu) keyu valueu) :=
      stepC2address_shapeP hrecS n2
    have n4 : shapeOK (stepServiceimage rec (stepC2address rec (stepC2url rec
        (stepFilepath rec [] keyu valueu) keyu valueu) keyu valueu) keyu valueu) :=
      stepServiceimage_shapeP hrecS n3
    have n5 : shapeOK (stepServicedll rec (stepServiceimage rec (stepC2address rec
        (stepC2url rec (stepFilepath rec [] keyu valueu) keyu valueu) keyu valueu)
        keyu valueu) keyu valueu) :=
      stepServicedll_shapeP hrecS n4
    have e1 := @stepFilepath_keys rec hrecK hrecS st hsh keyu valueu x
    have e2 := @stepC2url_keys rec hrecK _ s1 keyu valueu x
    have e2n := @stepC2url_keys rec hrecK _ n1 keyu valueu x
    have e3 := @stepC2address_keys rec hrecK _ s2 keyu valueu x
    have e3n := @stepC2address_keys rec hrecK _ n2 keyu valueu x
    have e4 := @stepServiceimage_keys rec hrecK _ s3 keyu valueu x
    have e4n := @stepServiceimage_keys rec hrecK _ n3 keyu valueu x
    have e5 := @stepServicedll_keys rec hrecK _ s4 keyu valueu x
    have e5n := @stepServicedll_keys rec hrecK _ n4 keyu valueu x
    by_cases hurl : (keyu = "url" || keyu = "c2_url") = true
    · simp only [if_pos hurl]
      rw [@urlCascadeF_keys cfg rec hrecK hrecS _ s5 keyu valueu x, e5, e4, e3, e2, e1,
        @urlCascadeF_keys cfg rec hrecK hrecS _ n5 keyu valueu x, e5n, e4n, e3n, e2n]
      simp only [or_assoc]
    · simp only [if_neg hurl]
      rw [e5, e4, e3, e2, e1, e5n, e4n, e3n, e2n]
      simp only [or_assoc]

/-- Chain helper for the key-set bisimulation. -/
theorem keys_chainR1 {rec : Store → String → PyVal → Store}
    (hrecK : ∀ j v st, shapeOK st → ∀ x, hasKey (rec st j v) x = true ↔
      (hasKey st x = true ∨ hasKey (rec [] j v) x = true))
    (hrecS : ∀ st j v, shapeOK st → shapeOK (rec st j v))
    {st : Store} (hsh : shapeOK st) {j1 : String} {v1 : PyVal} {x : String} :
    hasKey (rec st j1 v1) x = true ↔
      (hasKey st x = true ∨ hasKey (rec ([] : Store) j1 v1) x = true) := by
  rw [hrecK _ _ _ hsh]
  try tauto

/-- Chain helper for the key-set bisimulation. -/
theorem keys_chainR1D {cfg : Config} {rec : Store → String → PyVal → Store}
    (hrecK : ∀ j v st, shapeOK st → ∀ x, hasKey (rec st j v) x = true ↔
      (hasKey st x = true ∨ hasKey (rec [] j v) x = true))
    (hrecS : ∀ st j v, shapeOK st → shapeOK (rec st j v))
    {st : Store} (hsh : shapeOK st) {j1 : String} {v1 : PyVal} {m : String} {x : String} :
    hasKey (debugR cfg rec (rec st j1 v1) m) x = true ↔
      (hasKey st x = true ∨ hasKey (debugR cfg rec (rec ([] : Store) j1 v1) m) x = true) := by
  rw [debugR_keys hrecK (hrecS _ _ _ hsh) _ x, hrecK _ _ _ hsh, debugR_keys hrecK (hrecS _ _ _ shapeOK_nil) _ x]
  try tauto

/-- Chain helper for the key-set bisimulation. -/
theorem keys_chainR2 {rec : Store → String → PyVal → Store}
    (hrecK : ∀ j v st, shapeOK st → ∀ x, hasKey (rec st j v) x = true ↔
      (hasKey st x = true ∨ hasKey (rec [] j v) x = true))
    (hrecS : ∀ st j v, shapeOK st → shapeOK (rec st j v))
    {st : Store} (hsh : shapeOK st) {j1 j2 : String} {v1 v2 : PyVal} {x : String} :
    hasKey (rec (rec st j1 v1) j2 v2) x = true ↔
      (hasKey st x = true ∨ hasKey (rec (rec ([] : Store) j1 v1) j2 v2) x = true) := by
  rw [hrecK _ _ _ (hrecS _ _ _ hsh), hrecK _ _ _ hsh, hrecK _ _ _ (hrecS _ _ _ shapeOK_nil)]
  try tauto

/-- Chain helper for the key-set bisimulation. -/
theorem keys_chainR2D {cfg : Config} {rec : Store → String → PyVal → Store}
    (hrecK : ∀ j v st, shapeOK st → ∀ x, hasKey (rec st j v) x = true ↔
      (hasKey st x = true ∨ hasKey (rec [] j v) x = true))
    (hrecS : ∀ st j v, shapeOK st → shapeOK (rec st j v))
    {st : Store} (hsh : shapeOK st) {j1 j2 : String} {v1 v2 : PyVal} {m : String} {x : String} :
    hasKey (debugR cfg rec (rec (rec st j1 v1) j2 v2) m) x = true ↔
      (hasKey st x = true ∨ hasKey (debugR cfg rec (rec (rec ([] : Store) j1 v1) j2 v2) m) x = true) := by
  rw [debugR_keys hrecK (hrecS _ _ _ (hrecS _ _ _ hsh)) _ x, hrecK _ _ _ (hrecS _ _ _ hsh), hrecK _ _ _ hsh, debugR_keys hrecK (hrecS _ _ _ (hrecS _ _ _ shapeOK_nil)) _ x, hrecK _ _ _ (hrecS _ _ _ shapeOK_nil)]
  try tauto

/-- Chain helper for the key-set bisimulation. -/
theorem keys_chainR3 {rec : Store → String → PyVal → Store}
    (hrecK : ∀ j v st, shapeOK st → ∀ x, hasKey (rec st j v) x = true ↔
      (hasKey st x = true ∨ hasKey (rec [] j v) x = true))
    (hrecS : ∀ st j v, shapeOK st → shapeOK (rec st j v))
    {st : Store} (hsh : shapeOK st) {j1 j2 j3 : String} {v1 v2 v3 : PyVal} {x : String} :
    hasKey (rec (rec (rec st j1 v1) j2 v2) j3 v3) x = true ↔
      (hasKey st x = true ∨ hasKey (rec (rec (rec ([] : Store) j1 v1) j2 v2) j3 v3) x = true) := by
  rw [hrecK _ _ _ (hrecS _ _ _ (hrecS _ _ _ hsh)), hrecK _ _ _ (hrecS _ _ _ hsh), hrecK _ _ _ hsh, hrecK _ _ _ (hrecS _ _ _ (hrecS _ _ _ shapeOK_nil)), hrecK _ _ _ (hrecS _ _ _ shapeOK_nil)]
  try tauto

/-- Chain helper for the key-set bisimulation. -/
theorem keys_chainR3D {cfg : Config} {rec : Store → String → PyVal → Store}
    (hrecK : ∀ j v st, shapeOK st → ∀ x, hasKey (rec st j v) x = true ↔
      (hasKey st x = true ∨ hasKey (rec [] j v) x = true))
    (hrecS : ∀ st j v, shapeOK st → shapeOK (rec st j v))
    {st : Store} (hsh : shapeOK st) {j1 j2 j3 : String} {v1 v2 v3 : PyVal} {m : String} {x : String} :
    hasKey (debugR cfg rec (rec (rec (rec st j1 v1) j2 v2) j3 v3) m) x = true ↔
      (hasKey st x = true ∨ hasKey (debugR cfg rec (rec (rec (rec ([] : Store) j1 v1) j2 v2) j3 v3) m) x = true) := by
  rw [debugR_keys hrecK (hrecS _ _ _ (hrecS _ _ _ (hrecS _ _ _ hsh))) _ x, hrecK _ _ _ (hrecS _ _ _ (hrecS _ _ _ hsh)), hrecK _ _ _ (hrecS _ _ _ hsh), hrecK _ _ _ hsh, debugR_keys hrecK (hrecS _ _ _ (hrecS _ _ _ (hrecS _ _ _ shapeOK_nil))) _ x, hrecK _ _ _ (hrecS _ _ _ (hrecS _ _ _ shapeOK_nil)), hrecK _ _ _ (hrecS _ _ _ shapeOK_nil)]
  try tauto

/-- Chain helper for the key-set bisimulation. -/
theorem keys_chainR4 {rec : Store → String → PyVal → Store}
    (hrecK : ∀ j v st, shapeOK st → ∀ x, hasKey (rec st j v) x = true ↔
      (hasKey st x = true ∨ hasKey (rec [] j v) x = true))
    (hrecS : ∀ st j v, shapeOK st → shapeOK (rec st j v))
    {st : Store} (hsh : shapeOK st) {j1 j2 j3 j4 : String} {v1 v2 v3 v4 : PyVal} {x : String} :
    hasKey (rec (rec (rec (rec st j1 v1) j2 v2) j3 v3) j4 v4) x = true ↔
      (hasKey st x = true ∨ hasKey (rec (rec (rec (rec ([] : Store) j1 v1) j2 v2) j3 v3) j4 v4) x = true) := by
  rw [hrecK _ _ _ (hrecS _ _ _ (hrecS _ _ _ (hrecS _ _ _ hsh))), hrecK _ _ _ (hrecS _ _ _ (hrecS _ _ _ hsh)), hrecK _ _ _ (hrecS _ _ _ hsh), hrecK _ _ _ hsh, hrecK _ _ _ (hrecS _ _ _ (hrecS _ _ _ (hrecS _ _ _ shapeOK_nil))), hrecK _ _ _ (hrecS _ _ _ (hrecS _ _ _ shapeOK_nil)), hrecK _ _ _ (hrecS _ _ _ shapeOK_nil)]
  try tauto

/-- Chain helper for the key-set bisimulation. -/
theorem keys_chainR4D {cfg : Config} {rec : Store → String → PyVal → Store}
    (hrecK : ∀ j v st, shapeOK st → ∀ x, hasKey (rec st j v) x = true ↔
      (hasKey st x = true ∨ hasKey (rec [] j v) x = true))
    (hrecS : ∀ st j v, shapeOK st → shapeOK (rec st j v))
    {st : Store} (hsh : shapeOK st) {j1 j2 j3 j4 : String} {v1 v2 v3 v4 : PyVal} {m : String} {x : String} :
    hasKey (debugR cfg rec (rec (rec (rec (rec st j1 v1) j2 v2) j3 v3) j4 v4) m) x = true ↔
      (hasKey st x = true ∨ hasKey (debugR cfg rec (rec (rec (rec (rec ([] : Store) j1 v1) j2 v2) j3 v3) j4 v4) m) x = true) := by
  rw [debugR_keys hrecK (hrecS _ _ _ (hrecS _ _ _ (hrecS _ _ _ (hrecS _ _ _ hsh)))) _ x, hrecK _ _ _ (hrecS _ _ _ (hrecS _ _ _ (hrecS _ _ _ hsh))), hrecK _ _ _ (hrecS _ _ _ (hrecS _ _ _ hsh)), hrecK _ _ _ (hrecS _ _ _ hsh), hrecK _ _ _ hsh, debugR_keys hrecK (hrecS _ _ _ (hrecS _ _ _ (hrecS _ _ _ (hrecS _ _ _ shapeOK_nil)))) _ x, hrecK _ _ _ (hrecS _ _ _ (hrecS _ _ _ (hrecS _ _ _ shapeOK_nil))), hrecK _ _ _ (hrecS _ _ _ (hrecS _ _ _ shapeOK_nil)), hrecK _ _ _ (hrecS _ _ _ shapeOK_nil)]
  try tauto

/-- Chain helper for the key-set bisimulation. -/
theorem keys_chainR5 {rec : Store → String → PyVal → Store}
    (hrecK : ∀ j v st, shapeOK st → ∀ x, hasKey (rec st j v) x = true ↔
      (hasKey st x = true ∨ hasKey (rec [] j v) x = true))
    (hrecS : ∀ st j v, shapeOK st → shapeOK (rec st j v))
    {st : Store} (hsh : shapeOK st) {j1 j2 j3 j4 j5 : String} {v1 v2 v3 v4 v5 : PyVal} {x : String} :
    hasKey (rec (rec (rec (rec (rec st j1 v1) j2 v2) j3 v3) j4 v4) j5 v5) x = true ↔
      (hasKey st x = true ∨ hasKey (rec (rec (rec (rec (rec ([] : Store) j1 v1) j2 v2) j3 v3) j4 v4) j5 v5) x = true) := by
  rw [hrecK _ _ _ (hrecS _ _ _ (hrecS _ _ _ (hrecS _ _ _ (hrecS _ _ _ hsh)))), hrecK _ _ _ (hrecS _ _ _ (hrecS _ _ _ (hrecS _ _ _ hsh))), hrecK _ _ _ (hrecS _ _ _ (hrecS _ _ _ hsh)), hrecK _ _ _ (hrecS _ _ _ hsh), hrecK _ _ _ hsh, hrecK _ _ _ (hrecS _ _ _ (hrecS _ _ _ (hrecS _ _ _ (hrecS _ _ _ shapeOK_nil)))), hrecK _ _ _ (hrecS _ _ _ (hrecS _ _ _ (hrecS _ _ _ shapeOK_nil))), hrecK _ _ _ (hrecS _ _ _ (hrecS _ _ _ shapeOK_nil)), hrecK _ _ _ (hrecS _ _ _ shapeOK_nil)]
  try tauto

/-- Chain helper for the key-set bisimulation. -/
theorem keys_chainR5D {cfg : Config} {rec : Store → String → PyVal → Store}
    (hrecK : ∀ j v st, shapeOK st → ∀ x, hasKey (rec st j v) x = true ↔
      (hasKey st x = true ∨ hasKey (rec [] j v) x = true))
    (hrecS : ∀ st j v, shapeOK st → shapeOK (rec st j v))
    {st : Store} (hsh : shapeOK st) {j1 j2 j3 j4 j5 : String} {v1 v2 v3 v4 v5 : PyVal} {m : String} {x : String} :
    hasKey (debugR cfg rec (rec (rec (rec (rec (rec st j1 v1) j2 v2) j3 v3) j4 v4) j5 v5) m) x = true ↔
      (hasKey st x = true ∨ hasKey (debugR cfg rec (rec (rec (rec (rec (rec ([] : Store) j1 v1) j2 v2) j3 v3) j4 v4) j5 v5) m) x = true) := by
  rw [debugR_keys hrecK (hrecS _ _ _ (hrecS _ _ _ (hrecS _ _ _ (hrecS _ _ _ (hrecS _ _ _ hsh))))) _ x, hrecK _ _ _ (hrecS _ _ _ (hrecS _ _ _ (hrecS _ _ _ (hrecS _ _ _ hsh)))), hrecK _ _ _ (hrecS _ _ _ (hrecS _ _ _ (hrecS _ _ _ hsh))), hrecK _ _ _ (hrecS _ _ _ (hrecS _ _ _ hsh)), hrecK _ _ _ (hrecS _ _ _ hsh), hrecK _ _ _ hsh, debugR_keys hrecK (hrecS _ _ _ (hrecS _ _ _ (hrecS _ _ _ (hrecS _ _ _ (hrecS _ _ _ shapeOK_nil))))) _ x, hrecK _ _ _ (hrecS _ _ _ (hrecS _ _ _ (hrecS _ _ _ (hrecS _ _ _ shapeOK_nil)))), hrecK _ _ _ (hrecS _ _ _ (hrecS _ _ _ (hrecS _ _ _ shapeOK_nil))), hrecK _ _ _ (hrecS _ _ _ (hrecS _ _ _ shapeOK_nil)), hrecK _ _ _ (hrecS _ _ _ shapeOK_nil)]
  try tauto

/-- Chain helper for the key-set bisimulation. -/
theorem keys_chainD1 {cfg : Config} {rec : Store → String → PyVal → Store}
    (hrecK : ∀ j v st, shapeOK st → ∀ x, hasKey (rec st j v) x = true ↔
      (hasKey st x = true ∨ hasKey (rec [] j v) x = true))
    (hrecS : ∀ st j v, shapeOK st → shapeOK (rec st j v))
    {st : Store} (hsh : shapeOK st) {m1 : String} {x : String} :
    hasKey (debugR cfg rec st m1) x = true ↔
      (hasKey st x = true ∨ hasKey (debugR cfg rec ([] : Store) m1) x = true) := by
  rw [debugR_keys hrecK hsh _ x]
  try tauto

/-- Chain helper for the key-set bisimulation. -/
theorem keys_chainD2 {cfg : Config} {rec : Store → String → PyVal → Store}
    (hrecK : ∀ j v st, shapeOK st → ∀ x, hasKey (rec st j v) x = true ↔
      (hasKey st x = true ∨ hasKey (rec [] j v) x = true))
    (hrecS : ∀ st j v, shapeOK st → shapeOK (rec st j v))
    {st : Store} (hsh : shapeOK st) {m1 m2 : String} {x : String} :
    hasKey (debugR cfg rec (debugR cfg rec st m1) m2) x = true ↔
      (hasKey st x = true ∨ hasKey (debugR cfg rec (debugR cfg rec ([] : Store) m1) m2) x = true) := by
  rw [debugR_keys hrecK (debugR_shape hrecS hsh _) _ x, debugR_keys hrecK hsh _ x, debugR_keys hrecK (debugR_shape hrecS shapeOK_nil _) _ x]
  try tauto

/-- Chain helper for the key-set bisimulation. -/
theorem keys_chainD3 {cfg : Config} {rec : Store → String → PyVal → Store}
    (hrecK : ∀ j v st, shapeOK st → ∀ x, hasKey (rec st j v) x = true ↔
      (hasKey st x = true ∨ hasKey (rec [] j v) x = true))
    (hrecS : ∀ st j v, shapeOK st → shapeOK (rec st j v))
    {st : Store} (hsh : shapeOK st) {m1 m2 m3 : String} {x : String} :
    hasKey (debugR cfg rec (debugR cfg rec (debugR cfg rec st m1) m2) m3) x = true ↔
      (hasKey st x = true ∨ hasKey (debugR cfg rec (debugR cfg rec (debugR cfg rec ([] : Store) m1) m2) m3) x = true) := by
  rw [debugR_keys hrecK (debugR_shape hrecS (debugR_shape hrecS hsh _) _) _ x, debugR_keys hrecK (debugR_shape hrecS hsh _) _ x, debugR_keys hrecK hsh _ x, debugR_keys hrecK (debugR_shape hrecS (debugR_shape hrecS shapeOK_nil _) _) _ x, debugR_keys hrecK (debugR_shape hrecS shapeOK_nil _) _ x]
  try tauto

theorem ruleC2Socketaddress_keys {cfg : Config} {rec : Store → String → PyVal → Store}
    (hrecK : ∀ j v st, shapeOK st → ∀ x, hasKey (rec st j v) x = true ↔
      (hasKey st x = true ∨ hasKey (rec [] j v) x = true))
    (hrecS : ∀ st j v, shapeOK st → shapeOK (rec st j v))
    {st : Store} (hsh : shapeOK st) {values : List String} (x : String) :
    hasKey (ruleC2Socketaddress rec st values) x = true ↔
      (hasKey st x = true ∨ hasKey (ruleC2Socketaddress rec [] values) x = true) := by
  unfold ruleC2Socketaddress
  dsimp only
  repeat' split
  all_goals first
    | exact keys_chainR5D hrecK hrecS hsh
    | exact keys_chainR5 hrecK hrecS hsh
    | exact keys_chainR4D hrecK hrecS hsh
    | exact keys_chainR4 hrecK hrecS hsh
    | exact keys_chainR3D hrecK hrecS hsh
    | exact keys_chainR3 hrecK hrecS hsh
    | exact keys_chainR2D hrecK hrecS hsh
    | exact keys_chainR2 hrecK hrecS hsh
    | exact keys_chainR1D hrecK hrecS hsh
    | exact keys_chainR1 hrecK hrecS hsh
    | exact keys_chainD3 hrecK hrecS hsh
    | exact keys_chainD2 hrecK hrecS hsh
    | exact keys_chainD1 hrecK hrecS hsh
    | simp [hasKey, getM]

theorem ruleSocketaddress_keys {cfg : Config} {rec : Store → String → PyVal → Store}
    (hrecK : ∀ j v st, shapeOK st → ∀ x, hasKey (rec st j v) x = true ↔
      (hasKey st x = true ∨ hasKey (rec [] j v) x = true))
    (hrecS : ∀ st j v, shapeOK st → shapeOK (rec st j v))
    {st : Store} (hsh : shapeOK st) {values : List String} (x : String) :
    hasKey (ruleSocketaddress cfg rec st values) x = true ↔
      (hasKey st x = true ∨ hasKey (ruleSocketaddress cfg rec [] values) x = true) := by
  unfold ruleSocketaddress
  dsimp only
  repeat' split
  all_goals first
    | exact keys_chainR5D hrecK hrecS hsh
    | exact keys_chainR5 hrecK hrecS hsh
    | exact keys_chainR4D hrecK hrecS hsh
    | exact keys_chainR4 hrecK hrecS hsh
    | exact keys_chainR3D hrecK hrecS hsh
    | exact keys_chainR3 hrecK hrecS hsh
    | exact keys_chainR2D hrecK hrecS hsh
    | exact keys_chainR2 hrecK hrecS hsh
    | exact keys_chainR1D hrecK hrecS hsh
    | exact keys_chainR1 hrecK hrecS hsh
    | exact keys_chainD3 hrecK hrecS hsh
    | exact keys_chainD2 hrecK hrecS hsh
    | exact keys_chainD1 hrecK hrecS hsh
    | simp [hasKey, getM]

theorem ruleCredential_keys {cfg : Config} {rec : Store → String → PyVal → Store}
    (hrecK : ∀ j v st, shapeOK st → ∀ x, hasKey (rec st j v) x = true ↔
      (hasKey st x = true ∨ hasKey (rec [] j v) x = true))
    (hrecS : ∀ st j v, shapeOK st → shapeOK (rec st j v))
    {st : Store} (hsh : shapeOK st) {values : List String} (x : String) :
    hasKey (ruleCredential cfg rec st values) x = true ↔
      (hasKey st x = true ∨ hasKey (ruleCredential cfg rec [] values) x = true) := by
  unfold ruleCredential
  dsimp only
  repeat' split
  all_goals first
    | exact keys_chainR5D hrecK hrecS hsh
    | exact keys_chainR5 hrecK hrecS hsh
    | exact keys_chainR4D hrecK hrecS hsh
    | exact keys_chainR4 hrecK hrecS hsh
    | exact keys_chainR3D hrecK hrecS hsh
    | exact keys_chainR3 hrecK hrecS hsh
    | exact keys_chainR2D hrecK hrecS hsh
    | exact keys_chainR2 hrecK hrecS hsh
    | exact keys_chainR1D hrecK hrecS hsh
    | exact keys_chainR1 hrecK hrecS hsh
    | exact keys_chainD3 hrecK hrecS hsh
    | exact keys_chainD2 hrecK hrecS hsh
    | exact keys_chainD1 hrecK hrecS hsh
    | simp [hasKey, getM]

theorem rulePort_keys {cfg : Config} {rec : Store → String → PyVal → Store}
    (hrecK : ∀ j v st, shapeOK st → ∀ x, hasKey (rec st j v) x = true ↔
      (hasKey st x = true ∨ hasKey (rec [] j v) x = true))
    (hrecS : ∀ st j v, shapeOK st → shapeOK (rec st j v))
    {st : Store} (hsh : shapeOK st) {keyu : String} {values : List String} (x : String) :
    hasKey (rulePort cfg rec st keyu values) x = true ↔
      (hasKey st x = true ∨ hasKey (rulePort cfg rec [] keyu values) x = true) := by
  unfold rulePort
  dsimp only
  repeat' split
  all_goals first
    | exact keys_chainR5D hrecK hrecS hsh
    | exact keys_chainR5 hrecK hrecS hsh
    | exact keys_chainR4D hrecK hrecS hsh
    | exact keys_chainR4 hrecK hrecS hsh
    | exact keys_chainR3D hrecK hrecS hsh
    | exact keys_chainR3 hrecK hrecS hsh
    | exact keys_chainR2D hrecK hrecS hsh
    | exact keys_chainR2 hrecK hrecS hsh
    | exact keys_chainR1D hrecK hrecS hsh
    | exact keys_chainR1 hrecK hrecS hsh
    | exact keys_chainD3 hrecK hrecS hsh
    | exact keys_chainD2 hrecK hrecS hsh
    | exact keys_chainD1 hrecK hrecS hsh
    | simp [hasKey, getM]

theorem ruleRegistrypathdata_keys {cfg : Config} {rec : Store → String → PyVal → Store}
    (hrecK : ∀ j v st, shapeOK st → ∀ x, hasKey (rec st j v) x = true ↔
      (hasKey st x = true ∨ hasKey (rec [] j v) x = true))
    (hrecS : ∀ st j v, shapeOK st → shapeOK (rec st j v))
    {st : Store} (hsh : shapeOK st) {values : List String} (x : String) :
    hasKey (ruleRegistrypathdata cfg rec st values) x = true ↔
      (hasKey st x = true ∨ hasKey (ruleRegistrypathdata cfg rec [] values) x = true) := by
  unfold ruleRegistrypathdata
  dsimp only
  repeat' split
  all_goals first
    | exact keys_chainR5D hrecK hrecS hsh
    | exact keys_chainR5 hrecK hrecS hsh
    | exact keys_chainR4D hrecK hrecS hsh
    | exact keys_chainR4 hrecK hrecS hsh
    | exact keys_chainR3D hrecK hrecS hsh
    | exact keys_chainR3 hrecK hrecS hsh
    | exact keys_chainR2D hrecK hrecS hsh
    | exact keys_chainR2 hrecK hrecS hsh
    | exact keys_chainR1D hrecK hrecS hsh
    | exact keys_chainR1 hrecK hrecS hsh
    | exact keys_chainD3 hrecK hrecS hsh
    | exact keys_chainD2 hrecK hrecS hsh
    | exact keys_chainD1 hrecK hrecS hsh
    | simp [hasKey, getM]

theorem ruleService_keys {cfg : Config} {rec : Store → String → PyVal → Store}
    (hrecK : ∀ j v st, shapeOK st → ∀ x, hasKey (rec st j v) x = true ↔
      (hasKey st x = true ∨ hasKey (rec [] j v) x = true))
    (hrecS : ∀ st j v, shapeOK st → shapeOK (rec st j v))
    {st : Store} (hsh : shapeOK st) {values : List String} (x : String) :
    hasKey (ruleService cfg rec st values) x = true ↔
      (hasKey st x = true ∨ hasKey (ruleService cfg rec [] values) x = true) := by
  unfold ruleService
  lift_lets
  intro l1 l2 l3 l4 l5 l6 l7 l8 l9 l10
  have s1 : shapeOK l1 := by
    unfold_let l1
    split
    · exact hrecS _ _ _ hsh
    · exact hsh
  have t1 : shapeOK l6 := by
    unfold_let l6
    split
    · exact hrecS _ _ _ shapeOK_nil
    · exact shapeOK_nil
  have k1 : ∀ y, hasKey l1 y = true ↔ (hasKey st y = true ∨ hasKey l6 y = true) := by
    intro y
    unfold_let l1 l6
    split
    · exact hrecK _ _ _ hsh y
    · simp [hasKey, getM]
  have s2 : shapeOK l2 := by
    unfold_let l2
    split
    · split
      · exact hrecS _ _ _ s1
      · exact s1
    · exact s1
  have t2 : shapeOK l7 := by
    unfold_let l7
    split
    · split
      · exact hrecS _ _ _ t1
      · exact t1
    · exact t1
  have k2 : ∀ y, hasKey l2 y = true ↔ (hasKey st y = true ∨ hasKey l7 y = true) := by
    intro y
    unfold_let l2 l7
    split
    · split
      · rw [hrecK _ _ _ s1, k1 y, hrecK _ _ _ t1]
        tauto
      · exact k1 y
    · exact k1 y
  have s3 : shapeOK l3 := by
    unfold_let l3
    split
    · split
      · exact hrecS _ _ _ s2
      · exact s2
    · exact s2
  have t3 : shapeOK l8 := by
    unfold_let l8
    split
    · split
      · exact hrecS _ _ _ t2
      · exact t2
    · exact t2
  have k3 : ∀ y, hasKey l3 y = true ↔ (hasKey st y = true ∨ hasKey l8 y = true) := by
    intro y
    unfold_let l3 l8
    split
    · split
      · rw [hrecK _ _ _ s2, k2 y, hrecK _ _ _ t2]
        tauto
      · exact k2 y
    · exact k2 y
  have s4 : shapeOK l4 := by
    unfold_let l4
    split
    · split
      · exact hrecS _ _ _ s3
      · exact s3
    · exact s3
  have t4 : shapeOK l9 := by
    unfold_let l9
    split
    · split
      · exact hrecS _ _ _ t3
      · exact t3
    · exact t3
  have k4 : ∀ y, hasKey l4 y = true ↔ (hasKey st y = true ∨ hasKey l9 y = true) := by
    intro y
    unfold_let l4 l9
    split
    · split
      · rw [hrecK _ _ _ s3, k3 y, hrecK _ _ _ t3]
        tauto
      · exact k3 y
    · exact k3 y
  have s5 : shapeOK l5 := by
    unfold_let l5
    split
    · split
      · exact hrecS _ _ _ s4
      · exact s4
    · exact s4
  have t5 : shapeOK l10 := by
    unfold_let l10
    split
    · split
      · exact hrecS _ _ _ t4
      · exact t4
    · exact t4
  have k5 : ∀ y, hasKey l5 y = true ↔ (hasKey st y = true ∨ hasKey l10 y = true) := by
    intro y
    unfold_let l5 l10
    split
    · split
      · rw [hrecK _ _ _ s4, k4 y, hrecK _ _ _ t4]
        tauto
      · exact k4 y
    · exact k4 y
  split
  · rw [debugR_keys hrecK s5 _ x, k5 x, debugR_keys hrecK t5 _ x]
    tauto
  · exact k5 x

theorem cascadeTupsF_keys {cfg : Config} {rec : Store → String → PyVal → Store}
    (hrecK : ∀ j v st, shapeOK st → ∀ x, hasKey (rec st j v) x = true ↔
      (hasKey st x = true ∨ hasKey (rec [] j v) x = true))
    (hrecS : ∀ st j v, shapeOK st → shapeOK (rec st j v))
    {st : Store} (hsh : shapeOK st) {keyu : String} {values : List String} (x : String) :
    hasKey (cascadeTupsF cfg rec st keyu values) x = true ↔
      (hasKey st x = true ∨ hasKey (cascadeTupsF cfg rec [] keyu values) x = true) := by
  unfold cascadeTupsF
  repeat' split
  · simp [hasKey, getM]
  · exact @ruleC2Socketaddress_keys cfg rec hrecK hrecS st hsh values x
  · exact ruleSocketaddress_keys hrecK hrecS hsh x
  · exact ruleCredential_keys hrecK hrecS hsh x
  · exact rulePort_keys hrecK hrecS hsh x
  · exact ruleRegistrypathdata_keys hrecK hrecS hsh x
  · exact ruleService_keys hrecK hrecS hsh x
  · simp [hasKey, getM]

/-- Key-set bisimulation for the `listofstrings` handler: on a
well-shaped store with a `listofstrings` key, the keys after a call
are the old keys plus the keys created by the same call from an empty
store. -/
theorem addStrsF_keys {cfg : Config} {rec : Store → String → PyVal → Store}
    (hrecK : ∀ j v st, shapeOK st → ∀ x, hasKey (rec st j v) x = true ↔
      (hasKey st x = true ∨ hasKey (rec [] j v) x = true))
    (hrecS : ∀ st j v, shapeOK st → shapeOK (rec st j v))
    {st : Store} (hsh : shapeOK st) {keyu : String}
    (hf : fields keyu = some .listofstrings) {value : PyVal} (x : String) :
    hasKey (addStrsF cfg rec st keyu value) x = true ↔
      (hasKey st x = true ∨ hasKey (addStrsF cfg rec [] keyu value) x = true) := by
  cases hm : convertU value with
  | none =>
      unfold addStrsF
      simp only [hm]
      exact debugR_keys hrecK hsh _ x
  | some valueu =>
      have hsh1 : shapeOK [(keyu, MVal.list [Entry.s valueu])] := by
        intro p hp
        have hp1 : p = (keyu, MVal.list [Entry.s valueu]) := List.mem_singleton.mp hp
        subst hp1
        exact Or.inl hf
      have hnil : addStrsF cfg rec [] keyu value =
          cascadeStrsF cfg rec [(keyu, MVal.list [Entry.s valueu])] keyu valueu := by
        unfold addStrsF
        rw [hm]
        simp [hasKey, getM, setM, getM_setM]
      rw [hnil]
      unfold addStrsF
      rw [hm]
      by_cases hk : hasKey st keyu = true
      · simp only [if_pos hk]
        cases hgm : getM st keyu with
        | none => simp [hasKey, hgm] at hk
        | some mv =>
            cases mv with
            | dict d =>
                have hdd := hsh _ (getM_mem hgm)
                simp [hf] at hdd
            | list l =>
                simp only [hgm]
                split
                · rw [cascadeStrsF_keys hrecK hrecS (shapeOK_setM hsh (Or.inl hf)) x,
                    cascadeStrsF_keys hrecK hrecS hsh1 x, hasKey_setM]
                  by_cases hx : keyu = x
                  · subst hx
                    simp [hasKey, getM, hk]
                    try tauto
                  · simp [hasKey, getM, hx]
                    try tauto
                · rw [cascadeStrsF_keys hrecK hrecS hsh x,
                    cascadeStrsF_keys hrecK hrecS hsh1 x]
                  by_cases hx : keyu = x
                  · subst hx
                    simp [hasKey, getM, hk]
                    try tauto
                  · simp [hasKey, getM, hx]
                    try tauto
      · simp only [if_neg hk]
        have hg : getM (setM st keyu (.list [])) keyu = some (.list []) := by
          rw [getM_setM]
          simp
        simp only [hg]
        split
        · rw [setM_setM, cascadeStrsF_keys hrecK hrecS (shapeOK_setM hsh (Or.inl hf)) x,
            cascadeStrsF_keys hrecK hrecS hsh1 x, hasKey_setM]
          by_cases hx : keyu = x
          · subst hx
            simp [hasKey, getM]
            try tauto
          · simp [hasKey, getM, hx]
            try tauto
        · next hcond => exact absurd (by simp) hcond

/-- Key-set bisimulation for the `listofstringtuples` handler. -/
theorem addTupsF_keys {cfg : Config} {rec : Store → String → PyVal → Store}
    (hrecK : ∀ j v st, shapeOK st → ∀ x, hasKey (rec st j v) x = true ↔
      (hasKey st x = true ∨ hasKey (rec [] j v) x = true))
    (hrecS : ∀ st j v, shapeOK st → shapeOK (rec st j v))
    {st : Store} (hsh : shapeOK st) {keyu : String}
    (hf : fields keyu = some .listofstringtuples) {value : PyVal} (x : String) :
    hasKey (addTupsF cfg rec st keyu value) x = true ↔
      (hasKey st x = true ∨ hasKey (addTupsF cfg rec [] keyu value) x = true) := by
  by_cases hfal : pyFalsy value = true
  · unfold addTupsF
    simp only [if_pos hfal]
    exact debugR_keys hrecK hsh _ x
  · have hsh1 : shapeOK [(keyu, MVal.list [Entry.t (tupItems value)])] := by
      intro p hp
      have hp1 : p = (keyu, MVal.list [Entry.t (tupItems value)]) := List.mem_singleton.mp hp
      subst hp1
      exact Or.inr hf
    have hnil : addTupsF cfg rec [] keyu value =
        cascadeTupsF cfg rec [(keyu, MVal.list [Entry.t (tupItems value)])] keyu
          (tupItems value) := by
      unfold addTupsF
      rw [if_neg hfal]
      simp [hasKey, getM, setM, getM_setM]
    rw [hnil]
    unfold addTupsF
    rw [if_neg hfal]
    by_cases hk : hasKey st keyu = true
    · simp only [if_pos hk]
      cases hgm : getM st keyu with
      | none => simp [hasKey, hgm] at hk
      | some mv =>
          cases mv with
          | dict d =>
              have hdd := hsh _ (getM_mem hgm)
              simp [hf] at hdd
          | list l =>
              simp only [hgm]
              split
              · rw [cascadeTupsF_keys hrecK hrecS (shapeOK_setM hsh (Or.inr hf)) x,
                  cascadeTupsF_keys hrecK hrecS hsh1 x, hasKey_setM]
                by_cases hx : keyu = x
                · subst hx
                  simp [hasKey, getM, hk]
                  try tauto
                · simp [hasKey, getM, hx]
                  try tauto
              · split
                · rw [cascadeTupsF_keys hrecK hrecS hsh x,
                    cascadeTupsF_keys hrecK hrecS hsh1 x]
                  by_cases hx : keyu = x
                  · subst hx
                    simp [hasKey, getM, hk]
                    try tauto
                  · simp [hasKey, getM, hx]
                    try tauto
                · rw [cascadeTupsF_keys hrecK hrecS (shapeOK_setM hsh (Or.inr hf)) x,
                    cascadeTupsF_keys hrecK hrecS hsh1 x, hasKey_setM]
                  by_cases hx : keyu = x
                  · subst hx
                    simp [hasKey, getM, hk]
                    try tauto
                  · simp [hasKey, getM, hx]
                    try tauto
    · simp only [if_neg hk]
      have hg : getM (setM st keyu (.list [])) keyu = some (.list []) := by
        rw [getM_setM]
        simp
      simp only [hg]
      split
      · rw [setM_setM, cascadeTupsF_keys hrecK hrecS (shapeOK_setM hsh (Or.inr hf)) x,
          cascadeTupsF_keys hrecK hrecS hsh1 x, hasKey_setM]
        by_cases hx : keyu = x
        · subst hx
          simp [hasKey, getM]
          try tauto
        · simp [hasKey, getM, hx]
          try tauto
      · split
        · simp_all
        · rw [setM_setM, cascadeTupsF_keys hrecK hrecS (shapeOK_setM hsh (Or.inr hf)) x,
            cascadeTupsF_keys hrecK hrecS hsh1 x, hasKey_setM]
          by_cases hx : keyu = x
          · subst hx
            simp [hasKey, getM]
            try tauto
          · simp [hasKey, getM, hx]
            try tauto

/-- Key-set bisimulation for the per-item loop of the
`dictofstrings` handler. -/
theorem dictItemsF_keys {cfg : Config} {rec : Store → String → PyVal → Store}
    (hrecK : ∀ j v st, shapeOK st → ∀ x, hasKey (rec st j v) x = true ↔
      (hasKey st x = true ∨ hasKey (rec [] j v) x = true))
    (hrecS : ∀ st j v, shapeOK st → shapeOK (rec st j v)) {keyu : String} :
    ∀ (d : List (String × String)) {st : Store}, shapeOK st → ∀ (x : String),
      hasKey (dictItemsF cfg rec keyu st d) x = true ↔
        (hasKey st x = true ∨ hasKey (dictItemsF cfg rec keyu [] d) x = true) := by
  have hfo : fields "other" = some FType.dictofstrings := rfl
  intro d
  induction d with
  | nil =>
      intro st hsh x
      simp [dictItemsF, hasKey, getM]
  | cons p rest ih =>
      obtain ⟨sk, sv⟩ := p
      intro st hsh x
      have hshn : shapeOK [("other", MVal.dict [(sk, DVal.one sv)])] := by
        intro q hq
        have hq1 : q = ("other", MVal.dict [(sk, DVal.one sv)]) := List.mem_singleton.mp hq
        subst hq1
        exact hfo
      have hnil : dictItemsF cfg rec keyu [] ((sk, sv) :: rest) =
          dictItemsF cfg rec keyu [("other", MVal.dict [(sk, DVal.one sv)])] rest := by
        simp [dictItemsF, hasKey, getM, setM, getM_setM, getD, setD]
      rw [hnil]
      by_cases hk : hasKey st "other" = true
      · cases hgm : getM st "other" with
        | none => simp [hasKey, hgm] at hk
        | some mv =>
            cases mv with
            | list l =>
                have hdd := hsh _ (getM_mem hgm)
                simp [hfo] at hdd
            | dict od =>
                simp only [dictItemsF, if_pos hk, hgm]
                cases hgd : getD od sk with
                | none =>
                    try dsimp only
                    rw [ih (shapeOK_setM hsh hfo) x, ih hshn x, hasKey_setM]
                    by_cases hox : "other" = x
                    · subst hox
                      simp [hasKey, getM, hk]
                      try tauto
                    · simp [hasKey, getM, hox]
                      try tauto
                | some dv =>
                    cases dv with
                    | one e =>
                        try dsimp only
                        split
                        · rw [ih hsh x, ih hshn x]
                          by_cases hox : "other" = x
                          · subst hox
                            simp [hasKey, getM, hk]
                            try tauto
                          · simp [hasKey, getM, hox]
                            try tauto
                        · rw [ih (shapeOK_setM hsh hfo) x, ih hshn x, hasKey_setM]
                          by_cases hox : "other" = x
                          · subst hox
                            simp [hasKey, getM, hk]
                            try tauto
                          · simp [hasKey, getM, hox]
                            try tauto
                    | many ex =>
                        try dsimp only
                        split
                        · rw [ih hsh x, ih hshn x]
                          by_cases hox : "other" = x
                          · subst hox
                            simp [hasKey, getM, hk]
                            try tauto
                          · simp [hasKey, getM, hox]
                            try tauto
                        · rw [ih (shapeOK_setM hsh hfo) x, ih hshn x, hasKey_setM]
                          by_cases hox : "other" = x
                          · subst hox
                            simp [hasKey, getM, hk]
                            try tauto
                          · simp [hasKey, getM, hox]
                            try tauto
      · have hg : getM (setM st "other" (.dict [])) "other" = some (.dict []) := by
          rw [getM_setM]
          simp
        simp only [dictItemsF, if_neg hk, hg, getD, setD]
        rw [setM_setM, ih (shapeOK_setM hsh hfo) x, ih hshn x, hasKey_setM]
        by_cases hox : "other" = x
        · subst hox
          simp [hasKey, getM]
          try tauto
        · simp [hasKey, getM, hox]
          try tauto

/-- Key-set bisimulation for the `dictofstrings` handler. -/
theorem addDictF_keys {cfg : Config} {rec : Store → String → PyVal → Store}
    (hrecK : ∀ j v st, shapeOK st → ∀ x, hasKey (rec st j v) x = true ↔
      (hasKey st x = true ∨ hasKey (rec [] j v) x = true))
    (hrecS : ∀ st j v, shapeOK st → shapeOK (rec st j v))
    {st : Store} (hsh : shapeOK st) {keyu : String} {value : PyVal} (x : String) :
    hasKey (addDictF cfg rec st keyu value) x = true ↔
      (hasKey st x = true ∨ hasKey (addDictF cfg rec [] keyu value) x = true) := by
  cases value with
  | dict d => exact dictItemsF_keys hrecK hrecS d hsh x
  | str s =>
      by_cases he : s.isEmpty = true
      · simp only [addDictF, if_pos he]
        simp [hasKey, getM]
      · simp only [addDictF, if_neg he]
        exact debugR_keys hrecK hsh _ x
  | tup l =>
      by_cases he : l.isEmpty = true
      · simp only [addDictF, if_pos he]
        simp [hasKey, getM]
      · simp only [addDictF, if_neg he]
        exact debugR_keys hrecK hsh _ x

/-- Key-set bisimulation for one `add_metadata` dispatch. -/
theorem addMetadataF_keys {cfg : Config} {rec : Store → String → PyVal → Store}
    (hrecK : ∀ j v st, shapeOK st → ∀ x, hasKey (rec st j v) x = true ↔
      (hasKey st x = true ∨ hasKey (rec [] j v) x = true))
    (hrecS : ∀ st j v, shapeOK st → shapeOK (rec st j v))
    {st : Store} (hsh : shapeOK st) {key : String} {value : PyVal} (x : String) :
    hasKey (addMetadataF cfg rec st key value) x = true ↔
      (hasKey st x = true ∨ hasKey (addMetadataF cfg rec [] key value) x = true) := by
  unfold addMetadataF
  cases hfk : fields key with
  | none => exact debugR_keys hrecK hsh _ x
  | some ft =>
      cases ft with
      | listofstrings => exact addStrsF_keys hrecK hrecS hsh hfk x
      | listofstringtuples => exact addTupsF_keys hrecK hrecS hsh hfk x
      | dictofstrings => exact addDictF_keys hrecK hrecS hsh x

/-- Key-set bisimulation for the fuelled `add_metadata`: starting from
any well-shaped store, a key is present after a call exactly when it
was present before or the same call from the empty store creates it. -/
theorem keysF (cfg : Config) :
    ∀ (n : Nat) (j : String) (v : PyVal) (st : Store), shapeOK st → ∀ (x : String),
      hasKey (addMetaF cfg n st j v) x = true ↔
        (hasKey st x = true ∨ hasKey (addMetaF cfg n [] j v) x = true) := by
  intro n
  induction n with
  | zero =>
      intro j v st hsh x
      simp [addMetaF, hasKey, getM]
  | succ m ih =>
      intro j v st hsh x
      exact addMetadataF_keys ih (fun st' j' v' h' => shapeF cfg m st' h' j' v') hsh x

/-- `add_metadata` key-set bisimulation at the run fuel. -/
theorem add_metadata_keys {cfg : Config} {st : Store} (hsh : shapeOK st)
    (j : String) (v : PyVal) (x : String) :
    hasKey (add_metadata cfg st j v) x = true ↔
      (hasKey st x = true ∨ hasKey (add_metadata cfg [] j v) x = true) :=
  keysF cfg FUEL j v st hsh x

/-- The keys present after a sequence of `add_metadata` calls from the
empty store are exactly the union over the calls of the keys each call
creates on its own. -/
theorem runRecords_keys (cfg : Config) :
    ∀ (calls : List (String × PyVal)) (st : Store), shapeOK st → ∀ (x : String),
      (hasKey (runRecords cfg st calls) x = true ↔
        (hasKey st x = true ∨
          ∃ c ∈ calls, hasKey (add_metadata cfg [] c.1 c.2) x = true)) := by
  intro calls
  induction calls with
  | nil =>
      intro st hsh x
      simp [runRecords]
  | cons c rest ih =>
      intro st hsh x
      have h1 : runRecords cfg st (c :: rest) =
          runRecords cfg (add_metadata cfg st c.1 c.2) rest := rfl
      rw [h1, ih _ (add_metadata_shape hsh c.1 c.2) x,
        add_metadata_keys hsh c.1 c.2 x]
      constructor
      · rintro ((h | h) | ⟨c', hc', h⟩)
        · exact Or.inl h
        · exact Or.inr ⟨c, List.mem_cons_self c rest, h⟩
        · exact Or.inr ⟨c', List.mem_cons_of_mem c hc', h⟩
      · rintro (h | ⟨c', hc', h⟩)
        · exact Or.inl (Or.inl h)
        · rcases List.mem_cons.mp hc' with rfl | hc'
          · exact Or.inl (Or.inr h)
          · exact Or.inr ⟨c', hc', h⟩

/-- C8: for any two runs that record the same (field, value) pairs in
different orders (a permutation), the plain-text report renders its
section headers in the same fixed order, and the File Information and
Standard Metadata sections render the same fields in the same fixed
canonical order, independent of recording order. -/
theorem C8_render_order (cfg : Config) (calls1 calls2 : List (String × PyVal))
    (h : calls1.Perm calls2) (errors : List String) :
    sectionHeaders (runRecords cfg [] calls1) errors =
        sectionHeaders (runRecords cfg [] calls2) errors ∧
      infoKeysRendered (runRecords cfg [] calls1) =
        infoKeysRendered (runRecords cfg [] calls2) ∧
      standardKeysRendered (runRecords cfg [] calls1) =
        standardKeysRendered (runRecords cfg [] calls2) := by
  have hx : ∀ x, hasKey (runRecords cfg [] calls1) x =
      hasKey (runRecords cfg [] calls2) x := by
    intro x
    have A := runRecords_keys cfg calls1 [] shapeOK_nil x
    have B := runRecords_keys cfg calls2 [] shapeOK_nil x
    have hiff : hasKey (runRecords cfg [] calls1) x = true ↔
        hasKey (runRecords cfg [] calls2) x = true := by
      rw [A, B]
      simp [h.mem_iff]
    by_cases hb : hasKey (runRecords cfg [] calls1) x = true
    · rw [hb]
      exact (hiff.mp hb).symm
    · have hb2 : ¬hasKey (runRecords cfg [] calls2) x = true :=
        fun hh => hb (hiff.mpr hh)
      rw [Bool.not_eq_true] at hb hb2
      rw [hb, hb2]
  refine ⟨?_, ?_, ?_⟩
  · unfold sectionHeaders
    rw [hx "inputfilename", hx "other", hx "debug", hx "outputfile"]
  · unfold infoKeysRendered
    rw [hx "inputfilename",
      List.filter_congr (fun a _ => hx a)]
  · unfold standardKeysRendered
    rw [List.filter_congr (fun a _ => hx a)]

/-- Witness for C8: a concrete two-call run permuted. -/
theorem C8_render_order_witness :
    ([(("mutex" : String), PyVal.str "m"), ("port", PyVal.tup ["80", "tcp"])]).Perm
        [("port", PyVal.tup ["80", "tcp"]), ("mutex", PyVal.str "m")] ∧
      (sectionHeaders (runRecords cfgDefault []
            [("mutex", PyVal.str "m"), ("port", PyVal.tup ["80", "tcp"])]) [] =
          sectionHeaders (runRecords cfgDefault []
            [("port", PyVal.tup ["80", "tcp"]), ("mutex", PyVal.str "m")]) [] ∧
        infoKeysRendered (runRecords cfgDefault []
            [("mutex", PyVal.str "m"), ("port", PyVal.tup ["80", "tcp"])]) =
          infoKeysRendered (runRecords cfgDefault []
            [("port", PyVal.tup ["80", "tcp"]), ("mutex", PyVal.str "m")]) ∧
        standardKeysRendered (runRecords cfgDefault []
            [("mutex", PyVal.str "m"), ("port", PyVal.tup ["80", "tcp"])]) =
          standardKeysRendered (runRecords cfgDefault []
            [("port", PyVal.tup ["80", "tcp"]), ("mutex", PyVal.str "m")])) :=
  ⟨by decide,
    C8_render_order cfgDefault
      [("mutex", PyVal.str "m"), ("port", PyVal.tup ["80", "tcp"])]
      [("port", PyVal.tup ["80", "tcp"]), ("mutex", PyVal.str "m")]
      (by decide) []⟩
